import Mathlib

set_option autoImplicit false

/-!
# bodyclose: a shallow embedding of the leak classifier

The analyzer of `passes/bodyclose/bodyclose.go` walks the def-use graph of
`go/ssa`.  The graph is cyclic, so instructions, blocks and functions are
referred to by their index in the tables of a `Program`; every Go pointer
comparison becomes a comparison of indices.

The walk of `isopen` and `calledInFunc` is mutually recursive and carries no
visited set, so the embedding is driven by a recursion budget (`fuel`).  The
only mutable state of a run is the `skipFile` map of the runner, which is
threaded explicitly.
-/

namespace Bodyclose

/-! ## go/types -/

/-- A source position (`token.Pos`). -/
abbrev Pos := Nat
/-- Index of an instruction in `Program.instrs`. -/
abbrev InstrId := Nat
/-- Index of a basic block in `Program.blocks`. -/
abbrev BlockId := Nat
/-- Index of a function in `Program.funcs`. -/
abbrev FuncId := Nat
/-- Index of a file in `Program.files` (the identity of an `*ast.File`). -/
abbrev FileId := Nat

/-- A method object (`*types.Func`): `obj` is its pointer identity, `id` is
`Id()` and `name` is `Name()`. -/
structure Func where
  obj : Nat
  id : String
  name : String
  deriving DecidableEq, Repr, Inhabited

/-- The declaring object of a named type: `Obj().Name()` and, when the object
has a package, `Obj().Pkg().Path()`. -/
structure TypeName where
  name : String
  pkgPath : Option String
  deriving DecidableEq, Repr, Inhabited

/-- The dynamic kind of a `types.Type`, as far as the analyzer looks at it. -/
inductive TypeForm where
  /-- A `*types.Named`. -/
  | named (obj : TypeName)
  /-- A `*types.Pointer`; `elem` is `some` when `Elem()` is a `*types.Named`. -/
  | pointer (elem : Option TypeName)
  /-- Any other type. -/
  | other
  deriving DecidableEq, Repr, Inhabited

/-- A `types.Type` value: `str` is `String()`, `ident` its identity (what `==`
on the interface value compares), `form` its dynamic kind and `iface` the
methods of `Underlying()` when that is a `*types.Interface`. -/
structure GoType where
  str : String
  ident : Nat
  form : TypeForm
  iface : Option (List Func)
  deriving DecidableEq, Repr

instance : Inhabited GoType := ⟨⟨"", 0, TypeForm.other, none⟩⟩

/-- A struct field (`*types.Var`): `Id()` and `Type()`. -/
structure Var where
  id : String
  typ : GoType
  deriving DecidableEq, Repr, Inhabited

/-- The object found for `net/http.Response`: its `Type()` and, when
`Type().Underlying()` is a `*types.Struct`, the fields of that struct. -/
structure ResObject where
  typ : GoType
  fields : Option (List Var)
  deriving DecidableEq, Repr, Inhabited

/-! ## go/ssa -/

/-- An operand (`ssa.Value`).  Values that are not instructions carry their
type and their referrers themselves; `Referrers()` is `nil` for globals,
constants and builtins. -/
inductive Value where
  /-- A value-producing instruction. -/
  | instr (id : InstrId)
  /-- A `*ssa.Global`. -/
  | global (typ : GoType)
  /-- A `*ssa.Function`. -/
  | function (id : FuncId)
  /-- A parameter, free variable, constant or builtin. -/
  | operand (typ : GoType) (referrers : Option (List InstrId))
  deriving DecidableEq, Repr, Inhabited

/-- The `ssa.CallCommon` of a `Call` or `Defer`: `Value` and `Method`
(`none` is call mode, `some` is a dispatched interface method). -/
structure CallCommon where
  value : Value
  method : Option Func
  deriving DecidableEq, Repr, Inhabited

/-- The dynamic type of an instruction, with the operands the analyzer reads. -/
inductive InstrKind where
  | call (c : CallCommon)
  | defer (c : CallCommon)
  | store (addr : Value) (val : Value)
  | fieldAddr (x : Value)
  | unOp (x : Value)
  | phi
  | makeClosure (fn : FuncId)
  | changeInterface (x : Value)
  | ret (results : List Value)
  /-- Any other instruction; `isValue` tells whether it implements `ssa.Value`. -/
  | other (isValue : Bool)
  deriving DecidableEq, Repr, Inhabited

/-- Whether an instruction of this kind implements `ssa.Value`. -/
def InstrKind.isValue : InstrKind → Bool
  | .call _ => true
  | .defer _ => false
  | .store _ _ => false
  | .fieldAddr _ => true
  | .unOp _ => true
  | .phi => true
  | .makeClosure _ => true
  | .changeInterface _ => true
  | .ret _ => false
  | .other v => v

/-- An instruction: `typ` is `Type()` (for values), `referrers` is
`*Referrers()` (for values), `block` is `Block()` and `pos` is `Pos()`. -/
structure Instr where
  kind : InstrKind
  typ : GoType
  referrers : List InstrId
  block : BlockId
  pos : Pos
  deriving DecidableEq, Repr

/-- An instruction the analyzer ignores; what an index outside the table
denotes. -/
def Instr.inert : Instr := ⟨InstrKind.other false, default, [], 0, 0⟩

instance : Inhabited Instr := ⟨Instr.inert⟩

/-- A basic block: `Instrs` and `Parent()`. -/
structure Block where
  instrs : List InstrId
  parent : FuncId
  deriving DecidableEq, Repr, Inhabited

/-- A package as seen through `callee.Pkg.Pkg`: `Name()` and `Path()`. -/
structure Package where
  name : String
  path : String
  deriving DecidableEq, Repr, Inhabited

/-- An `*ssa.Function`: `Name()`, `Pkg`, the type of `Signature.Recv()`, the
types of `Signature.Results()`, `Blocks`, the position of `Object()` (`none`
when `Object()` is nil, as for a function literal), and the function as a
value (`Type()` and `Referrers()`). -/
structure Function where
  name : String
  pkg : Option Package
  recv : Option GoType
  results : List GoType
  blocks : List BlockId
  object : Option Pos
  typ : GoType
  referrers : Option (List InstrId)
  deriving Inhabited

/-- A source file (`*ast.File`): `Pos()`, `End()` and, for each import spec,
its `Path.Value`, quotes included. -/
structure File where
  pos : Pos
  fileEnd : Pos
  imports : List String
  deriving DecidableEq, Repr, Inhabited

/-- What the pass hands to the analyzer: the SSA tables, `SrcFuncs`, the files
of the package, the result of looking `net/http.Response` up in the imports of
the package, and the two library functions applied to an import path
(`strconv.Unquote`, with `none` for an error, and
`analysisutil.RemoveVendor`). -/
structure Program where
  instrs : List Instr
  blocks : List Block
  funcs : List Function
  srcFuncs : List FuncId
  files : List File
  resObj : Option ResObject
  unquote : String → Option String
  removeVendor : String → String

/-- The instruction with a given index. -/
def Program.instr (p : Program) (i : InstrId) : Instr := p.instrs.getD i Instr.inert

/-- The block with a given index. -/
def Program.block (p : Program) (b : BlockId) : Block := p.blocks.getD b default

/-- The function with a given index. -/
def Program.func (p : Program) (f : FuncId) : Function := p.funcs.getD f default

/-- The `Type()` of an operand. -/
def Program.typeOf (p : Program) : Value → GoType
  | .instr i => (p.instr i).typ
  | .global t => t
  | .function f => (p.func f).typ
  | .operand t _ => t

/-- The `Referrers()` of an operand; `none` is a nil pointer. -/
def Program.referrersOf (p : Program) : Value → Option (List InstrId)
  | .instr i => some (p.instr i).referrers
  | .global _ => none
  | .function f => (p.func f).referrers
  | .operand _ refs => refs

/-- The method `CallCommon.StaticCallee` of go/ssa. -/
def staticCallee (p : Program) (c : CallCommon) : Option FuncId :=
  match c.value with
  | .function f => some f
  | .instr i =>
    match (p.instr i).kind with
    | .makeClosure f => some f
    | _ => none
  | _ => none

/-! ## The runner -/

/-- The constant `nethttpPath`. -/
def nethttpPath : String := "net/http"
/-- The constant `ioPath`. -/
def ioPath : String := "io"
/-- The constant `closeMethod`. -/
def closeMethod : String := "Close"

/-- The run-scoped memoization map `skipFile`, as an association list. -/
abbrev SkipFile := List (FileId × Bool)

/-- The assignment `skipFile[file] = v`. -/
def SkipFile.set (s : SkipFile) (file : FileId) (v : Bool) : SkipFile :=
  (file, v) :: s.filter (fun e => e.1 != file)

/-- The immutable part of the `runner` once `runWithRunner` has resolved it.
`resTyp` holds `r.resTyp.String()`, the only way the pointer type is used;
`closeMthd` stays `none` when the interface of the Body field has no method
`Close`.  The fields `ioDiscardObj` and `ioCopyObj` are written and never
read, so they are left out. -/
structure Runner where
  resTyp : String
  bodyObj : Var
  closeMthd : Option Func
  checkConsumption : Bool
  deriving Repr

/-- How a piece of the analyzer ends: it returns a value and leaves the
`skipFile` map in some state, it panics, or the recursion budget runs out. -/
inductive Res (α : Type) where
  | ret (a : α) (s : SkipFile)
  | panicked
  | timeout
  deriving DecidableEq, Repr

/-- A computation of the analyzer over the `skipFile` map. -/
def M (α : Type) : Type := SkipFile → Res α

/-- Return without touching the map. -/
def M.pure {α : Type} (a : α) : M α := fun s => Res.ret a s

/-- Sequencing. -/
def M.bind {α β : Type} (x : M α) (f : α → M β) : M β := fun s =>
  match x s with
  | Res.ret a s1 => f a s1
  | Res.panicked => Res.panicked
  | Res.timeout => Res.timeout

instance : Monad M where
  pure := M.pure
  bind := M.bind

/-- A run-time panic. -/
def M.panic {α : Type} : M α := fun _ => Res.panicked

/-- A pure step that may panic (`none`). -/
def M.ofOption {α : Type} : Option α → M α
  | some a => M.pure a
  | none => M.panic

/-- A `for` loop whose body may return from the enclosing function: the body
yields `some b` for `return b` and `none` to go on with the next element. -/
def forRet {α β : Type} (body : α → M (Option β)) : List α → M (Option β)
  | [] => M.pure none
  | x :: xs => fun s =>
    match body x s with
    | Res.ret (some b) s1 => Res.ret (some b) s1
    | Res.ret none s1 => forRet body xs s1
    | Res.panicked => Res.panicked
    | Res.timeout => Res.timeout

/-- The function `strings.Contains`. -/
def strContains (s sub : String) : Bool :=
  s.data.tails.any (fun t => sub.data.isPrefixOf t)

/-! ## The helpers of the classifier -/

/-- The method `getReqCall`: the instruction is a `Call` whose type string
contains the response pointer type and does not contain
`net/http.ResponseController`. -/
def getReqCall (p : Program) (r : Runner) (instr : InstrId) : Option InstrId :=
  match (p.instr instr).kind with
  | .call _ =>
    if !strContains (p.instr instr).typ.str r.resTyp ||
        strContains (p.instr instr).typ.str "net/http.ResponseController" then
      none
    else
      some instr
  | _ => none

/-- The method `getResVal`: the response value an instruction gives access to. -/
def getResVal (p : Program) (r : Runner) (instr : InstrId) : Option Value :=
  match (p.instr instr).kind with
  | .fieldAddr x =>
    if (p.typeOf x).str == r.resTyp then some x else none
  | k =>
    if k.isValue then
      if (p.instr instr).typ.str == r.resTyp then some (Value.instr instr) else none
    else
      match k with
      | .store _ val => if (p.typeOf val).str == r.resTyp then some val else none
      | _ => none

/-- The method `getBodyOp`: the instruction is a `UnOp` whose type is the type
of the Body field. -/
def getBodyOp (p : Program) (r : Runner) (instr : InstrId) : Option InstrId :=
  match (p.instr instr).kind with
  | .unOp _ =>
    if (p.instr instr).typ.ident != r.bodyObj.typ.ident then none else some instr
  | _ => none

/-- The method `isConsumptionFunction`, on the `CallCommon` of the call. -/
def isConsumptionFunction (p : Program) (call : CallCommon) : Bool :=
  match staticCallee p call with
  | some callee =>
    match (p.func callee).pkg with
    | some pk =>
      let pkg := pk.path
      let name := (p.func callee).name
      (pkg == ioPath && (name == "Copy" || name == "ReadAll")) ||
        (pkg == "io/ioutil" && name == "ReadAll") ||
        (pkg == "encoding/json" && name == "NewDecoder") ||
        (pkg == "bufio" && (name == "NewScanner" || name == "NewReader"))
    | none => false
  | none => false

/-- The method `isBodyConsumed`: some `Call` of the function enclosing
`bodyOp` is a consumption function.  The second argument is not read. -/
def isBodyConsumed (p : Program) (bodyOp : InstrId) (_instr : InstrId) : Bool :=
  let fn := (p.block (p.instr bodyOp).block).parent
  (p.func fn).blocks.any fun block =>
    (p.block block).instrs.any fun blockInstr =>
      match (p.instr blockInstr).kind with
      | .call c => isConsumptionFunction p c
      | _ => false

/-- The `Defer` arm inside the `ChangeInterface` case of `isCloseCall`: the
deferred value is a function one of whose calls invokes `closeMtd`. -/
def deferCallsMethod (p : Program) (closeMtd : Func) (cs : InstrId) : Bool :=
  match (p.instr cs).kind with
  | .defer c =>
    match c.value with
    | .function val =>
      (p.func val).blocks.any fun b =>
        (p.block b).instrs.any fun instr =>
          match (p.instr instr).kind with
          | .call cc =>
            match cc.method with
            | some m => m.obj == closeMtd.obj
            | none => false
          | _ => false
    | _ => false
  | _ => false

/-- The `Return` arm inside the `ChangeInterface` case of `isCloseCall`. -/
def returnsCloser (p : Program) (cs : InstrId) : Bool :=
  match (p.instr cs).kind with
  | .ret results => results.any fun resultValue => (p.typeOf resultValue).str == "io.Closer"
  | _ => false

/-- The method `isCloseCall`; `none` is a panic (the nil `closeMthd`, or the
`Method(0)` of a type that is no interface or has no method). -/
def isCloseCall (p : Program) (r : Runner) (ccall : InstrId) : Option Bool :=
  match (p.instr ccall).kind with
  | .defer c =>
    match c.method with
    | some m =>
      match r.closeMthd with
      | some cm => some (m.name == cm.name)
      | none => none
    | none => some false
  | .call c =>
    match c.method with
    | some m =>
      match r.closeMthd with
      | some cm => some (m.name == cm.name)
      | none => none
    | none => some false
  | .changeInterface _ =>
    if (p.instr ccall).typ.str == "io.Closer" then
      match (p.instr ccall).typ.iface with
      | some (closeMtd :: _) =>
        some ((p.instr ccall).referrers.any fun cs =>
          deferCallsMethod p closeMtd cs || returnsCloser p cs)
      | _ => none
    else
      some false
  | .ret results =>
    some (results.any fun resultValue => (p.typeOf resultValue).str == "io.ReadCloser")
  | _ => some false

/-- The method `isClosureCalled`. -/
def isClosureCalled (p : Program) (c : InstrId) : Bool :=
  (p.instr c).referrers.any fun ref =>
    match (p.instr ref).kind with
    | .call _ => true
    | .defer _ => true
    | _ => false

/-- The function `analysisutil.File`: the first file of the pass whose extent
holds the position. -/
def fileOf (p : Program) (pos : Pos) : Option FileId :=
  p.files.findIdx? fun f => decide (f.pos ≤ pos) && decide (pos ≤ f.fileEnd)

/-- The import scan of `noImportedNetHTTP`: no import of the file has the
unquoted, vendor-stripped path `net/http`. -/
def scanImports (p : Program) (file : FileId) : Bool :=
  !((p.files.getD file default).imports.any fun value =>
    match p.unquote value with
    | none => false
    | some path => p.removeVendor path == nethttpPath)

/-- The method `noImportedNetHTTP`, reading and writing the `skipFile` map. -/
def noImportedNetHTTP (p : Program) (f : FuncId) : M Bool :=
  match (p.func f).object with
  | none => M.pure false
  | some pos =>
    match fileOf p pos with
    | none => M.pure false
    | some file => fun s =>
      match s.lookup file with
      | some skip => Res.ret skip s
      | none =>
        let ret := scanImports p file
        Res.ret ret (SkipFile.set s file ret)

/-- The function `isNamedType`. -/
def isNamedType (t : Option TypeName) (path name : String) : Bool :=
  match t with
  | none => false
  | some obj => obj.name == name && (obj.pkgPath.isSome && obj.pkgPath == some path)

/-- The type test of `calledInFunc`: the type is a pointer whose element is
the named type `io.ReadCloser`. -/
def isReadCloserPtr (t : GoType) : Bool :=
  match t.form with
  | .pointer elem => isNamedType elem "io" "ReadCloser"
  | _ => false

/-- The `UnOp` case of `calledInFunc`: `some b` is `return b`, `none` goes on
with the next instruction. -/
def calledInFuncUnOp (p : Program) (instr : InstrId) (called : Bool) : Option Bool :=
  let refs := (p.instr instr).referrers
  if refs.length == 0 then some true
  else refs.findSome? fun r =>
    if (p.instr r).kind.isValue then
      if !isReadCloserPtr (p.instr r).typ then none
      else (p.instr r).referrers.findSome? fun vref =>
        match (p.instr vref).kind with
        | .unOp _ =>
          let vrefs := (p.instr vref).referrers
          if vrefs.length == 0 then some true
          else vrefs.findSome? fun vref2 =>
            match (p.instr vref2).kind with
            | .call c =>
              match c.method with
              | some m => if m.name == closeMethod then some (!called) else none
              | none => none
            | _ => none
        | _ => none
    else none

/-- The body of the instruction loop of `calledInFunc`, at the instruction
`b.Instrs[e.1] = e.2`; `isopenRec` is `isopen` one level down. -/
def calledInFuncStep (isopenRec : BlockId → Nat → M Bool) (p : Program) (called : Bool)
    (b : BlockId) (e : Nat × InstrId) : M (Option Bool) :=
  match (p.instr e.2).kind with
  | .unOp _ => M.pure (calledInFuncUnOp p e.2 called)
  | _ => do
    let o ← isopenRec b e.1
    M.pure (some (o || !called))

/-- The method `calledInFunc`; `isopenRec` is `isopen` one level down. -/
def calledInFunc (isopenRec : BlockId → Nat → M Bool) (p : Program) (f : FuncId)
    (called : Bool) : M Bool := do
  let out ← forRet (fun b =>
    forRet (calledInFuncStep isopenRec p called b) (p.block b).instrs.enum) (p.func f).blocks
  M.pure (out.getD false)

/-! ## The classifier -/

/-- The loop over `ccalls` in the `FieldAddr` case of `isopen`, from the pair
`(hasClose, hasConsumption)` accumulated so far. -/
def scanCcalls (p : Program) (r : Runner) (bOp : InstrId) :
    List InstrId → Bool × Bool → M (Bool × Bool)
  | [], acc => M.pure acc
  | ccall :: rest, acc => do
    let c ← M.ofOption (isCloseCall p r ccall)
    let hasClose := if c then true else acc.1
    let hasConsumption :=
      if r.checkConsumption && isBodyConsumed p bOp ccall then true else acc.2
    scanCcalls p r bOp rest (hasClose, hasConsumption)

/-- The body of the loop over `bRefs` in the `FieldAddr` case of `isopen`. -/
def fieldAddrStep (p : Program) (r : Runner) (bRef : InstrId) : M (Option Bool) :=
  match getBodyOp p r bRef with
  | none => M.pure none
  | some bOp =>
    if (p.instr bOp).referrers.length == 0 then M.pure (some true)
    else do
      let acc ← scanCcalls p r bOp (p.instr bOp).referrers (false, !r.checkConsumption)
      if acc.1 && acc.2 then M.pure (some false) else M.pure none

/-- The loop over `bRefs` in the `FieldAddr` case of `isopen`. -/
def fieldAddrLoop (p : Program) (r : Runner) (bRefs : List InstrId) : M (Option Bool) :=
  forRet (fieldAddrStep p r) bRefs

/-- The loop over `ccalls` in the `Phi` case of `isopen`. -/
def phiScanCcalls (p : Program) (r : Runner) (bOp : InstrId) :
    List InstrId → Bool × Bool → M (Bool × Bool)
  | [], acc => M.pure acc
  | ccall :: rest, acc => do
    let c ← M.ofOption (isCloseCall p r ccall)
    let hasClose := if c then true else acc.1
    let hasConsumption :=
      if r.checkConsumption && isBodyConsumed p bOp ccall then true else acc.2
    phiScanCcalls p r bOp rest (hasClose, hasConsumption)

/-- The body of the inner loop of the `Phi` case of `isopen`, over the
referrers of a `FieldAddr`. -/
def phiFieldStep (p : Program) (r : Runner) (bRef : InstrId) : M (Option Bool) :=
  match getBodyOp p r bRef with
  | none => M.pure none
  | some bOp =>
    if (p.instr bOp).referrers.length == 0 then M.pure (some true)
    else do
      let acc ← phiScanCcalls p r bOp (p.instr bOp).referrers (false, !r.checkConsumption)
      if acc.1 && acc.2 then M.pure (some false) else M.pure none

/-- The body of the outer loop of the `Phi` case of `isopen`, over the
referrers of the `Phi`. -/
def phiStep (p : Program) (r : Runner) (bRef : InstrId) : M (Option Bool) :=
  match (p.instr bRef).kind with
  | .fieldAddr _ => forRet (phiFieldStep p r) (p.instr bRef).referrers
  | _ => M.pure none

/-- The loop over the referrers of the `Phi` in the `Phi` case of `isopen`. -/
def phiLoop (p : Program) (r : Runner) (bRefs : List InstrId) : M (Option Bool) :=
  forRet (phiStep p r) bRefs

/-- The innermost loop body of the struct-field search: a closing instruction
among the referrers of a body load returns `false`. -/
def closeStep (p : Program) (r : Runner) (ccall : InstrId) : M (Option Bool) := do
  let c ← M.ofOption (isCloseCall p r ccall)
  if c then M.pure (some false) else M.pure none

/-- The body of the loop over the block of a field address in the `Store`
case of `isopen`. -/
def closeInBlockStep (p : Program) (r : Runner) (bRef : InstrId) : M (Option Bool) :=
  match getBodyOp p r bRef with
  | none => M.pure none
  | some bOp => forRet (closeStep p r) (p.instr bOp).referrers

/-- The search of the `Store` case of `isopen` for a store into a struct
field: the block of the field address `f` is scanned for a body load that has
a closing instruction among its referrers. -/
def closeInBlock (p : Program) (r : Runner) (f : InstrId) : M (Option Bool) :=
  forRet (closeInBlockStep p r) (p.block (p.instr f).block).instrs

/-- The body of the loop over the referrers of the address in the `Store`
case of `isopen`. -/
def arefStep (isopenRec : BlockId → Nat → M Bool) (p : Program) (r : Runner)
    (aref : InstrId) : M (Option Bool) :=
  match (p.instr aref).kind with
  | .makeClosure f => do
    let skip ← noImportedNetHTTP p f
    if skip then M.pure (some false)
    else do
      let called := isClosureCalled p aref
      let o ← calledInFunc isopenRec p f called
      M.pure (some o)
  | .store (.instr fa) _ =>
    match (p.instr fa).kind with
    | .fieldAddr _ => closeInBlock p r fa
    | _ => M.pure none
  | _ => M.pure none

/-- The `Store` case of `isopen`, for a store to `addr`. -/
def storeCase (isopenRec : BlockId → Nat → M Bool) (p : Program) (r : Runner)
    (addr : Value) : M (Option Bool) :=
  match addr with
  | .global _ => M.pure (some false)
  | _ =>
    match p.referrersOf addr with
    | none => M.panic
    | some arefs =>
      if arefs.length == 0 then M.pure (some true)
      else forRet (arefStep isopenRec p r) arefs

/-- The body of the instruction loop of the `Call`, `Defer` case of `isopen`,
at the instruction `b.Instrs[e.1] = e.2` of the callee. -/
def calleeStep (isopenRec : BlockId → Nat → M Bool) (p : Program) (r : Runner)
    (b : BlockId) (e : Nat × InstrId) : M (Option Bool) := do
  let c ← M.ofOption (isCloseCall p r e.2)
  if c then M.pure (some false)
  else do
    let o ← isopenRec b e.1
    if o then M.pure (some true) else M.pure none

/-- The `Call`, `Defer` case of `isopen`. -/
def callCase (isopenRec : BlockId → Nat → M Bool) (p : Program) (r : Runner)
    (call : CallCommon) : M (Option Bool) :=
  match call.value with
  | .function f =>
    forRet (fun b => forRet (calleeStep isopenRec p r b) (p.block b).instrs.enum)
      (p.func f).blocks
  | _ => M.pure none

/-- The test of `isopen` for the accessor `Result` of
`httptest.ResponseRecorder`. -/
def isRecorderResult (p : Program) (c : CallCommon) : Bool :=
  match staticCallee p c with
  | some callee =>
    (p.func callee).name == "Result" &&
      (match (p.func callee).pkg with
        | some pk => pk.name == "httptest"
        | none => false) &&
      (match (p.func callee).recv with
        | some recv => recv.str == "*net/http/httptest.ResponseRecorder"
        | none => false)
  | none => false

/-- The type switch of `isopen` on a referrer `resRef` of a response value. -/
def resRefStep (isopenRec : BlockId → Nat → M Bool) (p : Program) (r : Runner)
    (resRef : InstrId) : M (Option Bool) :=
  match (p.instr resRef).kind with
  | .store addr _ => storeCase isopenRec p r addr
  | .call c => callCase isopenRec p r c
  | .defer c => callCase isopenRec p r c
  | .fieldAddr _ => fieldAddrLoop p r (p.instr resRef).referrers
  | .phi => phiLoop p r (p.instr resRef).referrers
  | _ => M.pure none

/-- The body of the loop of `isopen` over the referrers `cRefs` of the call. -/
def cRefStep (isopenRec : BlockId → Nat → M Bool) (p : Program) (r : Runner)
    (cRef : InstrId) : M (Option Bool) :=
  match getResVal p r cRef with
  | none => M.pure none
  | some val =>
    match p.referrersOf val with
    | none => M.panic
    | some resRefs =>
      if resRefs.length == 0 then M.pure (some true)
      else forRet (resRefStep isopenRec p r) resRefs

/-- The part of `isopen` after the test for the recorder accessor: the loop
over `cRefs`, and `true` when it returns nothing. -/
def classify (isopenRec : BlockId → Nat → M Bool) (p : Program) (r : Runner)
    (call : InstrId) : M Bool := do
  let out ← forRet (cRefStep isopenRec p r) (p.instr call).referrers
  M.pure (out.getD true)

/-- The body of `isopen` for the instruction `b.Instrs[i]`, with the recursive
calls given by `isopenRec`. -/
def isopenBody (isopenRec : BlockId → Nat → M Bool) (p : Program) (r : Runner)
    (b : BlockId) (i : Nat) : M Bool :=
  match (p.block b).instrs[i]? with
  | none => M.panic
  | some instr =>
    match getReqCall p r instr with
    | none => M.pure false
    | some call =>
      if (p.instr call).referrers.length == 0 then M.pure true
      else
        match (p.instr instr).kind with
        | .call c =>
          if isRecorderResult p c then M.pure false
          else classify isopenRec p r call
        | _ => classify isopenRec p r call

/-- The method `isopen`.  Every nested call of `isopen` uses up one unit of
the recursion budget; with none left the walk is cut off. -/
def isopen (p : Program) (r : Runner) : Nat → BlockId → Nat → M Bool
  | 0, _, _ => fun _ => Res.timeout
  | fuel + 1, b, i => isopenBody (isopen p r fuel) p r b i

/-! ## The run -/

/-- A diagnostic handed to `pass.Reportf`. -/
structure Diagnostic where
  pos : Pos
  message : String
  deriving DecidableEq, Repr

/-- What `runWithRunner` gives back: the error (`none` is nil) and the
diagnostics reported, in order. -/
structure RunOutput where
  err : Option String
  diags : List Diagnostic
  deriving DecidableEq, Repr

/-- A `for` loop that only reports: the diagnostics of the iterations, in
order. -/
def forEmit {α : Type} (body : α → M (List Diagnostic)) : List α → M (List Diagnostic)
  | [] => M.pure []
  | x :: xs => do
    let d ← body x
    let ds ← forEmit body xs
    M.pure (d ++ ds)

/-- The message of the mode. -/
def message (checkConsumption : Bool) : String :=
  if checkConsumption then "response body must be closed and consumed"
  else "response body must be closed"

/-- The innermost step of `FuncLoop`: the instruction `b.Instrs[i]`. -/
def scanInstr (fuel : Nat) (p : Program) (r : Runner) (b : BlockId) (e : Nat × InstrId) :
    M (List Diagnostic) := do
  let pos := (p.instr e.2).pos
  let o ← isopen p r fuel b e.1
  if o then M.pure [⟨pos, message r.checkConsumption⟩] else M.pure []

/-- Whether `FuncLoop` skips the function: one of its result types has the
type string of the response pointer type. -/
def returnsResponse (p : Program) (r : Runner) (f : FuncId) : Bool :=
  (p.func f).results.any fun t => t.str == r.resTyp

/-- One iteration of `FuncLoop`. -/
def scanFunc (fuel : Nat) (p : Program) (r : Runner) (f : FuncId) : M (List Diagnostic) :=
  if returnsResponse p r f then M.pure []
  else forEmit (fun b => forEmit (scanInstr fuel p r b) (p.block b).instrs.enum) (p.func f).blocks

/-- The function `runWithRunner`, for a runner whose only field set is
`checkConsumption`.  `fuel` is the recursion budget of each top-level call of
`isopen`. -/
def runWithRunner (fuel : Nat) (p : Program) (checkConsumption : Bool) : Res RunOutput :=
  match p.resObj with
  | none => Res.ret ⟨none, []⟩ []
  | some resObj =>
    match resObj.typ.form with
    | .named _ =>
      let resTyp := "*" ++ resObj.typ.str
      match resObj.fields with
      | none => Res.ret ⟨some "cannot find http.Response", []⟩ []
      | some fields =>
        match fields.find? (fun field => field.id == "Body") with
        | none => Res.ret ⟨some "cannot find the object http.Response.Body", []⟩ []
        | some bodyObj =>
          match bodyObj.typ.form with
          | .named _ =>
            match bodyObj.typ.iface with
            | none => Res.panicked
            | some methods =>
              let closeMthd := methods.find? (fun bmthd => bmthd.id == closeMethod)
              let r : Runner := ⟨resTyp, bodyObj, closeMthd, checkConsumption⟩
              match forEmit (scanFunc fuel p r) p.srcFuncs [] with
              | Res.ret diags s => Res.ret ⟨none, diags⟩ s
              | Res.panicked => Res.panicked
              | Res.timeout => Res.timeout
          | _ => Res.panicked
    | _ => Res.ret ⟨some "cannot find http.Response", []⟩ []

/-- The function `run`: the flag `check-consumption` decides the mode. -/
def run (fuel : Nat) (p : Program) (flag : Bool) : Res RunOutput :=
  runWithRunner fuel p flag

/-- The function `runWithConsumption`. -/
def runWithConsumption (fuel : Nat) (p : Program) : Res RunOutput :=
  runWithRunner fuel p true

/-! ## Fixtures: SSA listings of small packages

The listings follow what go/ssa builds for the sources quoted with each
package: one `Instr` per SSA instruction, in block order, with the referrers
in the order in which the referring instructions are emitted. -/

namespace Fixture

/-- The method `Close` of `io.ReadCloser`. -/
def fClose : Func := ⟨1, "Close", "Close"⟩
/-- The method `Read` of `io.ReadCloser`. -/
def fRead : Func := ⟨2, "Read", "Read"⟩

def tResponse : GoType := ⟨"net/http.Response", 10, TypeForm.named ⟨"Response", some "net/http"⟩, none⟩
def tResp : GoType := ⟨"*net/http.Response", 11, TypeForm.pointer (some ⟨"Response", some "net/http"⟩), none⟩
def tRespCell : GoType := ⟨"**net/http.Response", 12, TypeForm.pointer none, none⟩
def tGetResult : GoType := ⟨"(*net/http.Response, error)", 13, TypeForm.other, none⟩
def tError : GoType := ⟨"error", 14, TypeForm.named ⟨"error", none⟩, some [⟨3, "Error", "Error"⟩]⟩
def tBool : GoType := ⟨"bool", 15, TypeForm.other, none⟩
def tReadCloser : GoType := ⟨"io.ReadCloser", 16, TypeForm.named ⟨"ReadCloser", some "io"⟩, some [fClose, fRead]⟩
def tReadCloserPtr : GoType := ⟨"*io.ReadCloser", 17, TypeForm.pointer (some ⟨"ReadCloser", some "io"⟩), none⟩
def tReader : GoType := ⟨"io.Reader", 18, TypeForm.named ⟨"Reader", some "io"⟩, some [fRead]⟩
def tWriter : GoType := ⟨"io.Writer", 19, TypeForm.named ⟨"Writer", some "io"⟩, some [⟨4, "Write", "Write"⟩]⟩
def tWriterPtr : GoType := ⟨"*io.Writer", 20, TypeForm.pointer (some ⟨"Writer", some "io"⟩), none⟩
def tCopyResult : GoType := ⟨"(written int64, err error)", 21, TypeForm.other, none⟩
def tReadAllResult : GoType := ⟨"([]byte, error)", 22, TypeForm.other, none⟩
def tBytes : GoType := ⟨"[]byte", 23, TypeForm.other, none⟩
def tString : GoType := ⟨"string", 24, TypeForm.other, none⟩
def tStringPtr : GoType := ⟨"*string", 25, TypeForm.pointer none, none⟩
def tFunc : GoType := ⟨"func()", 26, TypeForm.other, none⟩
def tUnit : GoType := ⟨"()", 27, TypeForm.other, none⟩
def tInt : GoType := ⟨"int", 28, TypeForm.other, none⟩
def tIntPtr : GoType := ⟨"*int", 29, TypeForm.pointer none, none⟩
def tRecorder : GoType := ⟨"*net/http/httptest.ResponseRecorder", 30, TypeForm.pointer (some ⟨"ResponseRecorder", some "net/http/httptest"⟩), none⟩

/-- The object `net/http.Response` with the fields the fixtures read. -/
def responseObj : ResObject :=
  ⟨tResponse, some [⟨"Status", tString⟩, ⟨"StatusCode", tInt⟩, ⟨"Body", tReadCloser⟩]⟩

/-- The runner `runWithRunner` resolves for `responseObj`. -/
def runner (checkConsumption : Bool) : Runner :=
  ⟨"*net/http.Response", ⟨"Body", tReadCloser⟩, some fClose, checkConsumption⟩

/-- The function `strconv.Unquote` on the import paths of the fixtures. -/
def unquote (s : String) : Option String :=
  if s = "\"io\"" then some "io"
  else if s = "\"net/http\"" then some "net/http"
  else if s = "\"net/http/httptest\"" then some "net/http/httptest"
  else none

/-- The function `http.Get`. -/
def fnGet : Function := ⟨"Get", some ⟨"http", "net/http"⟩, none, [tResp, tError], [], some 900001, default, none⟩
/-- The function `io.Copy`. -/
def fnCopy : Function := ⟨"Copy", some ⟨"io", "io"⟩, none, [], [], some 900002, default, none⟩
/-- The function `io.ReadAll`. -/
def fnReadAll : Function := ⟨"ReadAll", some ⟨"io", "io"⟩, none, [tBytes, tError], [], some 900003, default, none⟩
/-- The method `(*httptest.ResponseRecorder).Result`. -/
def fnResult : Function :=
  ⟨"Result", some ⟨"httptest", "net/http/httptest"⟩, some tRecorder, [tResp], [], some 900004, default, none⟩

/-- The instructions 0 to 15: the function `consumedWithCopy`. -/
def consumptionInstrs3 : List Instr := [
  ⟨InstrKind.call ⟨Value.function 0, none⟩, tGetResult, [1, 2], 0, 1123⟩,
  ⟨InstrKind.other true, tResp, [6, 10], 0, 1102⟩,
  ⟨InstrKind.other true, tError, [3], 0, 1108⟩,
  ⟨InstrKind.other true, tBool, [4], 0, 1209⟩,
  ⟨InstrKind.other false, default, [], 0, 1202⟩,
  ⟨InstrKind.ret [], default, [], 1, 1303⟩,
  ⟨InstrKind.fieldAddr (Value.instr 1), tReadCloserPtr, [7], 2, 1513⟩,
  ⟨InstrKind.unOp (Value.instr 6), tReadCloser, [8], 2, 1513⟩,
  ⟨InstrKind.defer ⟨Value.instr 7, (some fClose)⟩, default, [], 2, 1523⟩,
  ⟨InstrKind.unOp (Value.global tWriterPtr), tWriter, [13], 2, 1613⟩,
  ⟨InstrKind.fieldAddr (Value.instr 1), tReadCloserPtr, [11], 2, 1627⟩,
  ⟨InstrKind.unOp (Value.instr 10), tReadCloser, [12], 2, 1627⟩,
  ⟨InstrKind.changeInterface (Value.instr 11), tReader, [13], 2, 1627⟩,
  ⟨InstrKind.call ⟨Value.function 1, none⟩, tCopyResult, [], 2, 1609⟩,
  ⟨InstrKind.other false, default, [], 2, 1701⟩,
  ⟨InstrKind.ret [], default, [], 2, 1701⟩]

/-- The instructions 16 to 32: the function `consumedWithReadAll`. -/
def consumptionInstrs4 : List Instr := [
  ⟨InstrKind.call ⟨Value.function 0, none⟩, tGetResult, [17, 18], 3, 2023⟩,
  ⟨InstrKind.other true, tResp, [22, 25], 3, 2002⟩,
  ⟨InstrKind.other true, tError, [19], 3, 2008⟩,
  ⟨InstrKind.other true, tBool, [20], 3, 2109⟩,
  ⟨InstrKind.other false, default, [], 3, 2102⟩,
  ⟨InstrKind.ret [], default, [], 4, 2203⟩,
  ⟨InstrKind.fieldAddr (Value.instr 17), tReadCloserPtr, [23], 5, 2413⟩,
  ⟨InstrKind.unOp (Value.instr 22), tReadCloser, [24], 5, 2413⟩,
  ⟨InstrKind.defer ⟨Value.instr 23, (some fClose)⟩, default, [], 5, 2423⟩,
  ⟨InstrKind.fieldAddr (Value.instr 17), tReadCloserPtr, [26], 5, 2527⟩,
  ⟨InstrKind.unOp (Value.instr 25), tReadCloser, [27], 5, 2527⟩,
  ⟨InstrKind.changeInterface (Value.instr 26), tReader, [28], 5, 2527⟩,
  ⟨InstrKind.call ⟨Value.function 2, none⟩, tReadAllResult, [29, 30], 5, 2518⟩,
  ⟨InstrKind.other true, tBytes, [], 5, 2502⟩,
  ⟨InstrKind.other true, tError, [], 5, 2505⟩,
  ⟨InstrKind.other false, default, [], 5, 2601⟩,
  ⟨InstrKind.ret [], default, [], 5, 2601⟩]

/-- The instructions 33 to 43: the function `notConsumed1`. -/
def consumptionInstrs5 : List Instr := [
  ⟨InstrKind.call ⟨Value.function 0, none⟩, tGetResult, [34, 35], 6, 2923⟩,
  ⟨InstrKind.other true, tResp, [39], 6, 2902⟩,
  ⟨InstrKind.other true, tError, [36], 6, 2908⟩,
  ⟨InstrKind.other true, tBool, [37], 6, 3009⟩,
  ⟨InstrKind.other false, default, [], 6, 3002⟩,
  ⟨InstrKind.ret [], default, [], 7, 3103⟩,
  ⟨InstrKind.fieldAddr (Value.instr 34), tReadCloserPtr, [40], 8, 3313⟩,
  ⟨InstrKind.unOp (Value.instr 39), tReadCloser, [41], 8, 3313⟩,
  ⟨InstrKind.defer ⟨Value.instr 40, (some fClose)⟩, default, [], 8, 3323⟩,
  ⟨InstrKind.other false, default, [], 8, 3501⟩,
  ⟨InstrKind.ret [], default, [], 8, 3501⟩]

/-- The instructions 44 to 56: the function `notConsumed2`. -/
def consumptionInstrs6 : List Instr := [
  ⟨InstrKind.call ⟨Value.function 0, none⟩, tGetResult, [45, 46], 9, 3823⟩,
  ⟨InstrKind.other true, tResp, [50, 53], 9, 3802⟩,
  ⟨InstrKind.other true, tError, [47], 9, 3808⟩,
  ⟨InstrKind.other true, tBool, [48], 9, 3909⟩,
  ⟨InstrKind.other false, default, [], 9, 3902⟩,
  ⟨InstrKind.ret [], default, [], 10, 4003⟩,
  ⟨InstrKind.fieldAddr (Value.instr 45), tReadCloserPtr, [51], 11, 4213⟩,
  ⟨InstrKind.unOp (Value.instr 50), tReadCloser, [52], 11, 4213⟩,
  ⟨InstrKind.defer ⟨Value.instr 51, (some fClose)⟩, default, [], 11, 4223⟩,
  ⟨InstrKind.fieldAddr (Value.instr 45), tStringPtr, [54], 11, 4410⟩,
  ⟨InstrKind.unOp (Value.instr 53), tString, [], 11, 4410⟩,
  ⟨InstrKind.other false, default, [], 11, 4501⟩,
  ⟨InstrKind.ret [], default, [], 11, 4501⟩]

/-- The instructions 57 to 65: the function `consumedInHelper`. -/
def consumptionInstrs7 : List Instr := [
  ⟨InstrKind.call ⟨Value.function 0, none⟩, tGetResult, [58, 59], 12, 4823⟩,
  ⟨InstrKind.other true, tResp, [63], 12, 4802⟩,
  ⟨InstrKind.other true, tError, [60], 12, 4808⟩,
  ⟨InstrKind.other true, tBool, [61], 12, 4909⟩,
  ⟨InstrKind.other false, default, [], 12, 4902⟩,
  ⟨InstrKind.ret [], default, [], 13, 5003⟩,
  ⟨InstrKind.defer ⟨Value.function 8, none⟩, default, [], 14, 5221⟩,
  ⟨InstrKind.other false, default, [], 14, 5301⟩,
  ⟨InstrKind.ret [], default, [], 14, 5301⟩]

/-- The instructions 66 to 81: the function `drainAndClose`. -/
def consumptionInstrs8 : List Instr := [
  ⟨InstrKind.other true, tBool, [67], 15, 5610⟩,
  ⟨InstrKind.other false, default, [], 15, 5602⟩,
  ⟨InstrKind.unOp (Value.global tWriterPtr), tWriter, [72], 16, 5713⟩,
  ⟨InstrKind.fieldAddr (Value.operand tResp (some [66, 69, 73, 78])), tReadCloserPtr, [70], 16, 5727⟩,
  ⟨InstrKind.unOp (Value.instr 69), tReadCloser, [71], 16, 5727⟩,
  ⟨InstrKind.changeInterface (Value.instr 70), tReader, [72], 16, 5727⟩,
  ⟨InstrKind.call ⟨Value.function 1, none⟩, tCopyResult, [], 16, 5709⟩,
  ⟨InstrKind.fieldAddr (Value.operand tResp (some [66, 69, 73, 78])), tReadCloserPtr, [74], 16, 5807⟩,
  ⟨InstrKind.unOp (Value.instr 73), tReadCloser, [75], 16, 5807⟩,
  ⟨InstrKind.call ⟨Value.instr 74, (some fClose)⟩, tError, [], 16, 5818⟩,
  ⟨InstrKind.ret [], default, [], 16, 6001⟩,
  ⟨InstrKind.ret [], default, [], 17, 6001⟩,
  ⟨InstrKind.fieldAddr (Value.operand tResp (some [66, 69, 73, 78])), tReadCloserPtr, [79], 18, 5625⟩,
  ⟨InstrKind.unOp (Value.instr 78), tReadCloser, [80], 18, 5625⟩,
  ⟨InstrKind.other true, tBool, [81], 18, 5630⟩,
  ⟨InstrKind.other false, default, [], 18, 5602⟩]

/-- The instructions 82 to 88: the function `notClosedAtAll`. -/
def consumptionInstrs9 : List Instr := [
  ⟨InstrKind.call ⟨Value.function 0, none⟩, tGetResult, [83, 84], 19, 6323⟩,
  ⟨InstrKind.other true, tResp, [], 19, 6302⟩,
  ⟨InstrKind.other true, tError, [85], 19, 6308⟩,
  ⟨InstrKind.other true, tBool, [86], 19, 6409⟩,
  ⟨InstrKind.other false, default, [], 19, 6402⟩,
  ⟨InstrKind.ret [], default, [], 20, 6503⟩,
  ⟨InstrKind.ret [], default, [], 21, 6801⟩]

/-- The package `testdata/src/consumption/consumption.go`: the functions
`consumedWithCopy` (3), `consumedWithReadAll` (4), `notConsumed1` (5),
`notConsumed2` (6), `consumedInHelper` (7), `drainAndClose` (8) and
`notClosedAtAll` (9), after `http.Get` (0), `io.Copy` (1) and `io.ReadAll` (2).
A position is `100 * line + column`. -/
def consumptionPkg : Program where
  instrs := consumptionInstrs3 ++ consumptionInstrs4 ++ consumptionInstrs5 ++ consumptionInstrs6 ++ consumptionInstrs7 ++ consumptionInstrs8 ++ consumptionInstrs9
  blocks := [
    ⟨[0, 1, 2, 3, 4], 3⟩,
    ⟨[5], 3⟩,
    ⟨[6, 7, 8, 9, 10, 11, 12, 13, 14, 15], 3⟩,
    ⟨[16, 17, 18, 19, 20], 4⟩,
    ⟨[21], 4⟩,
    ⟨[22, 23, 24, 25, 26, 27, 28, 29, 30, 31, 32], 4⟩,
    ⟨[33, 34, 35, 36, 37], 5⟩,
    ⟨[38], 5⟩,
    ⟨[39, 40, 41, 42, 43], 5⟩,
    ⟨[44, 45, 46, 47, 48], 6⟩,
    ⟨[49], 6⟩,
    ⟨[50, 51, 52, 53, 54, 55, 56], 6⟩,
    ⟨[57, 58, 59, 60, 61], 7⟩,
    ⟨[62], 7⟩,
    ⟨[63, 64, 65], 7⟩,
    ⟨[66, 67], 8⟩,
    ⟨[68, 69, 70, 71, 72, 73, 74, 75, 76], 8⟩,
    ⟨[77], 8⟩,
    ⟨[78, 79, 80, 81], 8⟩,
    ⟨[82, 83, 84, 85, 86], 9⟩,
    ⟨[87], 9⟩,
    ⟨[88], 9⟩]
  funcs := [
    fnGet,
    fnCopy,
    fnReadAll,
    ⟨"consumedWithCopy", some ⟨"consumption", "consumption"⟩, none, [], [0, 1, 2], some 1006, tFunc, none⟩,
    ⟨"consumedWithReadAll", some ⟨"consumption", "consumption"⟩, none, [], [3, 4, 5], some 1906, tFunc, none⟩,
    ⟨"notConsumed1", some ⟨"consumption", "consumption"⟩, none, [], [6, 7, 8], some 2806, tFunc, none⟩,
    ⟨"notConsumed2", some ⟨"consumption", "consumption"⟩, none, [], [9, 10, 11], some 3706, tFunc, none⟩,
    ⟨"consumedInHelper", some ⟨"consumption", "consumption"⟩, none, [], [12, 13, 14], some 4706, tFunc, none⟩,
    ⟨"drainAndClose", some ⟨"consumption", "consumption"⟩, none, [], [15, 16, 17, 18], some 5506, tFunc, none⟩,
    ⟨"notClosedAtAll", some ⟨"consumption", "consumption"⟩, none, [], [19, 20, 21], some 6206, tFunc, none⟩]
  srcFuncs := [3, 4, 5, 6, 7, 8, 9]
  files := [⟨101, 6902, ["\"io\"", "\"net/http\""]⟩]
  resObj := some responseObj
  unquote := unquote
  removeVendor := fun path => path

/-- A package without any closing instruction:

```go
var globalResp *http.Response
func unusedBody()     { resp, _ := http.Get(u); _ = resp.Body }                    // 2
func storedGlobal()   { resp, _ := http.Get(u); globalResp = resp }                // 3
func bodyThenGlobal() { resp, _ := http.Get(u); _ = resp.Body; globalResp = resp } // 4
func recorderUsed(rec *httptest.ResponseRecorder)   { resp := rec.Result(); _ = resp.StatusCode } // 5
func recorderUnused(rec *httptest.ResponseRecorder) { rec.Result() }               // 6
func fetch() (*http.Response, error) { return http.Get(u) }                        // 7
func leakInClosure() {                                                             // 8
	resp, err := http.Get(u)
	if err != nil {
		return
	}
	f := func() { _ = resp.Status }                                                // 9
	f()
}
```

after `http.Get` (0) and `(*httptest.ResponseRecorder).Result` (1). -/
def edgePkg : Program where
  instrs := [
    ⟨InstrKind.call ⟨Value.function 0, none⟩, tGetResult, [1, 2], 0, 821⟩,
    ⟨InstrKind.other true, tResp, [3], 0, 802⟩,
    ⟨InstrKind.other true, tError, [], 0, 808⟩,
    ⟨InstrKind.fieldAddr (Value.instr 1), tReadCloserPtr, [4], 0, 910⟩,
    ⟨InstrKind.unOp (Value.instr 3), tReadCloser, [], 0, 910⟩,
    ⟨InstrKind.ret [], default, [], 0, 1001⟩,
    ⟨InstrKind.call ⟨Value.function 0, none⟩, tGetResult, [7, 8], 1, 1321⟩,
    ⟨InstrKind.other true, tResp, [9], 1, 1302⟩,
    ⟨InstrKind.other true, tError, [], 1, 1308⟩,
    ⟨InstrKind.store (Value.global tRespCell) (Value.instr 7), default, [], 1, 1402⟩,
    ⟨InstrKind.ret [], default, [], 1, 1501⟩,
    ⟨InstrKind.call ⟨Value.function 0, none⟩, tGetResult, [12, 13], 2, 1821⟩,
    ⟨InstrKind.other true, tResp, [14, 16], 2, 1802⟩,
    ⟨InstrKind.other true, tError, [], 2, 1808⟩,
    ⟨InstrKind.fieldAddr (Value.instr 12), tReadCloserPtr, [15], 2, 1910⟩,
    ⟨InstrKind.unOp (Value.instr 14), tReadCloser, [], 2, 1910⟩,
    ⟨InstrKind.store (Value.global tRespCell) (Value.instr 12), default, [], 2, 2002⟩,
    ⟨InstrKind.ret [], default, [], 2, 2101⟩,
    ⟨InstrKind.call ⟨Value.function 1, none⟩, tResp, [19], 3, 2420⟩,
    ⟨InstrKind.fieldAddr (Value.instr 18), tIntPtr, [20], 3, 2510⟩,
    ⟨InstrKind.unOp (Value.instr 19), tInt, [], 3, 2510⟩,
    ⟨InstrKind.ret [], default, [], 3, 2601⟩,
    ⟨InstrKind.call ⟨Value.function 1, none⟩, tResp, [], 4, 2912⟩,
    ⟨InstrKind.ret [], default, [], 4, 3001⟩,
    ⟨InstrKind.call ⟨Value.function 0, none⟩, tGetResult, [25, 26], 5, 3317⟩,
    ⟨InstrKind.other true, tResp, [27], 5, 3309⟩,
    ⟨InstrKind.other true, tError, [27], 5, 3309⟩,
    ⟨InstrKind.ret [Value.instr 25, Value.instr 26], default, [], 5, 3302⟩,
    ⟨InstrKind.call ⟨Value.function 0, none⟩, tGetResult, [30, 32], 6, 3723⟩,
    ⟨InstrKind.other true, tRespCell, [31, 36], 6, 3702⟩,
    ⟨InstrKind.other true, tResp, [31], 6, 3702⟩,
    ⟨InstrKind.store (Value.instr 29) (Value.instr 30), default, [], 6, 3702⟩,
    ⟨InstrKind.other true, tError, [33], 6, 3708⟩,
    ⟨InstrKind.other true, tBool, [34], 6, 3809⟩,
    ⟨InstrKind.other false, default, [], 6, 3802⟩,
    ⟨InstrKind.ret [], default, [], 7, 3903⟩,
    ⟨InstrKind.makeClosure 9, tFunc, [37], 8, 4107⟩,
    ⟨InstrKind.call ⟨Value.instr 36, none⟩, tUnit, [], 8, 4303⟩,
    ⟨InstrKind.ret [], default, [], 8, 4401⟩,
    ⟨InstrKind.unOp (Value.operand tRespCell (some [39])), tResp, [40], 9, 4121⟩,
    ⟨InstrKind.fieldAddr (Value.instr 39), tStringPtr, [41], 9, 4126⟩,
    ⟨InstrKind.unOp (Value.instr 40), tString, [], 9, 4126⟩,
    ⟨InstrKind.ret [], default, [], 9, 4133⟩]
  blocks := [
    ⟨[0, 1, 2, 3, 4, 5], 2⟩,
    ⟨[6, 7, 8, 9, 10], 3⟩,
    ⟨[11, 12, 13, 14, 15, 16, 17], 4⟩,
    ⟨[18, 19, 20, 21], 5⟩,
    ⟨[22, 23], 6⟩,
    ⟨[24, 25, 26, 27], 7⟩,
    ⟨[28, 29, 30, 31, 32, 33, 34], 8⟩,
    ⟨[35], 8⟩,
    ⟨[36, 37, 38], 8⟩,
    ⟨[39, 40, 41, 42], 9⟩]
  funcs := [
    fnGet,
    fnResult,
    ⟨"unusedBody", some ⟨"edge", "edge"⟩, none, [], [0], some 706, tFunc, none⟩,
    ⟨"storedGlobal", some ⟨"edge", "edge"⟩, none, [], [1], some 1206, tFunc, none⟩,
    ⟨"bodyThenGlobal", some ⟨"edge", "edge"⟩, none, [], [2], some 1706, tFunc, none⟩,
    ⟨"recorderUsed", some ⟨"edge", "edge"⟩, none, [], [3], some 2306, tFunc, none⟩,
    ⟨"recorderUnused", some ⟨"edge", "edge"⟩, none, [], [4], some 2806, tFunc, none⟩,
    ⟨"fetch", some ⟨"edge", "edge"⟩, none, [tResp, tError], [5], some 3206, tFunc, none⟩,
    ⟨"leakInClosure", some ⟨"edge", "edge"⟩, none, [], [6, 7, 8], some 3606, tFunc, none⟩,
    ⟨"leakInClosure$1", some ⟨"edge", "edge"⟩, none, [], [9], none, tFunc, some [36]⟩]
  srcFuncs := [2, 3, 4, 5, 6, 7, 8, 9]
  files := [⟨101, 4502, ["\"net/http\"", "\"net/http/httptest\""]⟩]
  resObj := some responseObj
  unquote := unquote
  removeVendor := fun path => path

/-- A package whose only closing call sits in a closure that is never
invoked:

```go
func uncalledClosure() {                    // 1
	resp, err := http.Get(u)
	if err != nil {
		return
	}
	_ = func() { resp.Body.Close() }        // 2
}
```

after `http.Get` (0). -/
def closurePkg : Program where
  instrs := [
    ⟨InstrKind.call ⟨Value.function 0, none⟩, tGetResult, [2, 4], 0, 623⟩,
    ⟨InstrKind.other true, tRespCell, [3, 8], 0, 602⟩,
    ⟨InstrKind.other true, tResp, [3], 0, 602⟩,
    ⟨InstrKind.store (Value.instr 1) (Value.instr 2), default, [], 0, 602⟩,
    ⟨InstrKind.other true, tError, [5], 0, 608⟩,
    ⟨InstrKind.other true, tBool, [6], 0, 709⟩,
    ⟨InstrKind.other false, default, [], 0, 702⟩,
    ⟨InstrKind.ret [], default, [], 1, 803⟩,
    ⟨InstrKind.makeClosure 2, tFunc, [], 2, 1006⟩,
    ⟨InstrKind.ret [], default, [], 2, 1101⟩,
    ⟨InstrKind.unOp (Value.operand tRespCell (some [10])), tResp, [11], 3, 1015⟩,
    ⟨InstrKind.fieldAddr (Value.instr 10), tReadCloserPtr, [12], 3, 1020⟩,
    ⟨InstrKind.unOp (Value.instr 11), tReadCloser, [13], 3, 1020⟩,
    ⟨InstrKind.call ⟨Value.instr 12, (some fClose)⟩, tError, [], 3, 1030⟩,
    ⟨InstrKind.ret [], default, [], 3, 1033⟩]
  blocks := [
    ⟨[0, 1, 2, 3, 4, 5, 6], 1⟩,
    ⟨[7], 1⟩,
    ⟨[8, 9], 1⟩,
    ⟨[10, 11, 12, 13, 14], 2⟩]
  funcs := [
    fnGet,
    ⟨"uncalledClosure", some ⟨"closure", "closure"⟩, none, [], [0, 1, 2], some 506, tFunc, none⟩,
    ⟨"uncalledClosure$1", some ⟨"closure", "closure"⟩, none, [], [3], none, tFunc, some [8]⟩]
  srcFuncs := [1, 2]
  files := [⟨101, 1202, ["\"net/http\""]⟩]
  resObj := some responseObj
  unquote := unquote
  removeVendor := fun path => path

def tReaderPtr : GoType := ⟨"*io.Reader", 31, TypeForm.pointer (some ⟨"Reader", some "io"⟩), none⟩
def tReadResult : GoType := ⟨"(n int, err error)", 32, TypeForm.other, none⟩

/-- The object `net/http.Response` of a stand-in package whose field `Body`
has the type `io.Reader`. -/
def stubResponseObj : ResObject :=
  ⟨tResponse, some [⟨"Status", tString⟩, ⟨"Body", tReader⟩]⟩

/-- A package built against a stand-in for `net/http` whose `Response` has a
field `Body io.Reader`, an interface without a method `Close`:

```go
func readBody(buf []byte) {                 // 1
	resp, _ := http.Get(u)
	resp.Body.Read(buf)
}
```

after `http.Get` (0). -/
def stubPkg : Program where
  instrs := [
    ⟨InstrKind.call ⟨Value.function 0, none⟩, tGetResult, [1, 2], 0, 821⟩,
    ⟨InstrKind.other true, tResp, [3], 0, 802⟩,
    ⟨InstrKind.other true, tError, [], 0, 808⟩,
    ⟨InstrKind.fieldAddr (Value.instr 1), tReaderPtr, [4], 0, 907⟩,
    ⟨InstrKind.unOp (Value.instr 3), tReader, [5], 0, 907⟩,
    ⟨InstrKind.call ⟨Value.instr 4, (some fRead)⟩, tReadResult, [], 0, 916⟩,
    ⟨InstrKind.ret [], default, [], 0, 1001⟩]
  blocks := [
    ⟨[0, 1, 2, 3, 4, 5, 6], 1⟩]
  funcs := [
    fnGet,
    ⟨"readBody", some ⟨"stub", "stub"⟩, none, [], [0], some 706, tFunc, none⟩]
  srcFuncs := [1]
  files := [⟨101, 1002, ["\"net/http\""]⟩]
  resObj := some stubResponseObj
  unquote := unquote
  removeVendor := fun path => path

/-- A function that hands the response of its own allocation call to
itself:

```go
func pass(prev *http.Response) {            // 1
	resp, _ := http.Get(u)
	pass(resp)
}
```

after `http.Get` (0). -/
def selfPkg : Program where
  instrs := [
    ⟨InstrKind.call ⟨Value.function 0, none⟩, tGetResult, [1, 2], 0, 821⟩,
    ⟨InstrKind.other true, tResp, [3], 0, 802⟩,
    ⟨InstrKind.other true, tError, [], 0, 808⟩,
    ⟨InstrKind.call ⟨Value.function 1, none⟩, tUnit, [], 0, 906⟩,
    ⟨InstrKind.ret [], default, [], 0, 1001⟩]
  blocks := [
    ⟨[0, 1, 2, 3, 4], 1⟩]
  funcs := [
    fnGet,
    ⟨"pass", some ⟨"self", "self"⟩, none, [], [0], some 706, tFunc, none⟩]
  srcFuncs := [1]
  files := [⟨101, 1002, ["\"net/http\""]⟩]
  resObj := some responseObj
  unquote := unquote
  removeVendor := fun path => path

/-- A response that reaches its close through a control-flow merge:

```go
func merged(c bool) {                       // 1
	resp, err := http.Get(u)
	if c {
		resp, err = http.Get(v)
	}
	defer resp.Body.Close()
}
```

after `http.Get` (0).  The referrer of either response value is the `Phi` that
opens the last block. -/
def phiPkg : Program where
  instrs := [
    ⟨InstrKind.call ⟨Value.function 0, none⟩, tGetResult, [1, 2], 0, 823⟩,
    ⟨InstrKind.other true, tResp, [8], 0, 802⟩,
    ⟨InstrKind.other true, tError, [], 0, 808⟩,
    ⟨InstrKind.other false, default, [], 0, 902⟩,
    ⟨InstrKind.call ⟨Value.function 0, none⟩, tGetResult, [5, 6], 1, 1023⟩,
    ⟨InstrKind.other true, tResp, [8], 1, 1003⟩,
    ⟨InstrKind.other true, tError, [], 1, 1009⟩,
    ⟨InstrKind.other false, default, [], 1, 1101⟩,
    ⟨InstrKind.phi, tResp, [9], 2, 802⟩,
    ⟨InstrKind.fieldAddr (Value.instr 8), tReadCloserPtr, [10], 2, 1213⟩,
    ⟨InstrKind.unOp (Value.instr 9), tReadCloser, [11], 2, 1213⟩,
    ⟨InstrKind.defer ⟨Value.instr 10, (some fClose)⟩, default, [], 2, 1223⟩,
    ⟨InstrKind.other false, default, [], 2, 1301⟩,
    ⟨InstrKind.ret [], default, [], 2, 1301⟩]
  blocks := [
    ⟨[0, 1, 2, 3], 1⟩,
    ⟨[4, 5, 6, 7], 1⟩,
    ⟨[8, 9, 10, 11, 12, 13], 1⟩]
  funcs := [
    fnGet,
    ⟨"merged", some ⟨"phi", "phi"⟩, none, [], [0, 1, 2], some 706, tFunc, none⟩]
  srcFuncs := [1]
  files := [⟨101, 1402, ["\"net/http\""]⟩]
  resObj := some responseObj
  unquote := unquote
  removeVendor := fun path => path

/-- A package of two files.  The first (positions 101 to 1402) imports
`net/http`; the second (positions 1901 to 2402) imports only `io`:

```go
// first file
func fetch() (*http.Response, error) {      // 1
	return http.Get(u)
}

// second file
func capture() {                            // 2
	resp, _ := fetch()
	go func() { _ = resp.Status }()         // 3, capture$1
}
```

after `http.Get` (0).  The response is stored into the cell of `resp`, which
the function literal captures; the literal is started by a `Go` instruction,
so its `MakeClosure` is referred to by no `Call` and no `Defer`.  As a
function literal `capture$1` has no object. -/
def bailPkg : Program where
  instrs := [
    ⟨InstrKind.call ⟨Value.function 0, none⟩, tGetResult, [1, 2], 0, 817⟩,
    ⟨InstrKind.other true, tResp, [3], 0, 817⟩,
    ⟨InstrKind.other true, tError, [3], 0, 817⟩,
    ⟨InstrKind.ret [Value.instr 1, Value.instr 2], default, [], 0, 802⟩,
    ⟨InstrKind.other true, tRespCell, [7, 8], 1, 2102⟩,
    ⟨InstrKind.call ⟨Value.function 1, none⟩, tGetResult, [6], 1, 2118⟩,
    ⟨InstrKind.other true, tResp, [7], 1, 2102⟩,
    ⟨InstrKind.store (Value.instr 4) (Value.instr 6), default, [], 1, 2102⟩,
    ⟨InstrKind.makeClosure 3, tFunc, [9], 1, 2205⟩,
    ⟨InstrKind.other false, default, [], 1, 2202⟩,
    ⟨InstrKind.ret [], default, [], 1, 2301⟩,
    ⟨InstrKind.unOp (Value.operand tRespCell (some [11])), tResp, [12], 2, 2218⟩,
    ⟨InstrKind.fieldAddr (Value.instr 11), tStringPtr, [13], 2, 2223⟩,
    ⟨InstrKind.unOp (Value.instr 12), tString, [], 2, 2223⟩,
    ⟨InstrKind.ret [], default, [], 2, 2231⟩]
  blocks := [
    ⟨[0, 1, 2, 3], 1⟩,
    ⟨[4, 5, 6, 7, 8, 9, 10], 2⟩,
    ⟨[11, 12, 13, 14], 3⟩]
  funcs := [
    fnGet,
    ⟨"fetch", some ⟨"bail", "bail"⟩, none, [tResp, tError], [0], some 706, tFunc, none⟩,
    ⟨"capture", some ⟨"bail", "bail"⟩, none, [], [1], some 2006, tFunc, none⟩,
    ⟨"capture$1", some ⟨"bail", "bail"⟩, none, [], [2], none, tFunc, some [8]⟩]
  srcFuncs := [1, 2, 3]
  files := [⟨101, 1402, ["\"net/http\""]⟩, ⟨1901, 2402, ["\"io\""]⟩]
  resObj := some responseObj
  unquote := unquote
  removeVendor := fun path => path

/-- A response that is read and then stored into a global:

```go
func statusThenGlobal() {                   // 1
	resp, _ := http.Get(u)
	_ = resp.StatusCode
	globalResp = resp
}
```

after `http.Get` (0).  The first referrer of the response value is the field
accessor `&resp.StatusCode`, the second the `Store` into the global. -/
def globalPkg : Program where
  instrs := [
    ⟨InstrKind.call ⟨Value.function 0, none⟩, tGetResult, [1, 2], 0, 821⟩,
    ⟨InstrKind.other true, tResp, [3, 5], 0, 802⟩,
    ⟨InstrKind.other true, tError, [], 0, 808⟩,
    ⟨InstrKind.fieldAddr (Value.instr 1), tIntPtr, [4], 0, 910⟩,
    ⟨InstrKind.unOp (Value.instr 3), tInt, [], 0, 910⟩,
    ⟨InstrKind.store (Value.global tRespCell) (Value.instr 1), default, [], 0, 1002⟩,
    ⟨InstrKind.ret [], default, [], 0, 1101⟩]
  blocks := [
    ⟨[0, 1, 2, 3, 4, 5, 6], 1⟩]
  funcs := [
    fnGet,
    ⟨"statusThenGlobal", some ⟨"glob", "glob"⟩, none, [], [0], some 706, tFunc, none⟩]
  srcFuncs := [1]
  files := [⟨101, 1202, ["\"net/http\""]⟩]
  resObj := some responseObj
  unquote := unquote
  removeVendor := fun path => path

end Fixture


/-! ## Notions the statements use -/

/-- Whether the instruction is a call of the accessor `Result` of
`httptest.ResponseRecorder`, in the sense of the test of `isopen`. -/
def isRecorderCall (p : Program) (instr : InstrId) : Bool :=
  match (p.instr instr).kind with
  | .call c => isRecorderResult p c
  | _ => false

/-- The kinds of referrer the type switch of `isopen` has a case for. -/
def InstrKind.examined : InstrKind → Bool
  | .store _ _ => true
  | .call _ => true
  | .defer _ => true
  | .fieldAddr _ => true
  | .phi => true
  | _ => false

/-- The `CallCommon` of a `Call` or a `Defer` (what `isopen` extracts in its
`Call`, `Defer` case). -/
def InstrKind.common : InstrKind → Option CallCommon
  | .call c => some c
  | .defer c => some c
  | _ => none

/-- The `CallCommon` of a `Call`. -/
def InstrKind.asCall : InstrKind → Option CallCommon
  | .call c => some c
  | _ => none

/-- Whether the instruction is a `FieldAddr`. -/
def InstrKind.isFieldAddr : InstrKind → Bool
  | .fieldAddr _ => true
  | _ => false

/-- Whether the instruction is a `UnOp`. -/
def InstrKind.isUnOp : InstrKind → Bool
  | .unOp _ => true
  | _ => false

/-- Whether the instruction is a `Call` or a `Defer` that invokes a method
with the given name. -/
def InstrKind.invokes (k : InstrKind) (name : String) : Bool :=
  match k.common with
  | some c =>
    match c.method with
    | some m => m.name == name
    | none => false
  | none => false

/-- The answer of `noImportedNetHTTP` without the `skipFile` map: the function
has an object, the object lies in a file of the pass, and no import of that
file has the unquoted, vendor-stripped path `net/http`. -/
def noImportedNetHTTPUncached (p : Program) (f : FuncId) : Bool :=
  match (p.func f).object with
  | none => false
  | some pos =>
    match fileOf p pos with
    | none => false
    | some file => scanImports p file

/-- The entries of the `skipFile` map are the answers of the import scan. -/
def CacheOK (p : Program) (s : SkipFile) : Prop :=
  ∀ file v, s.lookup file = some v → v = scanImports p file

/-- Two outcomes agree: the same value with both maps sound, or the same
failure. -/
def Res.agree {α : Type} (p : Program) : Res α → Res α → Prop
  | Res.ret a s, Res.ret a1 s1 => a = a1 ∧ CacheOK p s ∧ CacheOK p s1
  | Res.panicked, Res.panicked => True
  | Res.timeout, Res.timeout => True
  | _, _ => False

/-- A computation whose outcome does not depend on the `skipFile` map it
starts from, as long as the entries of the map are sound, and which keeps
them sound. -/
def Transparent {α : Type} (p : Program) (m : M α) : Prop :=
  ∀ s s1, CacheOK p s → CacheOK p s1 → Res.agree p (m s) (m s1)

/-- The outcome of `isopen` from the empty `skipFile` map: `some b` when it
returns `b`, `none` when it panics or the recursion budget runs out. -/
def isopenAt (p : Program) (r : Runner) (fuel : Nat) (b : BlockId) (i : Nat) : Option Bool :=
  match isopen p r fuel b i [] with
  | Res.ret a _ => some a
  | _ => none

/-- Whether `isCloseCall` returns `true` on the instruction. -/
def closes (p : Program) (r : Runner) (x : InstrId) : Bool :=
  isCloseCall p r x == some true

/-- The instructions of a function, in order: `(b, (i, instr))` for the
instruction `instr = b.Instrs[i]` of the block `b`. -/
def sitesOf (p : Program) (f : FuncId) : List (BlockId × Nat × InstrId) :=
  (p.func f).blocks.flatMap fun b => (p.block b).instrs.enum.map fun e => (b, e)

/-- The instructions `FuncLoop` calls `isopen` on, in order: those of every
function of `SrcFuncs` that is not skipped. -/
def scannedSites (p : Program) (r : Runner) : List (BlockId × Nat × InstrId) :=
  (p.srcFuncs.filter fun f => !returnsResponse p r f).flatMap (sitesOf p)

/-- What C9 says a run reports: one diagnostic for each scanned instruction
on which `isopen` returns `true`, at the position of the instruction, with the
message of the mode. -/
def expectedDiagnostics (fuel : Nat) (p : Program) (r : Runner) : List Diagnostic :=
  ((scannedSites p r).filter fun x => isopenAt p r fuel x.1 x.2.1 == some true).map fun x =>
    ⟨(p.instr x.2.2).pos, message r.checkConsumption⟩

/-- The diagnostics a computation reports from the empty `skipFile` map
(none when it does not return). -/
def reportsOf (m : M (List Diagnostic)) : List Diagnostic :=
  match m [] with
  | Res.ret d _ => d
  | _ => []

/-- The computation returns from the empty `skipFile` map. -/
def Returns {α : Type} (m : M α) : Prop := ∃ a s, m [] = Res.ret a s

/-- Whether the operand is a `*ssa.Global`. -/
def Value.isGlobal : Value → Bool
  | .global _ => true
  | _ => false

/-- A referrer of a stored-to address that the `Store` case of `isopen`
passes over: neither a `MakeClosure` nor a `Store` whose address is a
`FieldAddr`. -/
def passedOver (p : Program) (aref : InstrId) : Bool :=
  match (p.instr aref).kind with
  | .makeClosure _ => false
  | .store (.instr fa) _ => !(p.instr fa).kind.isFieldAddr
  | _ => true

/-- The address of a `Store`. -/
def InstrKind.storeAddr : InstrKind → Option Value
  | .store addr _ => some addr
  | _ => none

/-- The function of a `MakeClosure`. -/
def InstrKind.closureFn : InstrKind → Option FuncId
  | .makeClosure fn => some fn
  | _ => none

/-- Every closure that captures an address the response value is stored to
lies in a file that imports `net/http`, is never invoked, and has a function
with an instruction that is no `UnOp`; and no such address is a global. -/
def CapturesUninvoked (p : Program) (val : Value) : Prop :=
  ∀ resRefs ∈ p.referrersOf val, ∀ st ∈ resRefs, ∀ addr ∈ (p.instr st).kind.storeAddr,
    addr.isGlobal = false ∧
    ∀ arefs ∈ p.referrersOf addr, ∀ mc ∈ arefs, ∀ f ∈ (p.instr mc).kind.closureFn,
      noImportedNetHTTPUncached p f = false ∧ isClosureCalled p mc = false ∧
        ∃ blk ∈ (p.func f).blocks, ∃ x ∈ (p.block blk).instrs,
          (p.instr x).kind.isUnOp = false


/-- The consuming functions as C13 lists them: pairs of a package path and a
function name. -/
def consumptionFunctions : List (String × String) :=
  [("io", "Copy"), ("io", "ReadAll"), ("io/ioutil", "ReadAll"),
    ("encoding/json", "NewDecoder"), ("bufio", "NewScanner"), ("bufio", "NewReader")]

/-- A `Call` with a static callee that belongs to a package and whose package
path and name are in the list of C13. -/
def IsConsumingCall (p : Program) (ci : InstrId) : Prop :=
  ∃ c, (p.instr ci).kind = InstrKind.call c ∧
    ∃ callee pk, staticCallee p c = some callee ∧ (p.func callee).pkg = some pk ∧
      (pk.path, (p.func callee).name) ∈ consumptionFunctions

/-- The states of the `skipFile` map that calls of `noImportedNetHTTP` reach
from the empty map. -/
inductive Reachable (p : Program) : SkipFile → Prop where
  | empty : Reachable p []
  | call (f : FuncId) (s s1 : SkipFile) (a : Bool) :
    Reachable p s → noImportedNetHTTP p f s = Res.ret a s1 → Reachable p s1

/-- Whether the instruction is a `ChangeInterface`. -/
def InstrKind.isChangeInterface : InstrKind → Bool
  | .changeInterface _ => true
  | _ => false

/-- The program of C17 in which the value `vi` is referred to directly by
`refs`: the `Referrers()` of the instruction `vi` are replaced by `refs` and
everything else is kept.  The operand `X` of a field accessor, of which the
walk of `isopen` reads only the type, is kept too. -/
def referDirectly (p : Program) (vi : InstrId) (refs : List InstrId) : Program :=
  { p with instrs := p.instrs.set vi { p.instr vi with referrers := refs } }

/-- The runner with the mode set, the resolved objects kept. -/
def Runner.withMode (r : Runner) (cc : Bool) : Runner :=
  { r with checkConsumption := cc }

/-- The order on the results of `isopen`: `false` (not reported) is below
`true` (reported). -/
def boolLe (a b : Bool) : Prop := a = true → b = true

/-- The order on what an iteration of a loop of `isopen` yields: `return
false` is below going on, which is below `return true`. -/
def stepLe : Option Bool → Option Bool → Prop
  | some false, _ => True
  | none, o => o ≠ some false
  | some true, o => o = some true

/-- The accumulators `(hasClose, hasConsumption)` of the loop over `ccalls`
in the two modes: the same `hasClose`, and `hasConsumption` set in the mode
that does not check consumption. -/
def accLe (a b : Bool × Bool) : Prop := a.1 = b.1 ∧ a.2 = true

/-- Two computations are related: whenever both return, from maps with sound
entries, what the first returns is below what the second returns. -/
def ModeLe {α : Type} (p : Program) (le : α → α → Prop) (m0 m1 : M α) : Prop :=
  ∀ s0 s1, CacheOK p s0 → CacheOK p s1 →
    ∀ a0 t0 a1 t1, m0 s0 = Res.ret a0 t0 → m1 s1 = Res.ret a1 t1 → le a0 a1

/-- Whether an iteration of a loop of `isopen` goes on to the next element,
started from the empty `skipFile` map: it returns, and what it returns is not
a `return` of the enclosing function. -/
def goesOn (m : M (Option Bool)) : Bool :=
  match m [] with
  | Res.ret none _ => true
  | _ => false

/-! ## Basic facts about the computations -/

@[simp] theorem M.pure_apply {α : Type} (a : α) (s : SkipFile) :
    (M.pure a : M α) s = Res.ret a s := rfl

@[simp] theorem M.panic_apply {α : Type} (s : SkipFile) :
    (M.panic : M α) s = Res.panicked := rfl

theorem M.bind_apply {α β : Type} (x : M α) (f : α → M β) (s : SkipFile) :
    (x >>= f) s = match x s with
      | Res.ret a s1 => f a s1
      | Res.panicked => Res.panicked
      | Res.timeout => Res.timeout := rfl

theorem M.bind_ret {α β : Type} {x : M α} {f : α → M β} {s s1 : SkipFile} {a : α}
    (h : x s = Res.ret a s1) : (x >>= f) s = f a s1 := by
  rw [M.bind_apply, h]

@[simp] theorem M.ofOption_some {α : Type} (a : α) (s : SkipFile) :
    (M.ofOption (some a)) s = Res.ret a s := rfl

@[simp] theorem forRet_nil {α β : Type} (body : α → M (Option β)) (s : SkipFile) :
    forRet body [] s = Res.ret none s := rfl

theorem forRet_cons {α β : Type} (body : α → M (Option β)) (x : α) (xs : List α)
    (s : SkipFile) :
    forRet body (x :: xs) s = match body x s with
      | Res.ret (some b) s1 => Res.ret (some b) s1
      | Res.ret none s1 => forRet body xs s1
      | Res.panicked => Res.panicked
      | Res.timeout => Res.timeout := rfl

/-- An iteration that returns ends the loop. -/
theorem forRet_cons_some {α β : Type} {body : α → M (Option β)} {x : α} {xs : List α}
    {s s1 : SkipFile} {b : β} (h : body x s = Res.ret (some b) s1) :
    forRet body (x :: xs) s = Res.ret (some b) s1 := by
  rw [forRet_cons, h]

/-- An iteration that goes on hands the map to the rest of the loop. -/
theorem forRet_cons_none {α β : Type} {body : α → M (Option β)} {x : α} {xs : List α}
    {s s1 : SkipFile} (h : body x s = Res.ret none s1) :
    forRet body (x :: xs) s = forRet body xs s1 := by
  rw [forRet_cons, h]

/-- Iterations that go on without touching the map can be dropped. -/
theorem forRet_append_none {α β : Type} (body : α → M (Option β)) (s : SkipFile)
    (pre rest : List α) (h : ∀ x ∈ pre, body x s = Res.ret none s) :
    forRet body (pre ++ rest) s = forRet body rest s := by
  induction pre with
  | nil => rfl
  | cons x xs ih =>
    rw [List.cons_append, forRet_cons_none (h x (List.mem_cons_self _ _))]
    exact ih (fun y hy => h y (List.mem_cons_of_mem _ hy))

/-- A loop each of whose iterations either goes on or returns `b`, without
touching the map, ends in one of these two ways. -/
theorem forRet_none_or {α β : Type} (body : α → M (Option β)) (b : β) (s : SkipFile)
    (xs : List α)
    (h : ∀ x ∈ xs, body x s = Res.ret none s ∨ body x s = Res.ret (some b) s) :
    forRet body xs s = Res.ret none s ∨ forRet body xs s = Res.ret (some b) s := by
  induction xs with
  | nil => left; rfl
  | cons x xs ih =>
    rcases h x (List.mem_cons_self _ _) with hx | hx
    · rw [forRet_cons_none hx]
      exact ih (fun y hy => h y (List.mem_cons_of_mem _ hy))
    · right; exact forRet_cons_some hx

/-- The call `getReqCall` finds is the instruction itself. -/
theorem getReqCall_eq {p : Program} {r : Runner} {instr call : InstrId}
    (h : getReqCall p r instr = some call) : call = instr := by
  unfold getReqCall at h
  split at h
  · split at h
    · exact absurd h (by simp)
    · exact (Option.some.inj h).symm
  · exact absurd h (by simp)

/-- What `isopen` does on an allocation site with a referrer that is not a
call of the recorder accessor: it runs the loop over `cRefs`. -/
theorem isopen_eq_classify (p : Program) (r : Runner) (fuel : Nat) (b : BlockId)
    (i : Nat) (s : SkipFile) (instr : InstrId)
    (hi : (p.block b).instrs[i]? = some instr)
    (hreq : getReqCall p r instr = some instr)
    (hne : (p.instr instr).referrers ≠ [])
    (hrec : isRecorderCall p instr = false) :
    isopen p r (fuel + 1) b i s = classify (isopen p r fuel) p r instr s := by
  rw [isopen, isopenBody]
  have hz : ¬ (p.instr instr).referrers.length = 0 := by
    intro h; exact hne (List.length_eq_zero.mp h)
  simp only [hi, hreq, beq_iff_eq, hz, if_false]
  unfold isRecorderCall at hrec
  cases hk : (p.instr instr).kind <;> simp only []
  rw [hk] at hrec
  simp only [] at hrec
  rw [hrec]; rfl

/-- What `isopen` does on a call of the recorder accessor that has a
referrer. -/
theorem isopen_recorder (p : Program) (r : Runner) (fuel : Nat) (b : BlockId)
    (i : Nat) (s : SkipFile) (instr : InstrId)
    (hi : (p.block b).instrs[i]? = some instr)
    (hne : (p.instr instr).referrers ≠ [])
    (hrec : isRecorderCall p instr = true) :
    isopen p r (fuel + 1) b i s = Res.ret false s := by
  rw [isopen, isopenBody]
  simp only [hi]
  cases hreq : getReqCall p r instr with
  | none => rfl
  | some call =>
    have hc := getReqCall_eq hreq
    subst hc
    have hz : ¬ (p.instr call).referrers.length = 0 := by
      intro h; exact hne (List.length_eq_zero.mp h)
    simp only [beq_iff_eq, hz, if_false]
    unfold isRecorderCall at hrec
    cases hk : (p.instr call).kind <;> rw [hk] at hrec <;> simp only [] at hrec
    · simp only [hrec, if_true]; rfl
    all_goals exact absurd hrec (by simp)

/-! ## The memoization is transparent -/

theorem cacheOK_nil (p : Program) : CacheOK p [] := by
  intro file v h
  simp at h

theorem lookup_filter_ne (s : SkipFile) (file k : FileId) (h : k ≠ file) :
    (s.filter (fun e => e.1 != file)).lookup k = s.lookup k := by
  induction s with
  | nil => rfl
  | cons e es ih =>
    obtain ⟨a, v⟩ := e
    by_cases ha : a = file
    · subst ha
      have hk : (k == a) = false := by simpa using h
      simp [List.filter, List.lookup, hk, ih]
    · have hne : (a != file) = true := by simpa using ha
      simp only [List.filter, hne, List.lookup]
      rw [ih]

theorem cacheOK_set (p : Program) (s : SkipFile) (file : FileId) (h : CacheOK p s) :
    CacheOK p (SkipFile.set s file (scanImports p file)) := by
  intro k v hk
  unfold SkipFile.set at hk
  by_cases hkf : k = file
  · subst hkf
    simp [List.lookup] at hk
    exact hk.symm
  · have hb : (k == file) = false := by simpa using hkf
    simp only [List.lookup, hb] at hk
    rw [lookup_filter_ne s file k hkf] at hk
    exact h k v hk

/-- With sound entries `noImportedNetHTTP` returns the uncached answer and
keeps the entries sound. -/
theorem noImportedNetHTTP_spec (p : Program) (f : FuncId) (s : SkipFile) (h : CacheOK p s) :
    ∃ s1, noImportedNetHTTP p f s = Res.ret (noImportedNetHTTPUncached p f) s1 ∧
      CacheOK p s1 := by
  unfold noImportedNetHTTP noImportedNetHTTPUncached
  cases (p.func f).object with
  | none => exact ⟨s, rfl, h⟩
  | some pos =>
    simp only []
    cases fileOf p pos with
    | none => exact ⟨s, rfl, h⟩
    | some file =>
      simp only []
      cases hl : s.lookup file with
      | some skip => exact ⟨s, by rw [h file skip hl], h⟩
      | none => exact ⟨_, rfl, cacheOK_set p s file h⟩

theorem Res.agree_ret {α : Type} {p : Program} {x y : Res α} {a : α} {s : SkipFile}
    (h : Res.agree p x y) (hx : x = Res.ret a s) :
    ∃ s1, y = Res.ret a s1 ∧ CacheOK p s ∧ CacheOK p s1 := by
  subst hx
  cases y with
  | ret a1 s1 => exact ⟨s1, by rw [h.1], h.2.1, h.2.2⟩
  | panicked => exact h.elim
  | timeout => exact h.elim

theorem transparent_pure {α : Type} (p : Program) (a : α) : Transparent p (M.pure a) :=
  fun _ _ hs hs1 => ⟨rfl, hs, hs1⟩

theorem transparent_panic {α : Type} (p : Program) : Transparent p (M.panic : M α) :=
  fun _ _ _ _ => trivial

theorem transparent_ofOption {α : Type} (p : Program) (o : Option α) :
    Transparent p (M.ofOption o) := by
  cases o with
  | none => exact transparent_panic p
  | some a => exact transparent_pure p a

theorem transparent_bind {α β : Type} (p : Program) {x : M α} {f : α → M β}
    (hx : Transparent p x) (hf : ∀ a, Transparent p (f a)) : Transparent p (x >>= f) := by
  intro s s1 hs hs1
  have h := hx s s1 hs hs1
  rw [M.bind_apply, M.bind_apply]
  cases h1 : x s with
  | ret a t =>
    cases h2 : x s1 with
    | ret a1 t1 =>
      rw [h1, h2] at h
      obtain ⟨ha, ht, ht1⟩ := h
      subst ha
      exact hf a t t1 ht ht1
    | panicked => rw [h1, h2] at h; exact h.elim
    | timeout => rw [h1, h2] at h; exact h.elim
  | panicked =>
    cases h2 : x s1 with
    | ret a1 t1 => rw [h1, h2] at h; exact h.elim
    | panicked => trivial
    | timeout => rw [h1, h2] at h; exact h.elim
  | timeout =>
    cases h2 : x s1 with
    | ret a1 t1 => rw [h1, h2] at h; exact h.elim
    | panicked => rw [h1, h2] at h; exact h.elim
    | timeout => trivial

theorem transparent_forRet {α β : Type} (p : Program) {body : α → M (Option β)}
    (xs : List α) (hb : ∀ x ∈ xs, Transparent p (body x)) : Transparent p (forRet body xs) := by
  induction xs with
  | nil => exact transparent_pure p none
  | cons x xs ih =>
    intro s s1 hs hs1
    have h := hb x (List.mem_cons_self _ _) s s1 hs hs1
    have ih1 := ih (fun y hy => hb y (List.mem_cons_of_mem _ hy))
    rw [forRet_cons, forRet_cons]
    cases h1 : body x s with
    | ret a t =>
      cases h2 : body x s1 with
      | ret a1 t1 =>
        rw [h1, h2] at h
        obtain ⟨ha, ht, ht1⟩ := h
        subst ha
        cases a with
        | none => exact ih1 t t1 ht ht1
        | some b => exact ⟨rfl, ht, ht1⟩
      | panicked => rw [h1, h2] at h; exact h.elim
      | timeout => rw [h1, h2] at h; exact h.elim
    | panicked =>
      cases h2 : body x s1 with
      | ret a1 t1 => rw [h1, h2] at h; exact h.elim
      | panicked => trivial
      | timeout => rw [h1, h2] at h; exact h.elim
    | timeout =>
      cases h2 : body x s1 with
      | ret a1 t1 => rw [h1, h2] at h; exact h.elim
      | panicked => rw [h1, h2] at h; exact h.elim
      | timeout => trivial

theorem transparent_noImportedNetHTTP (p : Program) (f : FuncId) :
    Transparent p (noImportedNetHTTP p f) := by
  intro s s1 hs hs1
  obtain ⟨t, ht, hok⟩ := noImportedNetHTTP_spec p f s hs
  obtain ⟨t1, ht1, hok1⟩ := noImportedNetHTTP_spec p f s1 hs1
  rw [ht, ht1]
  exact ⟨rfl, hok, hok1⟩

theorem transparent_scanCcalls (p : Program) (r : Runner) (bOp : InstrId)
    (ccalls : List InstrId) (acc : Bool × Bool) :
    Transparent p (scanCcalls p r bOp ccalls acc) := by
  induction ccalls generalizing acc with
  | nil => exact transparent_pure p acc
  | cons c cs ih =>
    unfold scanCcalls
    exact transparent_bind p (transparent_ofOption p _) (fun a => ih _)

theorem transparent_phiScanCcalls (p : Program) (r : Runner) (bOp : InstrId)
    (ccalls : List InstrId) (acc : Bool × Bool) :
    Transparent p (phiScanCcalls p r bOp ccalls acc) := by
  induction ccalls generalizing acc with
  | nil => exact transparent_pure p acc
  | cons c cs ih =>
    unfold phiScanCcalls
    exact transparent_bind p (transparent_ofOption p _) (fun a => ih _)

theorem transparent_fieldAddrStep (p : Program) (r : Runner) (bRef : InstrId) :
    Transparent p (fieldAddrStep p r bRef) := by
  unfold fieldAddrStep
  split
  · exact transparent_pure p _
  · split
    · exact transparent_pure p _
    · refine transparent_bind p (transparent_scanCcalls p r _ _ _) (fun acc => ?_)
      split <;> exact transparent_pure p _

theorem transparent_phiFieldStep (p : Program) (r : Runner) (bRef : InstrId) :
    Transparent p (phiFieldStep p r bRef) := by
  unfold phiFieldStep
  split
  · exact transparent_pure p _
  · split
    · exact transparent_pure p _
    · refine transparent_bind p (transparent_phiScanCcalls p r _ _ _) (fun acc => ?_)
      split <;> exact transparent_pure p _

theorem transparent_phiStep (p : Program) (r : Runner) (bRef : InstrId) :
    Transparent p (phiStep p r bRef) := by
  unfold phiStep
  split
  · exact transparent_forRet p _ (fun x _ => transparent_phiFieldStep p r x)
  · exact transparent_pure p _

theorem transparent_closeStep (p : Program) (r : Runner) (ccall : InstrId) :
    Transparent p (closeStep p r ccall) := by
  unfold closeStep
  refine transparent_bind p (transparent_ofOption p _) (fun c => ?_)
  split <;> exact transparent_pure p _

theorem transparent_closeInBlock (p : Program) (r : Runner) (f : InstrId) :
    Transparent p (closeInBlock p r f) := by
  unfold closeInBlock
  refine transparent_forRet p _ (fun x _ => ?_)
  unfold closeInBlockStep
  split
  · exact transparent_pure p _
  · exact transparent_forRet p _ (fun y _ => transparent_closeStep p r y)

theorem transparent_calledInFunc (p : Program) (rec : BlockId → Nat → M Bool)
    (hrec : ∀ b i, Transparent p (rec b i)) (f : FuncId) (called : Bool) :
    Transparent p (calledInFunc rec p f called) := by
  unfold calledInFunc
  refine transparent_bind p (transparent_forRet p _ (fun b _ =>
    transparent_forRet p _ (fun e _ => ?_))) (fun out => transparent_pure p _)
  unfold calledInFuncStep
  split
  · exact transparent_pure p _
  · exact transparent_bind p (hrec b e.1) (fun o => transparent_pure p _)

theorem transparent_arefStep (p : Program) (r : Runner) (rec : BlockId → Nat → M Bool)
    (hrec : ∀ b i, Transparent p (rec b i)) (aref : InstrId) :
    Transparent p (arefStep rec p r aref) := by
  unfold arefStep
  split
  · refine transparent_bind p (transparent_noImportedNetHTTP p _) (fun skip => ?_)
    split
    · exact transparent_pure p _
    · exact transparent_bind p (transparent_calledInFunc p rec hrec _ _)
        (fun o => transparent_pure p _)
  · split
    · exact transparent_closeInBlock p r _
    · exact transparent_pure p _
  · exact transparent_pure p _

theorem transparent_storeCase (p : Program) (r : Runner) (rec : BlockId → Nat → M Bool)
    (hrec : ∀ b i, Transparent p (rec b i)) (addr : Value) :
    Transparent p (storeCase rec p r addr) := by
  unfold storeCase
  split
  · exact transparent_pure p _
  · split
    · exact transparent_panic p
    · split
      · exact transparent_pure p _
      · exact transparent_forRet p _ (fun x _ => transparent_arefStep p r rec hrec x)

theorem transparent_callCase (p : Program) (r : Runner) (rec : BlockId → Nat → M Bool)
    (hrec : ∀ b i, Transparent p (rec b i)) (call : CallCommon) :
    Transparent p (callCase rec p r call) := by
  unfold callCase
  split
  · refine transparent_forRet p _ (fun b _ => transparent_forRet p _ (fun e _ => ?_))
    unfold calleeStep
    refine transparent_bind p (transparent_ofOption p _) (fun c => ?_)
    split
    · exact transparent_pure p _
    · refine transparent_bind p (hrec b e.1) (fun o => ?_)
      split <;> exact transparent_pure p _
  · exact transparent_pure p _

theorem transparent_resRefStep (p : Program) (r : Runner) (rec : BlockId → Nat → M Bool)
    (hrec : ∀ b i, Transparent p (rec b i)) (resRef : InstrId) :
    Transparent p (resRefStep rec p r resRef) := by
  unfold resRefStep
  split
  · exact transparent_storeCase p r rec hrec _
  · exact transparent_callCase p r rec hrec _
  · exact transparent_callCase p r rec hrec _
  · exact transparent_forRet p _ (fun x _ => transparent_fieldAddrStep p r x)
  · exact transparent_forRet p _ (fun x _ => transparent_phiStep p r x)
  · exact transparent_pure p _

theorem transparent_classify (p : Program) (r : Runner) (rec : BlockId → Nat → M Bool)
    (hrec : ∀ b i, Transparent p (rec b i)) (call : InstrId) :
    Transparent p (classify rec p r call) := by
  unfold classify
  refine transparent_bind p (transparent_forRet p _ (fun cRef _ => ?_))
    (fun out => transparent_pure p _)
  unfold cRefStep
  split
  · exact transparent_pure p _
  · split
    · exact transparent_panic p
    · split
      · exact transparent_pure p _
      · exact transparent_forRet p _ (fun x _ => transparent_resRefStep p r rec hrec x)

theorem transparent_isopenBody (p : Program) (r : Runner) (rec : BlockId → Nat → M Bool)
    (hrec : ∀ b i, Transparent p (rec b i)) (b : BlockId) (i : Nat) :
    Transparent p (isopenBody rec p r b i) := by
  unfold isopenBody
  split
  · exact transparent_panic p
  · split
    · exact transparent_pure p _
    · split
      · exact transparent_pure p _
      · split
        · split
          · exact transparent_pure p _
          · exact transparent_classify p r rec hrec _
        · exact transparent_classify p r rec hrec _

/-- The outcome of `isopen` is the same from every `skipFile` map with sound
entries. -/
theorem transparent_isopen (p : Program) (r : Runner) (fuel : Nat) (b : BlockId) (i : Nat) :
    Transparent p (isopen p r fuel b i) := by
  induction fuel generalizing b i with
  | zero => intro _ _ _ _; trivial
  | succ n ih =>
    rw [isopen]
    exact transparent_isopenBody p r _ ih b i

/-- From a map with sound entries `isopen` returns what it returns from the
empty map. -/
theorem isopen_of_isopenAt {p : Program} {r : Runner} {fuel : Nat} {b : BlockId} {i : Nat}
    {a : Bool} (h : isopenAt p r fuel b i = some a) (s : SkipFile) (hs : CacheOK p s) :
    ∃ s1, isopen p r fuel b i s = Res.ret a s1 ∧ CacheOK p s1 := by
  unfold isopenAt at h
  cases h0 : isopen p r fuel b i [] with
  | ret a0 t =>
    rw [h0] at h
    simp only [Option.some.injEq] at h
    subst h
    obtain ⟨s1, h1, _, h3⟩ := Res.agree_ret
      (transparent_isopen p r fuel b i [] s (cacheOK_nil p) hs) h0
    exact ⟨s1, h1, h3⟩
  | panicked => rw [h0] at h; exact absurd h (by simp)
  | timeout => rw [h0] at h; exact absurd h (by simp)


/-! ## The claims -/

/-- C5. In both modes (the runner is arbitrary) `isopen` returns `true` on
an allocation call whose result has no referrer, and on an allocation call,
not the recorder accessor, every response value of which (every value
`getResVal` extracts from a referrer of the call) has `len(*val.Referrers())
== 0`. -/
theorem C5_unused_resource_is_open (p : Program) (r : Runner) (fuel : Nat) (b : BlockId)
    (i : Nat) (s : SkipFile) (instr : InstrId)
    (hi : (p.block b).instrs[i]? = some instr)
    (hreq : getReqCall p r instr = some instr)
    (h : (p.instr instr).referrers = [] ∨
      (isRecorderCall p instr = false ∧
        ∀ cRef ∈ (p.instr instr).referrers, ∀ val ∈ getResVal p r cRef,
          p.referrersOf val = some [])) :
    isopen p r (fuel + 1) b i s = Res.ret true s := by
  rcases h with h | ⟨h1, h2⟩
  · rw [isopen, isopenBody]
    simp [hi, hreq, h]
  · by_cases hne : (p.instr instr).referrers = []
    · rw [isopen, isopenBody]
      simp [hi, hreq, hne]
    · rw [isopen_eq_classify p r fuel b i s instr hi hreq hne h1]
      have h3 := forRet_none_or (cRefStep (isopen p r fuel) p r) true s
        (p.instr instr).referrers
        (by
          intro cRef hc
          unfold cRefStep
          cases hv : getResVal p r cRef with
          | none => left; rfl
          | some val => right; simp [h2 cRef hc val hv])
      unfold classify
      rcases h3 with h3 | h3
      · rw [M.bind_ret h3]; rfl
      · rw [M.bind_ret h3]; rfl

/-- C5, at `notClosedAtAll` of the consumption package (`_ = resp` leaves the
response value without a referrer), with consumption checking enabled. -/
theorem C5_unused_resource_is_open_witness :
    isopen Fixture.consumptionPkg (Fixture.runner true) 1 19 0 [] = Res.ret true [] :=
  C5_unused_resource_is_open Fixture.consumptionPkg (Fixture.runner true) 0 19 0 [] 82
    (by decide) (by decide) (Or.inr ⟨by decide, by decide⟩)

/-- What the type switch of `isopen` does on a referrer it has no case for. -/
theorem resRefStep_unexamined (rec : BlockId → Nat → M Bool) (p : Program) (r : Runner)
    (x : InstrId) (s : SkipFile) (h : (p.instr x).kind.examined = false) :
    resRefStep rec p r x s = Res.ret none s := by
  unfold resRefStep
  cases hk : (p.instr x).kind <;> rw [hk] at h <;> first | rfl | exact absurd h (by simp [InstrKind.examined])

/-- C6 as stated fails at `bodyThenGlobal` of the edge package: the response
value is stored into a global, but its first referrer is the field accessor of
`_ = resp.Body`, whose body load has no referrer, and `isopen` returns `true`
in both modes. -/
theorem C6_counterexample :
    (Fixture.edgePkg.block 2).instrs[0]? = some 11 ∧
    getReqCall Fixture.edgePkg (Fixture.runner false) 11 = some 11 ∧
    getResVal Fixture.edgePkg (Fixture.runner false) 12 = some (Value.instr 12) ∧
    16 ∈ (Fixture.edgePkg.instr 12).referrers ∧
    (Fixture.edgePkg.instr 16).kind
      = InstrKind.store (Value.global Fixture.tRespCell) (Value.instr 12) ∧
    isopen Fixture.edgePkg (Fixture.runner false) 1 2 0 [] = Res.ret true [] ∧
    isopen Fixture.edgePkg (Fixture.runner true) 1 2 0 [] = Res.ret true [] := by
  decide

/-- C7, amended. `isopen` returns `false`, in both modes, on a `Call` whose
static callee is the method `Result` of package `httptest` with receiver type
`*net/http/httptest.ResponseRecorder`, provided the result of the call has at
least one referrer. -/
theorem C7_recorder_result_closed (p : Program) (r : Runner) (fuel : Nat) (b : BlockId)
    (i : Nat) (s : SkipFile) (instr : InstrId) (c : CallCommon) (callee : FuncId)
    (pk : Package) (recv : GoType)
    (hi : (p.block b).instrs[i]? = some instr)
    (hk : (p.instr instr).kind = InstrKind.call c)
    (hcallee : staticCallee p c = some callee)
    (hname : (p.func callee).name = "Result")
    (hpkg : (p.func callee).pkg = some pk)
    (hpk : pk.name = "httptest")
    (hrecv : (p.func callee).recv = some recv)
    (hstr : recv.str = "*net/http/httptest.ResponseRecorder")
    (hne : (p.instr instr).referrers ≠ []) :
    isopen p r (fuel + 1) b i s = Res.ret false s := by
  apply isopen_recorder p r fuel b i s instr hi hne
  unfold isRecorderCall
  simp only [hk]
  unfold isRecorderResult
  simp [hcallee, hname, hpkg, hpk, hrecv, hstr]

/-- C7, at `recorderUsed` of the edge package (`resp := rec.Result(); _ =
resp.StatusCode`), with consumption checking enabled. -/
theorem C7_recorder_result_closed_witness :
    isopen Fixture.edgePkg (Fixture.runner true) 1 3 0 [] = Res.ret false [] :=
  C7_recorder_result_closed Fixture.edgePkg (Fixture.runner true) 0 3 0 [] 18
    ⟨Value.function 1, none⟩ 1 ⟨"httptest", "net/http/httptest"⟩ Fixture.tRecorder
    (by decide) (by decide) (by decide) (by decide) (by decide) (by decide) (by decide)
    (by decide) (by decide)

/-- C7 as stated fails at `recorderUnused` of the edge package: the call is
`rec.Result()` with the result dropped, and `isopen` returns `true` in both
modes, because the test for a result without referrers comes first. -/
theorem C7_counterexample :
    (Fixture.edgePkg.block 4).instrs[0]? = some 22 ∧
    (Fixture.edgePkg.instr 22).kind = InstrKind.call ⟨Value.function 1, none⟩ ∧
    staticCallee Fixture.edgePkg ⟨Value.function 1, none⟩ = some 1 ∧
    (Fixture.edgePkg.func 1).name = "Result" ∧
    (Fixture.edgePkg.func 1).pkg = some ⟨"httptest", "net/http/httptest"⟩ ∧
    ((Fixture.edgePkg.func 1).recv.map fun t => t.str)
      = some "*net/http/httptest.ResponseRecorder" ∧
    isopen Fixture.edgePkg (Fixture.runner false) 1 4 0 [] = Res.ret true [] ∧
    isopen Fixture.edgePkg (Fixture.runner true) 1 4 0 [] = Res.ret true [] := by
  decide

theorem forEmit_cons {α : Type} (body : α → M (List Diagnostic)) (x : α) (xs : List α) :
    forEmit body (x :: xs)
      = (body x >>= fun d => forEmit body xs >>= fun ds => M.pure (d ++ ds)) := rfl

/-- An iteration that reports nothing and leaves the map alone can be
dropped from a reporting loop. -/
theorem forEmit_skip {α : Type} (body : α → M (List Diagnostic)) (x : α)
    (h : ∀ s, body x s = Res.ret [] s) (pre post : List α) (s : SkipFile) :
    forEmit body (pre ++ x :: post) s = forEmit body (pre ++ post) s := by
  induction pre generalizing s with
  | nil =>
    rw [List.nil_append, List.nil_append, forEmit_cons, M.bind_ret (h s), M.bind_apply]
    cases forEmit body post s <;> simp
  | cons y ys ih =>
    rw [List.cons_append, List.cons_append, forEmit_cons, forEmit_cons, M.bind_apply,
      M.bind_apply]
    cases body y s with
    | ret d s1 => simp only [M.bind_apply, ih s1]
    | panicked => rfl
    | timeout => rfl

/-- C8. A function one of whose declared result types has the type string
of the response pointer type is skipped by `FuncLoop`: its iteration reports
nothing whatever its instructions are, and the whole loop over `SrcFuncs`
ends as it does with the function left out. -/
theorem C8_returning_function_skipped (p : Program) (r : Runner) (fuel : Nat) (f : FuncId)
    (s : SkipFile) (t : GoType) (ht : t ∈ (p.func f).results) (hs : t.str = r.resTyp) :
    scanFunc fuel p r f s = Res.ret [] s ∧
      ∀ pre post, forEmit (scanFunc fuel p r) (pre ++ f :: post) s
        = forEmit (scanFunc fuel p r) (pre ++ post) s := by
  have hskip : returnsResponse p r f = true := by
    unfold returnsResponse
    rw [List.any_eq_true]
    exact ⟨t, ht, by simp [hs]⟩
  have hscan : ∀ s1, scanFunc fuel p r f s1 = Res.ret [] s1 := by
    intro s1
    unfold scanFunc
    rw [hskip]; rfl
  exact ⟨hscan s, fun pre post => forEmit_skip _ f hscan pre post s⟩

/-- C8, at `fetch` of the edge package (`return http.Get(u)`): `isopen` is
`true` on the call, and the function is skipped all the same. -/
theorem C8_returning_function_skipped_witness :
    isopenAt Fixture.edgePkg (Fixture.runner false) 1 5 0 = some true ∧
    scanFunc 1 Fixture.edgePkg (Fixture.runner false) 7 [] = Res.ret [] [] :=
  ⟨by decide,
    (C8_returning_function_skipped Fixture.edgePkg (Fixture.runner false) 1 7 []
      Fixture.tResp (by decide) (by decide)).1⟩

theorem InstrKind.isFieldAddr_eq {k : InstrKind} (h : k.isFieldAddr = true) :
    ∃ x, k = InstrKind.fieldAddr x := by
  cases k <;> simp [InstrKind.isFieldAddr] at h
  exact ⟨_, rfl⟩

theorem InstrKind.invokes_eq {k : InstrKind} {name : String} (h : k.invokes name = true) :
    ∃ c m, (k = InstrKind.call c ∨ k = InstrKind.defer c) ∧ c.method = some m ∧
      m.name = name := by
  unfold InstrKind.invokes at h
  cases k <;> simp only [InstrKind.common] at h <;> try exact absurd h Bool.false_ne_true
  all_goals
    next c =>
      cases hm : c.method with
      | none => rw [hm] at h; exact absurd h Bool.false_ne_true
      | some m =>
        rw [hm] at h
        exact ⟨c, m, by simp, hm, by simpa using h⟩

/-- A loop each of whose iterations goes on without touching the map or
returns `b`, returns `b` as soon as one iteration does. -/
theorem forRet_exists_some {α β : Type} (body : α → M (Option β)) (b : β) (s : SkipFile)
    {s1 : SkipFile} (xs : List α)
    (h : ∀ x ∈ xs, body x s = Res.ret none s ∨ body x s = Res.ret (some b) s1)
    (hex : ∃ x ∈ xs, body x s = Res.ret (some b) s1) :
    forRet body xs s = Res.ret (some b) s1 := by
  induction xs with
  | nil => obtain ⟨x, hx, _⟩ := hex; exact absurd hx (List.not_mem_nil x)
  | cons y ys ih =>
    rcases h y (List.mem_cons_self _ _) with hy | hy
    · rw [forRet_cons_none hy]
      apply ih (fun z hz => h z (List.mem_cons_of_mem _ hz))
      obtain ⟨x, hx, hxb⟩ := hex
      rcases List.mem_cons.mp hx with rfl | hx1
      · rw [hy] at hxb; exact absurd hxb (by simp)
      · exact ⟨x, hx1, hxb⟩
    · exact forRet_cons_some hy

/-- A loop all of whose iterations go on, without touching the map, goes
on. -/
theorem forRet_all_none {α β : Type} (body : α → M (Option β)) (s : SkipFile)
    (xs : List α) (h : ∀ x ∈ xs, body x s = Res.ret none s) :
    forRet body xs s = Res.ret none s := by
  have := forRet_append_none body s xs [] h
  rw [List.append_nil] at this
  rw [this]; rfl

/-- The body load `getBodyOp` finds is the instruction itself. -/
theorem getBodyOp_eq {p : Program} {r : Runner} {instr bOp : InstrId}
    (h : getBodyOp p r instr = some bOp) : bOp = instr := by
  unfold getBodyOp at h
  split at h
  · split at h
    · exact absurd h (by simp)
    · exact (Option.some.inj h).symm
  · exact absurd h (by simp)

/-- Where `isCloseCall` does not panic it returns `closes`. -/
theorem isCloseCall_eq_closes {p : Program} {r : Runner} {x : InstrId}
    (h : isCloseCall p r x ≠ none) : isCloseCall p r x = some (closes p r x) := by
  unfold closes
  cases hc : isCloseCall p r x with
  | none => exact absurd hc h
  | some v => cases v <;> rfl

/-- The loop over `ccalls`: `hasClose` becomes `true` when one of them is a
closing instruction, `hasConsumption` when consumption is checked, there is a
referrer at all and the enclosing function has a consuming call. -/
theorem scanCcalls_eq (p : Program) (r : Runner) (bOp : InstrId) (ccalls : List InstrId)
    (h : ∀ x ∈ ccalls, isCloseCall p r x ≠ none) (acc : Bool × Bool) (s : SkipFile) :
    scanCcalls p r bOp ccalls acc s
      = Res.ret (acc.1 || ccalls.any (closes p r),
          acc.2 || (!ccalls.isEmpty && (r.checkConsumption && isBodyConsumed p bOp bOp))) s := by
  induction ccalls generalizing acc with
  | nil => simp [scanCcalls]
  | cons c cs ih =>
    unfold scanCcalls
    rw [M.bind_ret (by
      rw [isCloseCall_eq_closes (h c (List.mem_cons_self _ _))]; rfl)]
    rw [ih (fun y hy => h y (List.mem_cons_of_mem _ hy))]
    have hb : isBodyConsumed p bOp c = isBodyConsumed p bOp bOp := rfl
    rw [hb]
    rw [List.any_cons, List.isEmpty_cons]
    obtain ⟨x, y⟩ := acc
    generalize closes p r c = a1
    generalize cs.any (closes p r) = a2
    generalize isBodyConsumed p bOp bOp = a3
    generalize r.checkConsumption = a4
    generalize cs.isEmpty = a5
    cases x <;> cases y <;> cases a1 <;> cases a2 <;> cases a3 <;> cases a4 <;> cases a5 <;> rfl

/-- The body of the `FieldAddr` loop on a body load that has a referrer. -/
theorem fieldAddrStep_load (p : Program) (r : Runner) (L : InstrId) (s : SkipFile)
    (hL : getBodyOp p r L = some L) (hne : (p.instr L).referrers ≠ [])
    (h : ∀ x ∈ (p.instr L).referrers, isCloseCall p r x ≠ none) :
    fieldAddrStep p r L s
      = Res.ret (if (p.instr L).referrers.any (closes p r) &&
          (!r.checkConsumption || isBodyConsumed p L L) then some false else none) s := by
  unfold fieldAddrStep
  have hz : ¬ (p.instr L).referrers.length = 0 := by
    intro h0; exact hne (List.length_eq_zero.mp h0)
  have hemp : (p.instr L).referrers.isEmpty = false := by
    cases hr : (p.instr L).referrers with
    | nil => exact absurd hr hne
    | cons a as => rfl
  simp only [hL, beq_iff_eq, hz, if_false]
  rw [M.bind_ret (scanCcalls_eq p r L _ h _ s)]
  simp only [hemp, Bool.false_or, Bool.not_false, Bool.true_and]
  cases (p.instr L).referrers.any (closes p r) <;> cases r.checkConsumption <;>
    cases isBodyConsumed p L L <;> rfl

/-- The body of the `FieldAddr` loop on an instruction that is no body
load. -/
theorem fieldAddrStep_other (p : Program) (r : Runner) (x : InstrId) (s : SkipFile)
    (h : getBodyOp p r x = none) : fieldAddrStep p r x s = Res.ret none s := by
  unfold fieldAddrStep
  rw [h]; rfl

/-- A consuming call in the function enclosing the body load. -/
theorem isBodyConsumed_of_call (p : Program) (L x : InstrId)
    (h : ∃ blk ∈ (p.func (p.block (p.instr L).block).parent).blocks,
      ∃ ci ∈ (p.block blk).instrs, ∃ c ∈ (p.instr ci).kind.asCall,
        isConsumptionFunction p c = true) :
    isBodyConsumed p L x = true := by
  obtain ⟨blk, hblk, ci, hci, c, hc, hcons⟩ := h
  unfold isBodyConsumed
  simp only [List.any_eq_true]
  refine ⟨blk, hblk, ci, hci, ?_⟩
  cases hk : (p.instr ci).kind <;> rw [hk] at hc <;>
    simp [InstrKind.asCall] at hc
  subst hc
  exact hcons

/-- No consuming call in the function enclosing the body load. -/
theorem isBodyConsumed_of_no_call (p : Program) (L x : InstrId)
    (h : ∀ blk ∈ (p.func (p.block (p.instr L).block).parent).blocks,
      ∀ ci ∈ (p.block blk).instrs, ∀ c ∈ (p.instr ci).kind.asCall,
        isConsumptionFunction p c = false) :
    isBodyConsumed p L x = false := by
  unfold isBodyConsumed
  rw [List.any_eq_false]
  intro blk hblk
  rw [Bool.not_eq_true, List.any_eq_false]
  intro ci hci
  cases hk : (p.instr ci).kind <;> simp only [Bool.not_eq_true]
  next c =>
    exact h blk hblk ci hci c (by rw [hk]; rfl)

/-- The loop over `cRefs` when the call has a single response value `v`, the
loop over the referrers of `v` returns `out` and leaves the map alone. -/
theorem classify_single (rec : BlockId → Nat → M Bool) (p : Program) (r : Runner)
    (instr : InstrId) (v : Value) (resRefs : List InstrId) (s : SkipFile) (out : Option Bool)
    (hv1 : ∀ cRef ∈ (p.instr instr).referrers, ∀ val ∈ getResVal p r cRef, val = v)
    (hv2 : ∃ cRef ∈ (p.instr instr).referrers, getResVal p r cRef = some v)
    (hrr : p.referrersOf v = some resRefs) (hne : resRefs ≠ [])
    (hout : forRet (resRefStep rec p r) resRefs s = Res.ret out s) :
    classify rec p r instr s = Res.ret (out.getD true) s := by
  have hz : ¬ resRefs.length = 0 := by
    intro h0; exact hne (List.length_eq_zero.mp h0)
  have hstep : ∀ cRef ∈ (p.instr instr).referrers,
      cRefStep rec p r cRef s = Res.ret none s ∨
        (getResVal p r cRef = some v ∧ cRefStep rec p r cRef s = Res.ret out s) := by
    intro cRef hc
    unfold cRefStep
    cases hg : getResVal p r cRef with
    | none => left; rfl
    | some val =>
      have hval : val = v := hv1 cRef hc val hg
      subst hval
      right
      refine ⟨rfl, ?_⟩
      simp only [hrr, beq_iff_eq, hz, if_false]
      exact hout
  unfold classify
  cases out with
  | none =>
    rw [M.bind_ret (forRet_all_none _ s _ (fun x hx => by
      rcases hstep x hx with h | ⟨_, h⟩ <;> exact h))]
    rfl
  | some o =>
    rw [M.bind_ret (forRet_exists_some _ o s _ (fun x hx => by
      rcases hstep x hx with h | ⟨_, h⟩
      · left; exact h
      · right; exact h) (by
      obtain ⟨cRef, hc, hg⟩ := hv2
      refine ⟨cRef, hc, ?_⟩
      rcases hstep cRef hc with h | ⟨_, h⟩
      · unfold cRefStep at h
        simp only [hg, hrr, beq_iff_eq, hz, if_false] at h
        rw [hout] at h
        exact absurd h (by simp)
      · exact h))]
    rfl

/-- C2. For an allocation call, not the recorder accessor, whose only
response value `v` has as its only referrer a field accessor `F`, where the
only referrer of `F` is a body load `L`, the body is closed and nothing else
is done with it (`L` has a referrer, and every referrer of `L` is a `Call` or
`Defer` invoking the method named `Close`, the resolved close method), and the
function enclosing `L` has no `Call` of a consuming function: `isopen` returns
`checkConsumption`, that is `false` when consumption checking is disabled and
`true` when it is enabled. -/
theorem C2_close_without_consumption (p : Program) (r : Runner) (fuel : Nat) (b : BlockId)
    (i : Nat) (s : SkipFile) (instr F L : InstrId) (v : Value) (cm : Func)
    (hi : (p.block b).instrs[i]? = some instr)
    (hreq : getReqCall p r instr = some instr)
    (hrec : isRecorderCall p instr = false)
    (hv1 : ∀ cRef ∈ (p.instr instr).referrers, ∀ val ∈ getResVal p r cRef, val = v)
    (hv2 : ∃ cRef ∈ (p.instr instr).referrers, getResVal p r cRef = some v)
    (hrr : p.referrersOf v = some [F])
    (hF : (p.instr F).kind.isFieldAddr = true)
    (hFr : (p.instr F).referrers = [L])
    (hL : getBodyOp p r L = some L)
    (hne : (p.instr L).referrers ≠ [])
    (hcm : r.closeMthd = some cm) (hcmn : cm.name = closeMethod)
    (hall : ∀ x ∈ (p.instr L).referrers, (p.instr x).kind.invokes closeMethod = true)
    (hnc : ∀ blk ∈ (p.func (p.block (p.instr L).block).parent).blocks,
      ∀ ci ∈ (p.block blk).instrs, ∀ c ∈ (p.instr ci).kind.asCall,
        isConsumptionFunction p c = false) :
    isopen p r (fuel + 1) b i s = Res.ret r.checkConsumption s := by
  have hrefs : (p.instr instr).referrers ≠ [] := by
    obtain ⟨cRef, hc, _⟩ := hv2
    intro h0; rw [h0] at hc; exact absurd hc (List.not_mem_nil _)
  have hclose : ∀ x ∈ (p.instr L).referrers, isCloseCall p r x = some true := by
    intro x hx
    obtain ⟨c, m, hk, hm, hn⟩ := InstrKind.invokes_eq (hall x hx)
    unfold isCloseCall
    rcases hk with hk | hk <;> simp [hk, hm, hcm, hn, hcmn]
  have hany : (p.instr L).referrers.any (closes p r) = true := by
    cases hr : (p.instr L).referrers with
    | nil => exact absurd hr hne
    | cons a as =>
      have := hclose a (by rw [hr]; exact List.mem_cons_self _ _)
      simp [closes, this]
  have hstepL := fieldAddrStep_load p r L s hL hne
    (fun x hx => by rw [hclose x hx]; simp)
  rw [hany, isBodyConsumed_of_no_call p L L hnc] at hstepL
  have hout : forRet (resRefStep (isopen p r fuel) p r) [F] s
      = Res.ret (if r.checkConsumption then none else some false) s := by
    rw [forRet_cons]
    have hF1 : resRefStep (isopen p r fuel) p r F s
        = Res.ret (if r.checkConsumption then none else some false) s := by
      unfold resRefStep
      obtain ⟨y, hk⟩ := InstrKind.isFieldAddr_eq hF
      simp only [hk, fieldAddrLoop, hFr]
      rw [forRet_cons, hstepL]
      cases r.checkConsumption <;> rfl
    rw [hF1]
    cases r.checkConsumption <;> rfl
  rw [isopen_eq_classify p r fuel b i s instr hi hreq hrefs hrec,
    classify_single _ p r instr v [F] s _ hv1 hv2 hrr (by simp) hout]
  cases r.checkConsumption <;> rfl

/-- C2, at `notConsumed1` of the consumption package (`defer
resp.Body.Close()` and nothing else), with consumption checking enabled: the
allocation is reported. -/
theorem C2_close_without_consumption_witness :
    isopen Fixture.consumptionPkg (Fixture.runner true) 1 6 0 [] = Res.ret true [] :=
  C2_close_without_consumption Fixture.consumptionPkg (Fixture.runner true) 0 6 0 [] 33 39 40
    (Value.instr 34) Fixture.fClose
    (by decide) (by decide) (by decide) (by decide) (by decide) (by decide) (by decide)
    (by decide) (by decide) (by decide) (by decide) (by decide) (by decide) (by decide)

/-- C3. For an allocation call whose only response value `v` is referred to
only by field accessors, where every body load under those accessors has at
least one referrer (on which `isCloseCall` is defined), one body load has a
closing instruction among its referrers, and the function enclosing that load
has, in some block at some position, a `Call` of a consuming function:
`isopen` returns `false` in both modes (the runner is arbitrary). -/
theorem C3_closed_and_consumed (p : Program) (r : Runner) (fuel : Nat) (b : BlockId)
    (i : Nat) (s : SkipFile) (instr : InstrId) (v : Value) (resRefs : List InstrId)
    (hi : (p.block b).instrs[i]? = some instr)
    (hreq : getReqCall p r instr = some instr)
    (hv1 : ∀ cRef ∈ (p.instr instr).referrers, ∀ val ∈ getResVal p r cRef, val = v)
    (hv2 : ∃ cRef ∈ (p.instr instr).referrers, getResVal p r cRef = some v)
    (hrr : p.referrersOf v = some resRefs)
    (hfa : ∀ F ∈ resRefs, (p.instr F).kind.isFieldAddr = true)
    (hload : ∀ F ∈ resRefs, ∀ L ∈ (p.instr F).referrers, ∀ bOp ∈ getBodyOp p r L,
      (p.instr bOp).referrers ≠ [] ∧ ∀ x ∈ (p.instr bOp).referrers, isCloseCall p r x ≠ none)
    (hclose : ∃ F ∈ resRefs, ∃ L ∈ (p.instr F).referrers, getBodyOp p r L = some L ∧
      (∃ x ∈ (p.instr L).referrers, isCloseCall p r x = some true) ∧
      ∃ blk ∈ (p.func (p.block (p.instr L).block).parent).blocks,
        ∃ ci ∈ (p.block blk).instrs, ∃ c ∈ (p.instr ci).kind.asCall,
          isConsumptionFunction p c = true) :
    isopen p r (fuel + 1) b i s = Res.ret false s := by
  have hrefs : (p.instr instr).referrers ≠ [] := by
    obtain ⟨cRef, hc, _⟩ := hv2
    intro h0; rw [h0] at hc; exact absurd hc (List.not_mem_nil _)
  have hne : resRefs ≠ [] := by
    obtain ⟨F, hF, _⟩ := hclose
    intro h0; rw [h0] at hF; exact absurd hF (List.not_mem_nil _)
  cases hrec : isRecorderCall p instr with
  | true => exact isopen_recorder p r fuel b i s instr hi hrefs hrec
  | false =>
    -- every body load goes on or returns `false`
    have hLstep : ∀ F ∈ resRefs, ∀ L ∈ (p.instr F).referrers,
        fieldAddrStep p r L s = Res.ret none s ∨
          fieldAddrStep p r L s = Res.ret (some false) s := by
      intro F hF L hLm
      cases hg : getBodyOp p r L with
      | none => left; exact fieldAddrStep_other p r L s hg
      | some bOp =>
        have hb := getBodyOp_eq hg
        subst hb
        obtain ⟨h1, h2⟩ := hload F hF bOp hLm bOp hg
        rw [fieldAddrStep_load p r bOp s hg h1 h2]
        split
        · right; rfl
        · left; rfl
    have hFstep : ∀ F ∈ resRefs,
        resRefStep (isopen p r fuel) p r F s = forRet (fieldAddrStep p r) (p.instr F).referrers s := by
      intro F hF
      obtain ⟨y, hk⟩ := InstrKind.isFieldAddr_eq (hfa F hF)
      unfold resRefStep
      simp only [hk]
      rfl
    have hout : forRet (resRefStep (isopen p r fuel) p r) resRefs s
        = Res.ret (some false) s := by
      apply forRet_exists_some
      · intro F hF
        rw [hFstep F hF]
        exact forRet_none_or _ false s _ (hLstep F hF)
      · obtain ⟨F, hF, L, hLm, hg, ⟨x, hx, hxc⟩, hcons⟩ := hclose
        refine ⟨F, hF, ?_⟩
        rw [hFstep F hF]
        apply forRet_exists_some _ false s _ (hLstep F hF)
        refine ⟨L, hLm, ?_⟩
        obtain ⟨h1, h2⟩ := hload F hF L hLm L hg
        rw [fieldAddrStep_load p r L s hg h1 h2]
        have hany : (p.instr L).referrers.any (closes p r) = true := by
          rw [List.any_eq_true]
          exact ⟨x, hx, by simp [closes, hxc]⟩
        rw [hany, isBodyConsumed_of_call p L L hcons]
        simp
    rw [isopen_eq_classify p r fuel b i s instr hi hreq hrefs hrec,
      classify_single _ p r instr v resRefs s _ hv1 hv2 hrr hne hout]
    rfl

/-- C3, at `consumedWithCopy` of the consumption package (`defer
resp.Body.Close()` followed by `io.Copy(io.Discard, resp.Body)`), with
consumption checking enabled. -/
theorem C3_closed_and_consumed_witness :
    isopen Fixture.consumptionPkg (Fixture.runner true) 1 0 0 [] = Res.ret false [] :=
  C3_closed_and_consumed Fixture.consumptionPkg (Fixture.runner true) 0 0 0 [] 0
    (Value.instr 1) [6, 10]
    (by decide) (by decide) (by decide) (by decide) (by decide) (by decide) (by decide)
    (by decide)

/-- Iterations that go on and keep a property of the map can be dropped, up
to the map the rest of the loop starts from. -/
theorem forRet_append_inv {α β : Type} (inv : SkipFile → Prop) (body : α → M (Option β))
    (pre rest : List α)
    (h : ∀ x ∈ pre, ∀ s, inv s → ∃ s1, body x s = Res.ret none s1 ∧ inv s1)
    (s : SkipFile) (hs : inv s) :
    ∃ s1, inv s1 ∧ forRet body (pre ++ rest) s = forRet body rest s1 := by
  induction pre generalizing s with
  | nil => exact ⟨s, hs, rfl⟩
  | cons x xs ih =>
    obtain ⟨s1, hx, hs1⟩ := h x (List.mem_cons_self _ _) s hs
    obtain ⟨s2, hs2, h2⟩ := ih (fun y hy => h y (List.mem_cons_of_mem _ hy)) s1 hs1
    exact ⟨s2, hs2, by rw [List.cons_append, forRet_cons_none hx, h2]⟩

/-- The loop over `cRefs` when the call has a single response value `v` and
the loop over the referrers of `v` returns `o`. -/
theorem classify_single_some (rec : BlockId → Nat → M Bool) (p : Program) (r : Runner)
    (instr : InstrId) (v : Value) (resRefs : List InstrId) (s s1 : SkipFile) (o : Bool)
    (hv1 : ∀ cRef ∈ (p.instr instr).referrers, ∀ val ∈ getResVal p r cRef, val = v)
    (hv2 : ∃ cRef ∈ (p.instr instr).referrers, getResVal p r cRef = some v)
    (hrr : p.referrersOf v = some resRefs) (hne : resRefs ≠ [])
    (hout : forRet (resRefStep rec p r) resRefs s = Res.ret (some o) s1) :
    classify rec p r instr s = Res.ret o s1 := by
  have hz : ¬ resRefs.length = 0 := by
    intro h0; exact hne (List.length_eq_zero.mp h0)
  have hstep : ∀ cRef ∈ (p.instr instr).referrers, getResVal p r cRef = some v →
      cRefStep rec p r cRef s = Res.ret (some o) s1 := by
    intro cRef _ hg
    unfold cRefStep
    simp only [hg, hrr, beq_iff_eq, hz, if_false]
    exact hout
  unfold classify
  rw [M.bind_ret (forRet_exists_some _ o s _ (fun x hx => by
    cases hg : getResVal p r x with
    | none => left; unfold cRefStep; rw [hg]; rfl
    | some val =>
      have hval : val = v := hv1 x hx val hg
      subst hval
      right; exact hstep x hx hg) (by
    obtain ⟨cRef, hc, hg⟩ := hv2
    exact ⟨cRef, hc, hstep cRef hc hg⟩))]
  rfl

/-- The instruction loop of the `Call`, `Defer` case on an instruction that
is no closing instruction and on which `isopen` returns `false`. -/
theorem calleeStep_none (p : Program) (r : Runner) (fuel : Nat) (blk : BlockId)
    (e : Nat × InstrId) (hc : isCloseCall p r e.2 = some false)
    (ho : isopenAt p r fuel blk e.1 = some false) (s : SkipFile) (hs : CacheOK p s) :
    ∃ s1, calleeStep (isopen p r fuel) p r blk e s = Res.ret none s1 ∧ CacheOK p s1 := by
  obtain ⟨s1, h1, hs1⟩ := isopen_of_isopenAt ho s hs
  refine ⟨s1, ?_, hs1⟩
  unfold calleeStep
  rw [hc, M.bind_ret (M.ofOption_some false s)]
  simp only [Bool.false_eq_true, if_false]
  rw [M.bind_ret h1]
  rfl

/-- The instruction loop of the `Call`, `Defer` case on a closing
instruction. -/
theorem calleeStep_close (rec : BlockId → Nat → M Bool) (p : Program) (r : Runner)
    (blk : BlockId) (e : Nat × InstrId) (hc : isCloseCall p r e.2 = some true) (s : SkipFile) :
    calleeStep rec p r blk e s = Res.ret (some false) s := by
  unfold calleeStep
  rw [hc, M.bind_ret (M.ofOption_some true s)]
  rfl

/-- C4. For an allocation call whose only response value `v` has as its
only referrer a `Call` or a `Defer` of a function `f` (the value of the call
is the function itself): if, going through the blocks of `f` in order and the
instructions of each block in order, a closing instruction is met and on every
instruction before it `isCloseCall` is `false` and `isopen` returns `false`,
then `isopen` returns `false` on the allocation call, in both modes (the
runner is arbitrary), with no condition on consuming calls. -/
theorem C4_close_in_helper (p : Program) (r : Runner) (fuel : Nat) (b : BlockId)
    (i : Nat) (s : SkipFile) (instr cd x : InstrId) (v : Value) (c : CallCommon) (f : FuncId)
    (b0 : BlockId) (preB postB : List BlockId) (preI postI : List InstrId)
    (hs : CacheOK p s)
    (hi : (p.block b).instrs[i]? = some instr)
    (hreq : getReqCall p r instr = some instr)
    (hv1 : ∀ cRef ∈ (p.instr instr).referrers, ∀ val ∈ getResVal p r cRef, val = v)
    (hv2 : ∃ cRef ∈ (p.instr instr).referrers, getResVal p r cRef = some v)
    (hrr : p.referrersOf v = some [cd])
    (hcd : (p.instr cd).kind.common = some c)
    (hf : c.value = Value.function f)
    (hblocks : (p.func f).blocks = preB ++ b0 :: postB)
    (hinstrs : (p.block b0).instrs = preI ++ x :: postI)
    (hx : isCloseCall p r x = some true)
    (hpreB : ∀ blk ∈ preB, ∀ e ∈ (p.block blk).instrs.enum,
      isCloseCall p r e.2 = some false ∧ isopenAt p r fuel blk e.1 = some false)
    (hpreI : ∀ e ∈ preI.enum,
      isCloseCall p r e.2 = some false ∧ isopenAt p r fuel b0 e.1 = some false) :
    ∃ s1, isopen p r (fuel + 1) b i s = Res.ret false s1 := by
  have hrefs : (p.instr instr).referrers ≠ [] := by
    obtain ⟨cRef, hc, _⟩ := hv2
    intro h0; rw [h0] at hc; exact absurd hc (List.not_mem_nil _)
  cases hrec : isRecorderCall p instr with
  | true => exact ⟨s, isopen_recorder p r fuel b i s instr hi hrefs hrec⟩
  | false =>
    -- the blocks before the closing one go on
    obtain ⟨s1, hs1, hB⟩ := forRet_append_inv (CacheOK p)
      (fun blk => forRet (calleeStep (isopen p r fuel) p r blk) (p.block blk).instrs.enum)
      preB (b0 :: postB)
      (fun blk hblk t ht => by
        obtain ⟨t1, ht1, h1⟩ := forRet_append_inv (CacheOK p)
          (calleeStep (isopen p r fuel) p r blk) (p.block blk).instrs.enum []
          (fun e he t2 ht2 =>
            calleeStep_none p r fuel blk e (hpreB blk hblk e he).1 (hpreB blk hblk e he).2 t2 ht2)
          t ht
        rw [List.append_nil] at h1
        exact ⟨t1, h1.trans rfl, ht1⟩)
      s hs
    -- the instructions before the closing one go on
    obtain ⟨s2, _, hI⟩ := forRet_append_inv (CacheOK p)
      (calleeStep (isopen p r fuel) p r b0) preI.enum
      (List.enumFrom preI.length (x :: postI))
      (fun e he t2 ht2 =>
        calleeStep_none p r fuel b0 e (hpreI e he).1 (hpreI e he).2 t2 ht2)
      s1 hs1
    have hcall : callCase (isopen p r fuel) p r c s = Res.ret (some false) s2 := by
      unfold callCase
      simp only [hf, hblocks]
      rw [hB]
      apply forRet_cons_some
      rw [hinstrs, List.enum_append, hI, List.enumFrom_cons]
      exact forRet_cons_some (calleeStep_close _ p r b0 _ hx s2)
    have hout : forRet (resRefStep (isopen p r fuel) p r) [cd] s = Res.ret (some false) s2 := by
      apply forRet_cons_some
      unfold resRefStep
      cases hk : (p.instr cd).kind <;> rw [hk] at hcd <;>
        simp only [InstrKind.common, Option.some.injEq] at hcd
      · subst hcd; exact hcall
      · subst hcd; exact hcall
      all_goals exact absurd hcd (by simp)
    refine ⟨s2, ?_⟩
    rw [isopen_eq_classify p r fuel b i s instr hi hreq hrefs hrec]
    exact classify_single_some _ p r instr v [cd] s s2 false hv1 hv2 hrr (by simp) hout

/-- C4, at `consumedInHelper` of the consumption package (`defer
drainAndClose(resp)`), with consumption checking enabled: the closing call of
`drainAndClose` is the eighth instruction of its second block. -/
theorem C4_close_in_helper_witness :
    ∃ s1, isopen Fixture.consumptionPkg (Fixture.runner true) 2 12 0 [] = Res.ret false s1 :=
  C4_close_in_helper Fixture.consumptionPkg (Fixture.runner true) 1 12 0 [] 57 63 75
    (Value.instr 58) ⟨Value.function 8, none⟩ 8 16 [15] [17, 18] [68, 69, 70, 71, 72, 73, 74]
    [76] (cacheOK_nil _)
    (by decide) (by decide) (by decide) (by decide) (by decide) (by decide) (by decide)
    (by decide) (by decide) (by decide) (by decide) (by decide)

theorem transparent_forEmit {α : Type} (p : Program) {body : α → M (List Diagnostic)}
    (xs : List α) (hb : ∀ x ∈ xs, Transparent p (body x)) :
    Transparent p (forEmit body xs) := by
  induction xs with
  | nil => exact transparent_pure p []
  | cons x xs ih =>
    rw [forEmit_cons]
    exact transparent_bind p (hb x (List.mem_cons_self _ _)) (fun d =>
      transparent_bind p (ih (fun y hy => hb y (List.mem_cons_of_mem _ hy)))
        (fun ds => transparent_pure p _))

/-- A transparent computation that returns from the empty map returns the
same from every map with sound entries. -/
theorem Transparent.of_returns {α : Type} {p : Program} {m : M α} (h : Transparent p m)
    {a : α} {t : SkipFile} (h0 : m [] = Res.ret a t) (s : SkipFile) (hs : CacheOK p s) :
    ∃ s1, m s = Res.ret a s1 ∧ CacheOK p s1 := by
  obtain ⟨s1, h1, _, h3⟩ := Res.agree_ret (h [] s (cacheOK_nil p) hs) h0
  exact ⟨s1, h1, h3⟩

/-- A transparent computation that returns from a map with sound entries
returns the same from the empty map. -/
theorem Transparent.returns_nil {α : Type} {p : Program} {m : M α} (h : Transparent p m)
    {a : α} {s s1 : SkipFile} (hs : CacheOK p s) (h1 : m s = Res.ret a s1) :
    ∃ t, m [] = Res.ret a t ∧ CacheOK p s1 := by
  obtain ⟨t, ht, h2, _⟩ := Res.agree_ret (h s [] hs (cacheOK_nil p)) h1
  exact ⟨t, ht, h2⟩

theorem reportsOf_eq {m : M (List Diagnostic)} {d : List Diagnostic} {t : SkipFile}
    (h : m [] = Res.ret d t) : reportsOf m = d := by
  unfold reportsOf
  rw [h]

/-- A reporting loop over transparent iterations that all return reports
what the iterations report from the empty map, in order. -/
theorem forEmit_returns {α : Type} (p : Program) (body : α → M (List Diagnostic))
    (xs : List α) (hb : ∀ x ∈ xs, Transparent p (body x))
    (hret : ∀ x ∈ xs, Returns (body x)) (s : SkipFile) (hs : CacheOK p s) :
    ∃ s1, forEmit body xs s = Res.ret (xs.flatMap fun x => reportsOf (body x)) s1 ∧
      CacheOK p s1 := by
  induction xs generalizing s with
  | nil => exact ⟨s, rfl, hs⟩
  | cons x xs ih =>
    obtain ⟨d, t, h0⟩ := hret x (List.mem_cons_self _ _)
    obtain ⟨s1, h1, hs1⟩ := (hb x (List.mem_cons_self _ _)).of_returns h0 s hs
    obtain ⟨s2, h2, hs2⟩ := ih (fun y hy => hb y (List.mem_cons_of_mem _ hy))
      (fun y hy => hret y (List.mem_cons_of_mem _ hy)) s1 hs1
    refine ⟨s2, ?_, hs2⟩
    rw [forEmit_cons, M.bind_ret h1, M.bind_ret h2, List.flatMap_cons, reportsOf_eq h0]
    rfl

/-- A reporting loop over transparent iterations returns only if every
iteration returns from the empty map. -/
theorem forEmit_returns_inv {α : Type} (p : Program) (body : α → M (List Diagnostic))
    (xs : List α) (hb : ∀ x ∈ xs, Transparent p (body x))
    (s s1 : SkipFile) (hs : CacheOK p s) (ds : List Diagnostic)
    (h : forEmit body xs s = Res.ret ds s1) : ∀ x ∈ xs, Returns (body x) := by
  induction xs generalizing s s1 ds with
  | nil => intro x hx; exact absurd hx (List.not_mem_nil x)
  | cons y ys ih =>
    rw [forEmit_cons, M.bind_apply] at h
    cases hy : body y s with
    | ret d t =>
      rw [hy] at h
      simp only [M.bind_apply] at h
      obtain ⟨t0, ht0, ht⟩ := (hb y (List.mem_cons_self _ _)).returns_nil hs hy
      cases hys : forEmit body ys t with
      | ret ds1 t1 =>
        intro x hx
        rcases List.mem_cons.mp hx with rfl | hx1
        · exact ⟨d, t0, ht0⟩
        · exact ih (fun z hz => hb z (List.mem_cons_of_mem _ hz)) t t1 ht ds1 hys x hx1
      | panicked => rw [hys] at h; exact absurd h (by simp)
      | timeout => rw [hys] at h; exact absurd h (by simp)
    | panicked => rw [hy] at h; exact absurd h (by simp)
    | timeout => rw [hy] at h; exact absurd h (by simp)

theorem transparent_scanInstr (fuel : Nat) (p : Program) (r : Runner) (b : BlockId)
    (e : Nat × InstrId) : Transparent p (scanInstr fuel p r b e) := by
  unfold scanInstr
  refine transparent_bind p (transparent_isopen p r fuel b e.1) (fun o => ?_)
  split <;> exact transparent_pure p _

theorem transparent_scanFunc (fuel : Nat) (p : Program) (r : Runner) (f : FuncId) :
    Transparent p (scanFunc fuel p r f) := by
  unfold scanFunc
  split
  · exact transparent_pure p _
  · exact transparent_forEmit p _ (fun b _ =>
      transparent_forEmit p _ (fun e _ => transparent_scanInstr fuel p r b e))

/-- The step of `FuncLoop` on an instruction returns when `isopen` does. -/
theorem returns_scanInstr (fuel : Nat) (p : Program) (r : Runner) (b : BlockId)
    (e : Nat × InstrId) : Returns (scanInstr fuel p r b e) ↔ isopenAt p r fuel b e.1 ≠ none := by
  unfold Returns scanInstr isopenAt
  rw [M.bind_apply]
  cases isopen p r fuel b e.1 [] with
  | ret o t =>
    simp only [ne_eq, not_false_eq_true, iff_true, reduceCtorEq]
    cases o
    · exact ⟨_, _, rfl⟩
    · exact ⟨_, _, rfl⟩
  | panicked => simp
  | timeout => simp

/-- What the step of `FuncLoop` on an instruction reports. -/
theorem reportsOf_scanInstr (fuel : Nat) (p : Program) (r : Runner) (b : BlockId)
    (e : Nat × InstrId) :
    reportsOf (scanInstr fuel p r b e)
      = if isopenAt p r fuel b e.1 == some true then
          [⟨(p.instr e.2).pos, message r.checkConsumption⟩] else [] := by
  unfold reportsOf scanInstr isopenAt
  rw [M.bind_apply]
  cases isopen p r fuel b e.1 [] with
  | ret o t => cases o <;> simp
  | panicked => simp
  | timeout => simp

/-- A reporting loop over transparent iterations returns exactly when every
iteration does. -/
theorem returns_forEmit {α : Type} (p : Program) (body : α → M (List Diagnostic))
    (xs : List α) (hb : ∀ x ∈ xs, Transparent p (body x)) :
    Returns (forEmit body xs) ↔ ∀ x ∈ xs, Returns (body x) := by
  constructor
  · rintro ⟨ds, t, h⟩
    exact forEmit_returns_inv p body xs hb [] t (cacheOK_nil p) ds h
  · intro h
    obtain ⟨s1, h1, _⟩ := forEmit_returns p body xs hb h [] (cacheOK_nil p)
    exact ⟨_, s1, h1⟩

/-- What a reporting loop over transparent iterations that return reports. -/
theorem reportsOf_forEmit {α : Type} (p : Program) (body : α → M (List Diagnostic))
    (xs : List α) (hb : ∀ x ∈ xs, Transparent p (body x))
    (hret : ∀ x ∈ xs, Returns (body x)) :
    reportsOf (forEmit body xs) = xs.flatMap fun x => reportsOf (body x) := by
  obtain ⟨s1, h1, _⟩ := forEmit_returns p body xs hb hret [] (cacheOK_nil p)
  exact reportsOf_eq h1

theorem flatMap_congr_mem {α β : Type} (l : List α) (f g : α → List β)
    (h : ∀ x ∈ l, f x = g x) : l.flatMap f = l.flatMap g := by
  induction l with
  | nil => rfl
  | cons x xs ih =>
    rw [List.flatMap_cons, List.flatMap_cons, h x (List.mem_cons_self _ _),
      ih (fun y hy => h y (List.mem_cons_of_mem _ hy))]

theorem filter_map_flatMap {α β γ : Type} (l : List α) (f : α → List β) (q : β → Bool)
    (g : β → γ) :
    ((l.flatMap f).filter q).map g = l.flatMap fun x => ((f x).filter q).map g := by
  induction l with
  | nil => rfl
  | cons x xs ih =>
    rw [List.flatMap_cons, List.flatMap_cons, List.filter_append, List.map_append, ih]

theorem filter_flatMap_if {α β : Type} (l : List α) (c : α → Bool) (f : α → List β) :
    (l.filter c).flatMap f = l.flatMap fun x => if c x then f x else [] := by
  induction l with
  | nil => rfl
  | cons x xs ih =>
    rw [List.flatMap_cons]
    cases hc : c x
    · rw [List.filter_cons_of_neg (by simp [hc]), ih]; simp
    · rw [List.filter_cons_of_pos hc, List.flatMap_cons, ih]; simp

theorem map_filter_map_flatMap {α β γ : Type} (l : List α) (h : α → β) (q : β → Bool)
    (g : β → γ) :
    ((l.map h).filter q).map g = l.flatMap fun e => if q (h e) then [g (h e)] else [] := by
  induction l with
  | nil => rfl
  | cons x xs ih =>
    rw [List.map_cons, List.flatMap_cons, ← ih]
    cases hq : q (h x)
    · rw [List.filter_cons_of_neg (by simp [hq])]; simp
    · rw [List.filter_cons_of_pos hq]; simp

/-- The iteration of `FuncLoop` for a function returns exactly when the
function is skipped or `isopen` returns on each of its instructions. -/
theorem returns_scanFunc (fuel : Nat) (p : Program) (r : Runner) (f : FuncId) :
    Returns (scanFunc fuel p r f) ↔
      (returnsResponse p r f = true ∨
        ∀ x ∈ sitesOf p f, isopenAt p r fuel x.1 x.2.1 ≠ none) := by
  unfold scanFunc
  cases hskip : returnsResponse p r f with
  | true => simp only [if_true, true_or, iff_true]; exact ⟨_, _, rfl⟩
  | false =>
    simp only [Bool.false_eq_true, if_false, false_or]
    rw [returns_forEmit p _ _ (fun b _ =>
      transparent_forEmit p _ (fun e _ => transparent_scanInstr fuel p r b e))]
    unfold sitesOf
    constructor
    · intro h x hx
      obtain ⟨b, hb, hxb⟩ := List.mem_flatMap.mp hx
      obtain ⟨e, he, rfl⟩ := List.mem_map.mp hxb
      have h1 := (returns_forEmit p _ _
        (fun e _ => transparent_scanInstr fuel p r b e)).mp (h b hb) e he
      exact (returns_scanInstr fuel p r b e).mp h1
    · intro h b hb
      refine (returns_forEmit p _ _
        (fun e _ => transparent_scanInstr fuel p r b e)).mpr (fun e he => ?_)
      exact (returns_scanInstr fuel p r b e).mpr
        (h (b, e) (List.mem_flatMap.mpr ⟨b, hb, List.mem_map.mpr ⟨e, he, rfl⟩⟩))

/-- What the iteration of `FuncLoop` for a function reports, when it
returns. -/
theorem reportsOf_scanFunc (fuel : Nat) (p : Program) (r : Runner) (f : FuncId)
    (hret : Returns (scanFunc fuel p r f)) :
    reportsOf (scanFunc fuel p r f)
      = if (!returnsResponse p r f) = true then
          ((sitesOf p f).filter fun x => isopenAt p r fuel x.1 x.2.1 == some true).map fun x =>
            ⟨(p.instr x.2.2).pos, message r.checkConsumption⟩
        else [] := by
  have hret1 := (returns_scanFunc fuel p r f).mp hret
  unfold scanFunc at hret ⊢
  cases hskip : returnsResponse p r f with
  | true => rfl
  | false =>
    rw [hskip] at hret hret1
    simp only [Bool.false_eq_true, if_false, false_or] at hret hret1
    simp only [Bool.false_eq_true, if_false, Bool.not_false, if_true]
    have hblk := (returns_forEmit p _ _ (fun b _ =>
      transparent_forEmit p _ (fun e _ => transparent_scanInstr fuel p r b e))).mp hret
    rw [reportsOf_forEmit p _ _ (fun b _ =>
      transparent_forEmit p _ (fun e _ => transparent_scanInstr fuel p r b e)) hblk]
    unfold sitesOf
    rw [filter_map_flatMap]
    apply flatMap_congr_mem
    intro b hb
    have hins := (returns_forEmit p _ _
      (fun e _ => transparent_scanInstr fuel p r b e)).mp (hblk b hb)
    rw [reportsOf_forEmit p _ _ (fun e _ => transparent_scanInstr fuel p r b e) hins,
      map_filter_map_flatMap]
    apply flatMap_congr_mem
    intro e _
    exact reportsOf_scanInstr fuel p r b e

/-- The loop `FuncLoop`: it returns exactly when `isopen` returns on every
scanned instruction, and then it reports what C9 says. -/
theorem funcLoop_spec (fuel : Nat) (p : Program) (r : Runner) :
    (Returns (forEmit (scanFunc fuel p r) p.srcFuncs) ↔
      ∀ x ∈ scannedSites p r, isopenAt p r fuel x.1 x.2.1 ≠ none) ∧
    (Returns (forEmit (scanFunc fuel p r) p.srcFuncs) →
      reportsOf (forEmit (scanFunc fuel p r) p.srcFuncs) = expectedDiagnostics fuel p r) := by
  have htr : ∀ f ∈ p.srcFuncs, Transparent p (scanFunc fuel p r f) :=
    fun f _ => transparent_scanFunc fuel p r f
  have hiff : Returns (forEmit (scanFunc fuel p r) p.srcFuncs) ↔
      ∀ x ∈ scannedSites p r, isopenAt p r fuel x.1 x.2.1 ≠ none := by
    rw [returns_forEmit p _ _ htr]
    unfold scannedSites
    constructor
    · intro h x hx
      obtain ⟨f, hf, hxf⟩ := List.mem_flatMap.mp hx
      obtain ⟨hf1, hf2⟩ := List.mem_filter.mp hf
      rcases (returns_scanFunc fuel p r f).mp (h f hf1) with h1 | h1
      · rw [h1] at hf2; exact absurd hf2 (by simp)
      · exact h1 x hxf
    · intro h f hf
      apply (returns_scanFunc fuel p r f).mpr
      cases hskip : returnsResponse p r f with
      | true => left; rfl
      | false =>
        right
        intro x hx
        exact h x (List.mem_flatMap.mpr ⟨f, List.mem_filter.mpr ⟨hf, by simp [hskip]⟩, hx⟩)
  refine ⟨hiff, fun hret => ?_⟩
  have hfs := (returns_forEmit p _ _ htr).mp hret
  rw [reportsOf_forEmit p _ _ htr hfs]
  unfold expectedDiagnostics scannedSites
  rw [filter_map_flatMap, filter_flatMap_if]
  apply flatMap_congr_mem
  intro f hf
  rw [reportsOf_scanFunc fuel p r f (hfs f hf)]

/-- C9. When the response type, the Body field and the method Close are
resolved, `runWithRunner` returns, without an error, as soon as `isopen`
returns on every instruction of the functions that are not skipped, and
whenever it returns, the diagnostics are, in order, exactly one for each such
instruction on which `isopen` is `true`, at the position of the instruction,
with the message of the mode. -/
theorem C9_exactly_once (fuel : Nat) (p : Program) (checkConsumption : Bool)
    (resObj : ResObject) (nm nm2 : TypeName) (fields : List Var) (bodyObj : Var)
    (methods : List Func) (cm : Func)
    (hres : p.resObj = some resObj)
    (hnamed : resObj.typ.form = TypeForm.named nm)
    (hfields : resObj.fields = some fields)
    (hbody : fields.find? (fun field => field.id == "Body") = some bodyObj)
    (hbnamed : bodyObj.typ.form = TypeForm.named nm2)
    (hiface : bodyObj.typ.iface = some methods)
    (hclose : methods.find? (fun bmthd => bmthd.id == closeMethod) = some cm) :
    ((∀ x ∈ scannedSites p ⟨"*" ++ resObj.typ.str, bodyObj, some cm, checkConsumption⟩,
        isopenAt p ⟨"*" ++ resObj.typ.str, bodyObj, some cm, checkConsumption⟩ fuel x.1 x.2.1
          ≠ none) →
      ∃ s, runWithRunner fuel p checkConsumption
        = Res.ret ⟨none, expectedDiagnostics fuel p
            ⟨"*" ++ resObj.typ.str, bodyObj, some cm, checkConsumption⟩⟩ s) ∧
    (∀ out s, runWithRunner fuel p checkConsumption = Res.ret out s →
      out = ⟨none, expectedDiagnostics fuel p
        ⟨"*" ++ resObj.typ.str, bodyObj, some cm, checkConsumption⟩⟩) ∧
    message true = "response body must be closed and consumed" ∧
    message false = "response body must be closed" := by
  have hrun : runWithRunner fuel p checkConsumption
      = match forEmit (scanFunc fuel p
          ⟨"*" ++ resObj.typ.str, bodyObj, some cm, checkConsumption⟩) p.srcFuncs [] with
        | Res.ret diags s => Res.ret ⟨none, diags⟩ s
        | Res.panicked => Res.panicked
        | Res.timeout => Res.timeout := by
    unfold runWithRunner
    simp only [hres, hnamed, hfields, hbody, hbnamed, hiface, hclose]
  obtain ⟨hiff, hrep⟩ := funcLoop_spec fuel p
    ⟨"*" ++ resObj.typ.str, bodyObj, some cm, checkConsumption⟩
  refine ⟨?_, ?_, rfl, rfl⟩
  · intro hall
    have hret := hiff.mpr hall
    have hd := hrep hret
    obtain ⟨ds, t, ht⟩ := hret
    rw [reportsOf_eq ht] at hd
    subst hd
    exact ⟨t, by rw [hrun, ht]⟩
  · intro out s hout
    rw [hrun] at hout
    cases ht : forEmit (scanFunc fuel p
        ⟨"*" ++ resObj.typ.str, bodyObj, some cm, checkConsumption⟩) p.srcFuncs [] with
    | ret ds t =>
      rw [ht] at hout
      simp only [Res.ret.injEq] at hout
      have hd := hrep ⟨ds, t, ht⟩
      rw [reportsOf_eq ht] at hd
      rw [← hout.1, hd]
    | panicked => rw [ht] at hout; exact absurd hout (by simp)
    | timeout => rw [ht] at hout; exact absurd hout (by simp)

/-- C9, on the consumption package with consumption checking enabled: the
run reports `notConsumed1`, `notConsumed2` and `notClosedAtAll`, the three
functions marked `want` in the test data, each once, at its call of
`http.Get`. -/
theorem C9_exactly_once_witness :
    ∃ s, runWithRunner 2 Fixture.consumptionPkg true
      = Res.ret ⟨none, [⟨2923, "response body must be closed and consumed"⟩,
          ⟨3823, "response body must be closed and consumed"⟩,
          ⟨6323, "response body must be closed and consumed"⟩]⟩ s :=
  (C9_exactly_once 2 Fixture.consumptionPkg true Fixture.responseObj
    ⟨"Response", some "net/http"⟩ ⟨"ReadCloser", some "io"⟩
    [⟨"Status", Fixture.tString⟩, ⟨"StatusCode", Fixture.tInt⟩, ⟨"Body", Fixture.tReadCloser⟩]
    ⟨"Body", Fixture.tReadCloser⟩ [Fixture.fClose, Fixture.fRead] Fixture.fClose
    rfl rfl rfl (by decide) rfl rfl (by decide)).1 (by decide)

/-- What a loop returns, when every iteration that returns goes on or
returns `b`. -/
theorem forRet_ret_cases {α β : Type} (body : α → M (Option β)) (b : β) (xs : List α)
    (h : ∀ x ∈ xs, ∀ t o t1, body x t = Res.ret o t1 → o = none ∨ o = some b)
    (t : SkipFile) (o : Option β) (t1 : SkipFile) (hret : forRet body xs t = Res.ret o t1) :
    o = none ∨ o = some b := by
  induction xs generalizing t with
  | nil =>
    rw [forRet_nil] at hret
    simp only [Res.ret.injEq] at hret
    exact Or.inl hret.1.symm
  | cons x xs ih =>
    rw [forRet_cons] at hret
    cases hx : body x t with
    | ret ox tx =>
      rw [hx] at hret
      cases ox with
      | none => exact ih (fun y hy => h y (List.mem_cons_of_mem _ hy)) tx hret
      | some v =>
        simp only [Res.ret.injEq] at hret
        rcases h x (List.mem_cons_self _ _) t (some v) tx hx with h1 | h1
        · exact absurd h1 (by simp)
        · right; rw [← hret.1, h1]
    | panicked => rw [hx] at hret; exact absurd hret (by simp)
    | timeout => rw [hx] at hret; exact absurd hret (by simp)

/-- A loop with an iteration that cannot go on returns, if it returns at
all, from inside the loop. -/
theorem forRet_ret_some {α β : Type} (body : α → M (Option β)) (b : β) (xs : List α)
    (h : ∀ x ∈ xs, ∀ t o t1, body x t = Res.ret o t1 → o = none ∨ o = some b)
    (hex : ∃ x ∈ xs, ∀ t t1, body x t ≠ Res.ret none t1)
    (t : SkipFile) (o : Option β) (t1 : SkipFile) (hret : forRet body xs t = Res.ret o t1) :
    o = some b := by
  induction xs generalizing t with
  | nil => obtain ⟨x, hx, _⟩ := hex; exact absurd hx (List.not_mem_nil x)
  | cons x xs ih =>
    rw [forRet_cons] at hret
    cases hx : body x t with
    | ret ox tx =>
      rw [hx] at hret
      cases ox with
      | none =>
        apply ih (fun y hy => h y (List.mem_cons_of_mem _ hy)) _ tx hret
        obtain ⟨y, hy, hyn⟩ := hex
        rcases List.mem_cons.mp hy with rfl | hy1
        · exact absurd hx (hyn t tx)
        · exact ⟨y, hy1, hyn⟩
      | some v =>
        simp only [Res.ret.injEq] at hret
        rcases h x (List.mem_cons_self _ _) t (some v) tx hx with h1 | h1
        · exact absurd h1 (by simp)
        · rw [← hret.1, h1]
    | panicked => rw [hx] at hret; exact absurd hret (by simp)
    | timeout => rw [hx] at hret; exact absurd hret (by simp)

theorem findSome?_forall {α β : Type} (f : α → Option β) (P : β → Prop) (l : List α)
    (h : ∀ x ∈ l, ∀ o, f x = some o → P o) (o : β) (ho : l.findSome? f = some o) : P o := by
  induction l with
  | nil => simp at ho
  | cons x xs ih =>
    rw [List.findSome?_cons] at ho
    cases hx : f x with
    | none =>
      rw [hx] at ho
      exact ih (fun y hy => h y (List.mem_cons_of_mem _ hy)) ho
    | some v =>
      rw [hx] at ho
      simp only [Option.some.injEq] at ho
      rw [← ho]
      exact h x (List.mem_cons_self _ _) v hx

/-- The `UnOp` case of `calledInFunc` for a closure that is not called
returns `true` when it returns. -/
theorem calledInFuncUnOp_uncalled (p : Program) (x : InstrId) (o : Bool)
    (h : calledInFuncUnOp p x false = some o) : o = true := by
  unfold calledInFuncUnOp at h
  try dsimp only at h
  split at h
  · exact (Option.some.inj h).symm
  · refine findSome?_forall _ (fun o => o = true) _ ?_ o h
    intro a _ o1 h1
    try dsimp only at h1
    split at h1
    · split at h1
      · exact absurd h1 (by simp)
      · refine findSome?_forall _ (fun o => o = true) _ ?_ o1 h1
        intro a2 _ o2 h2
        try dsimp only at h2
        split at h2
        · split at h2
          · exact (Option.some.inj h2).symm
          · refine findSome?_forall _ (fun o => o = true) _ ?_ o2 h2
            intro a3 _ o3 h3
            try dsimp only at h3
            split at h3
            · split at h3
              · split at h3
                · exact (Option.some.inj h3).symm
                · exact absurd h3 (by simp)
              · exact absurd h3 (by simp)
            · exact absurd h3 (by simp)
        · exact absurd h2 (by simp)
    · exact absurd h1 (by simp)

theorem calledInFuncStep_unOp (rec : BlockId → Nat → M Bool) (p : Program)
    (called : Bool) (blk : BlockId) (e : Nat × InstrId)
    (hk : (p.instr e.2).kind.isUnOp = true) :
    calledInFuncStep rec p called blk e = M.pure (calledInFuncUnOp p e.2 called) := by
  unfold calledInFuncStep
  cases hkk : (p.instr e.2).kind with
  | unOp x => rfl
  | _ => rw [hkk] at hk; simp [InstrKind.isUnOp] at hk

theorem calledInFuncStep_other (rec : BlockId → Nat → M Bool) (p : Program)
    (called : Bool) (blk : BlockId) (e : Nat × InstrId)
    (hk : (p.instr e.2).kind.isUnOp = false) :
    calledInFuncStep rec p called blk e
      = (rec blk e.1 >>= fun o => M.pure (some (o || !called))) := by
  unfold calledInFuncStep
  cases hkk : (p.instr e.2).kind with
  | unOp x => rw [hkk] at hk; simp [InstrKind.isUnOp] at hk
  | _ => rfl

/-- The instruction loop of `calledInFunc` for a closure that is not called
goes on or returns `true`. -/
theorem calledInFuncStep_uncalled (rec : BlockId → Nat → M Bool) (p : Program)
    (blk : BlockId) (e : Nat × InstrId) (t : SkipFile) (o : Option Bool) (t1 : SkipFile)
    (h : calledInFuncStep rec p false blk e t = Res.ret o t1) : o = none ∨ o = some true := by
  cases hk : (p.instr e.2).kind.isUnOp with
  | true =>
    rw [calledInFuncStep_unOp rec p false blk e hk] at h
    simp only [M.pure_apply, Res.ret.injEq] at h
    cases o with
    | none => left; rfl
    | some v => right; rw [calledInFuncUnOp_uncalled p e.2 v h.1]
  | false =>
    rw [calledInFuncStep_other rec p false blk e hk, M.bind_apply] at h
    cases hr : rec blk e.1 t with
    | ret a ta =>
      rw [hr] at h
      simp only [M.pure_apply, Res.ret.injEq] at h
      right; rw [← h.1]; simp
    | panicked => rw [hr] at h; exact absurd h (by simp)
    | timeout => rw [hr] at h; exact absurd h (by simp)

/-- On an instruction that is no `UnOp` the loop of `calledInFunc` does not
go on. -/
theorem calledInFuncStep_ne_none (rec : BlockId → Nat → M Bool) (p : Program)
    (called : Bool) (blk : BlockId) (e : Nat × InstrId)
    (hk : (p.instr e.2).kind.isUnOp = false) (t t1 : SkipFile) :
    calledInFuncStep rec p called blk e t ≠ Res.ret none t1 := by
  rw [calledInFuncStep_other rec p called blk e hk, M.bind_apply]
  cases rec blk e.1 t <;> simp

/-- The method `calledInFunc` on a closure that is not called, whose
function has an instruction that is no `UnOp`, returns `true` when it
returns. -/
theorem calledInFunc_uncalled (rec : BlockId → Nat → M Bool) (p : Program) (f : FuncId)
    (hbody : ∃ blk ∈ (p.func f).blocks, ∃ x ∈ (p.block blk).instrs,
      (p.instr x).kind.isUnOp = false)
    (t : SkipFile) (o : Bool) (t1 : SkipFile)
    (h : calledInFunc rec p f false t = Res.ret o t1) : o = true := by
  unfold calledInFunc at h
  rw [M.bind_apply] at h
  cases hl : forRet (fun b => forRet (calledInFuncStep rec p false b) (p.block b).instrs.enum)
      (p.func f).blocks t with
  | ret out tl =>
    rw [hl] at h
    simp only [M.pure_apply, Res.ret.injEq] at h
    have hout : out = some true := by
      refine forRet_ret_some _ true _ ?_ ?_ t out tl hl
      · intro blk _ t2 o2 t3 h2
        exact forRet_ret_cases _ true _
          (fun e _ t4 o4 t5 h4 => calledInFuncStep_uncalled rec p blk e t4 o4 t5 h4)
          t2 o2 t3 h2
      · obtain ⟨blk, hblk, x, hx, hk⟩ := hbody
        refine ⟨blk, hblk, fun t2 t3 h2 => ?_⟩
        obtain ⟨n, hn⟩ := List.getElem?_of_mem hx
        have hmem : (n, x) ∈ (p.block blk).instrs.enum :=
          List.mk_mem_enum_iff_getElem?.mpr hn
        have := forRet_ret_some _ true _
          (fun e _ t4 o4 t5 h4 => calledInFuncStep_uncalled rec p blk e t4 o4 t5 h4)
          ⟨(n, x), hmem, fun t4 t5 => calledInFuncStep_ne_none rec p false blk (n, x) hk t4 t5⟩
          t2 none t3 h2
        exact absurd this (by simp)
    rw [← h.1, hout]; rfl
  | panicked => rw [hl] at h; exact absurd h (by simp)
  | timeout => rw [hl] at h; exact absurd h (by simp)

/-- The loop of the `Store` case passes over a referrer that is neither a
`MakeClosure` nor a `Store` into a `FieldAddr`. -/
theorem arefStep_passedOver (rec : BlockId → Nat → M Bool) (p : Program) (r : Runner)
    (a : InstrId) (s : SkipFile) (h : passedOver p a = true) :
    arefStep rec p r a s = Res.ret none s := by
  unfold passedOver at h
  unfold arefStep
  cases hk : (p.instr a).kind with
  | makeClosure f => rw [hk] at h; simp at h
  | store addr w =>
    cases addr with
    | instr fa =>
      rw [hk] at h
      simp only [Bool.not_eq_true'] at h
      show (match (p.instr fa).kind with
        | InstrKind.fieldAddr _ => closeInBlock p r fa
        | _ => M.pure none) s = Res.ret none s
      cases hfa : (p.instr fa).kind with
      | fieldAddr x => rw [hfa] at h; simp [InstrKind.isFieldAddr] at h
      | _ => rfl
    | _ => rfl
  | _ => rfl

/-- The `Store` case of `isopen` when the first referrer of the address that
is not passed over is a `MakeClosure` of `f`, in a file that imports
`net/http`: the answer is that of `calledInFunc`. -/
theorem storeCase_closure (p : Program) (r : Runner) (fuel : Nat) (addr : Value)
    (pre post : List InstrId) (mc : InstrId) (f : FuncId) (s : SkipFile) (hs : CacheOK p s)
    (hng : addr.isGlobal = false)
    (harefs : p.referrersOf addr = some (pre ++ mc :: post))
    (hpre : ∀ a ∈ pre, passedOver p a = true)
    (hmc : (p.instr mc).kind = InstrKind.makeClosure f)
    (himp : noImportedNetHTTPUncached p f = false)
    (o : Bool) (t : SkipFile)
    (hret : calledInFunc (isopen p r fuel) p f (isClosureCalled p mc) [] = Res.ret o t) :
    ∃ s1, storeCase (isopen p r fuel) p r addr s = Res.ret (some o) s1 := by
  obtain ⟨s0, h0, hs0⟩ := noImportedNetHTTP_spec p f s hs
  rw [himp] at h0
  obtain ⟨s1, h1, _⟩ := (transparent_calledInFunc p (isopen p r fuel)
    (fun b i => transparent_isopen p r fuel b i) f (isClosureCalled p mc)).of_returns
    hret s0 hs0
  refine ⟨s1, ?_⟩
  have hz : ¬ (pre ++ mc :: post).length = 0 := by simp
  have hloop : forRet (arefStep (isopen p r fuel) p r) (pre ++ mc :: post) s
      = Res.ret (some o) s1 := by
    rw [forRet_append_none _ _ _ _ (fun a ha => arefStep_passedOver _ p r a s (hpre a ha))]
    apply forRet_cons_some
    unfold arefStep
    simp only [hmc]
    rw [M.bind_ret h0]
    simp only [Bool.false_eq_true, if_false]
    rw [M.bind_ret h1]
    rfl
  unfold storeCase
  cases addr with
  | global g => exact absurd hng (by simp [Value.isGlobal])
  | instr a => simp only [harefs, beq_iff_eq, hz, if_false]; exact hloop
  | function a => simp only [harefs, beq_iff_eq, hz, if_false]; exact hloop
  | operand a b => simp only [harefs, beq_iff_eq, hz, if_false]; exact hloop

/-- C10, amended. For an allocation call, not the recorder accessor, whose
only response value has as its only referrer a `Store` into a non-global
address, where the first referrer of the address that is not passed over is a
`MakeClosure` whose function `f` lies in a file that imports `net/http`, has
an instruction that is no `UnOp`, and is never invoked (`isClosureCalled` is
`false`): the capture path classifies the allocation open.  `calledInFunc(f,
false)` returns `true` whenever it returns, and when it returns `isopen`
returns `true` on the allocation call. -/
theorem C10_uncalled_closure_open (p : Program) (r : Runner) (fuel : Nat) (b : BlockId)
    (i : Nat) (s : SkipFile) (instr st mc : InstrId) (v addr w : Value) (f : FuncId)
    (pre post : List InstrId)
    (hs : CacheOK p s)
    (hi : (p.block b).instrs[i]? = some instr)
    (hreq : getReqCall p r instr = some instr)
    (hrec : isRecorderCall p instr = false)
    (hv1 : ∀ cRef ∈ (p.instr instr).referrers, ∀ val ∈ getResVal p r cRef, val = v)
    (hv2 : ∃ cRef ∈ (p.instr instr).referrers, getResVal p r cRef = some v)
    (hrr : p.referrersOf v = some [st])
    (hst : (p.instr st).kind = InstrKind.store addr w)
    (hng : addr.isGlobal = false)
    (harefs : p.referrersOf addr = some (pre ++ mc :: post))
    (hpre : ∀ a ∈ pre, passedOver p a = true)
    (hmc : (p.instr mc).kind = InstrKind.makeClosure f)
    (himp : noImportedNetHTTPUncached p f = false)
    (hnot : isClosureCalled p mc = false)
    (hbody : ∃ blk ∈ (p.func f).blocks, ∃ x ∈ (p.block blk).instrs,
      (p.instr x).kind.isUnOp = false) :
    (∀ t o t1, calledInFunc (isopen p r fuel) p f false t = Res.ret o t1 → o = true) ∧
    (Returns (calledInFunc (isopen p r fuel) p f false) →
      ∃ s1, isopen p r (fuel + 1) b i s = Res.ret true s1) := by
  refine ⟨fun t o t1 h => calledInFunc_uncalled _ p f hbody t o t1 h, ?_⟩
  rintro ⟨o, t, hret⟩
  have ho : o = true := calledInFunc_uncalled _ p f hbody [] o t hret
  subst ho
  have hrefs : (p.instr instr).referrers ≠ [] := by
    obtain ⟨cRef, hc, _⟩ := hv2
    intro h0; rw [h0] at hc; exact absurd hc (List.not_mem_nil _)
  obtain ⟨s1, h1⟩ := storeCase_closure p r fuel addr pre post mc f s hs hng harefs hpre hmc
    himp true t (by rw [hnot]; exact hret)
  refine ⟨s1, ?_⟩
  rw [isopen_eq_classify p r fuel b i s instr hi hreq hrefs hrec]
  apply classify_single_some _ p r instr v [st] s s1 true hv1 hv2 hrr (by simp)
  apply forRet_cons_some
  unfold resRefStep
  simp only [hst]
  exact h1

/-- C10, at `uncalledClosure` of the closure package, with consumption
checking disabled: the closure `func() { resp.Body.Close() }` is made and
never invoked, and the allocation is reported. -/
theorem C10_uncalled_closure_open_witness :
    ∃ s1, isopen Fixture.closurePkg (Fixture.runner false) 2 0 0 [] = Res.ret true s1 :=
  (C10_uncalled_closure_open Fixture.closurePkg (Fixture.runner false) 1 0 0 [] 0 3 8
    (Value.instr 2) (Value.instr 1) (Value.instr 2) 2 [3] []
    (cacheOK_nil _)
    (by decide) (by decide) (by decide) (by decide) (by decide) (by decide) (by decide)
    (by decide) (by decide) (by decide) (by decide) (by decide) (by decide) (by decide)).2
    ⟨true, [], by decide⟩

/-- C10 as stated fails at `uncalledClosure` of the closure package: the
response value is stored into the cell of `resp` (not a global), the cell is
captured by a `MakeClosure` that has no referrer (`isClosureCalled` is
`false`), the only file of the package imports `net/http`, and yet
`calledInFunc(f, false)` is `true` and `isopen` returns `true` in both
modes. -/
theorem C10_counterexample :
    (Fixture.closurePkg.block 0).instrs[0]? = some 0 ∧
    getReqCall Fixture.closurePkg (Fixture.runner false) 0 = some 0 ∧
    getResVal Fixture.closurePkg (Fixture.runner false) 2 = some (Value.instr 2) ∧
    Fixture.closurePkg.referrersOf (Value.instr 2) = some [3] ∧
    (Fixture.closurePkg.instr 3).kind = InstrKind.store (Value.instr 1) (Value.instr 2) ∧
    8 ∈ (Fixture.closurePkg.instr 1).referrers ∧
    (Fixture.closurePkg.instr 8).kind = InstrKind.makeClosure 2 ∧
    (Fixture.closurePkg.instr 8).referrers = [] ∧
    isClosureCalled Fixture.closurePkg 8 = false ∧
    noImportedNetHTTP Fixture.closurePkg 2 [] = Res.ret false [] ∧
    scanImports Fixture.closurePkg 0 = false ∧
    calledInFunc (isopen Fixture.closurePkg (Fixture.runner false) 1) Fixture.closurePkg 2
      false [] = Res.ret true [] ∧
    isopen Fixture.closurePkg (Fixture.runner false) 2 0 0 [] = Res.ret true [] ∧
    isopen Fixture.closurePkg (Fixture.runner true) 2 0 0 [] = Res.ret true [] := by
  decide

/-- What `isopen` does on an allocation site whose result has no referrer. -/
theorem isopen_unreferred (p : Program) (r : Runner) (fuel : Nat) (b : BlockId) (i : Nat)
    (s : SkipFile) (instr : InstrId)
    (hi : (p.block b).instrs[i]? = some instr)
    (hreq : getReqCall p r instr = some instr)
    (h : (p.instr instr).referrers = []) :
    isopen p r (fuel + 1) b i s = Res.ret true s := by
  rw [isopen, isopenBody]
  simp [hi, hreq, h]

/-- A transparent computation keeps the entries of the map sound. -/
theorem Transparent.cacheOK {α : Type} {p : Program} {m : M α} (h : Transparent p m)
    {a : α} {t t1 : SkipFile} (ht : CacheOK p t) (h1 : m t = Res.ret a t1) : CacheOK p t1 := by
  have := h t t ht ht
  rw [h1] at this
  exact this.2.1

/-- What a loop over transparent iterations returns from a map with sound
entries, when every iteration that returns from such a map goes on or returns
`b`. -/
theorem forRet_ret_cases_ok {α β : Type} (p : Program) (body : α → M (Option β)) (b : β)
    (xs : List α) (htr : ∀ x ∈ xs, Transparent p (body x))
    (h : ∀ x ∈ xs, ∀ t, CacheOK p t → ∀ o t1, body x t = Res.ret o t1 → o = none ∨ o = some b)
    (t : SkipFile) (ht : CacheOK p t) (o : Option β) (t1 : SkipFile)
    (hret : forRet body xs t = Res.ret o t1) : o = none ∨ o = some b := by
  induction xs generalizing t with
  | nil =>
    rw [forRet_nil] at hret
    simp only [Res.ret.injEq] at hret
    exact Or.inl hret.1.symm
  | cons x xs ih =>
    rw [forRet_cons] at hret
    cases hx : body x t with
    | ret ox tx =>
      rw [hx] at hret
      cases ox with
      | none =>
        exact ih (fun y hy => htr y (List.mem_cons_of_mem _ hy))
          (fun y hy => h y (List.mem_cons_of_mem _ hy)) tx
          ((htr x (List.mem_cons_self _ _)).cacheOK ht hx) hret
      | some v =>
        simp only [Res.ret.injEq] at hret
        rcases h x (List.mem_cons_self _ _) t ht (some v) tx hx with h1 | h1
        · exact absurd h1 (by simp)
        · right; rw [← hret.1, h1]
    | panicked => rw [hx] at hret; exact absurd hret (by simp)
    | timeout => rw [hx] at hret; exact absurd hret (by simp)

/-- An index outside the table denotes an instruction that closes nothing. -/
theorem isCloseCall_of_table (p : Program) (r : Runner)
    (h : ∀ x < p.instrs.length, isCloseCall p r x = some false) (x : InstrId) :
    isCloseCall p r x = some false := by
  by_cases hx : x < p.instrs.length
  · exact h x hx
  · have hin : p.instr x = Instr.inert := by
      unfold Program.instr
      rw [List.getD_eq_getElem?_getD, List.getElem?_eq_none (Nat.le_of_not_lt hx)]
      rfl
    unfold isCloseCall
    rw [hin]
    rfl

theorem closes_eq_false {p : Program} {r : Runner}
    (h : ∀ x, isCloseCall p r x = some false) (x : InstrId) : closes p r x = false := by
  unfold closes
  rw [h x]
  rfl

/-- Without a closing instruction the `FieldAddr` loop goes on or returns
`true`. -/
theorem fieldAddrStep_no_close (p : Program) (r : Runner)
    (h : ∀ x, isCloseCall p r x = some false) (x : InstrId) (t : SkipFile) :
    fieldAddrStep p r x t = Res.ret none t ∨ fieldAddrStep p r x t = Res.ret (some true) t := by
  cases hg : getBodyOp p r x with
  | none => left; exact fieldAddrStep_other p r x t hg
  | some bOp =>
    have hb := getBodyOp_eq hg
    subst hb
    by_cases hne : (p.instr bOp).referrers = []
    · right
      unfold fieldAddrStep
      simp [hg, hne]
    · left
      rw [fieldAddrStep_load p r bOp t hg hne (fun y _ => by rw [h y]; simp)]
      have hany : (p.instr bOp).referrers.any (closes p r) = false := by
        rw [List.any_eq_false]
        intro y _
        rw [closes_eq_false h y]
        simp
      rw [hany]
      rfl

theorem phiScanCcalls_eq_scanCcalls (p : Program) (r : Runner) (bOp : InstrId)
    (ccalls : List InstrId) (acc : Bool × Bool) :
    phiScanCcalls p r bOp ccalls acc = scanCcalls p r bOp ccalls acc := by
  induction ccalls generalizing acc with
  | nil => rfl
  | cons c cs ih =>
    unfold phiScanCcalls scanCcalls
    simp only [ih]

/-- The inner loop body of the `Phi` case is the loop body of the
`FieldAddr` case. -/
theorem phiFieldStep_eq_fieldAddrStep (p : Program) (r : Runner) (x : InstrId) :
    phiFieldStep p r x = fieldAddrStep p r x := by
  unfold phiFieldStep fieldAddrStep
  simp only [phiScanCcalls_eq_scanCcalls]

/-- Without a closing instruction the `Phi` loop goes on or returns
`true`. -/
theorem phiStep_no_close (p : Program) (r : Runner)
    (h : ∀ x, isCloseCall p r x = some false) (x : InstrId) (t : SkipFile) :
    phiStep p r x t = Res.ret none t ∨ phiStep p r x t = Res.ret (some true) t := by
  unfold phiStep
  cases hk : (p.instr x).kind with
  | fieldAddr y =>
    simp only []
    apply forRet_none_or
    intro z _
    rw [phiFieldStep_eq_fieldAddrStep]
    exact fieldAddrStep_no_close p r h z t
  | _ => left; rfl

/-- Without a closing instruction the search for a store into a struct
field finds nothing. -/
theorem closeInBlock_no_close (p : Program) (r : Runner)
    (h : ∀ x, isCloseCall p r x = some false) (fa : InstrId) (t : SkipFile) :
    closeInBlock p r fa t = Res.ret none t := by
  unfold closeInBlock
  apply forRet_all_none
  intro x _
  unfold closeInBlockStep
  cases getBodyOp p r x with
  | none => rfl
  | some bOp =>
    simp only []
    apply forRet_all_none
    intro y _
    unfold closeStep
    rw [h y, M.bind_ret (M.ofOption_some false t)]
    rfl

/-- Without a closing instruction the `Call`, `Defer` case goes on or
returns `true`, if it returns. -/
theorem callCase_no_close (p : Program) (r : Runner) (rec : BlockId → Nat → M Bool)
    (hrec : ∀ b i, Transparent p (rec b i))
    (h : ∀ x, isCloseCall p r x = some false) (c : CallCommon) (t : SkipFile)
    (ht : CacheOK p t) (o : Option Bool) (t1 : SkipFile)
    (hret : callCase rec p r c t = Res.ret o t1) : o = none ∨ o = some true := by
  unfold callCase at hret
  cases hv : c.value with
  | function f =>
    rw [hv] at hret
    simp only [] at hret
    have hstep : ∀ blk, ∀ e : Nat × InstrId, Transparent p (calleeStep rec p r blk e) := by
      intro blk e
      unfold calleeStep
      refine transparent_bind p (transparent_ofOption p _) (fun c => ?_)
      split
      · exact transparent_pure p _
      · refine transparent_bind p (hrec blk e.1) (fun o => ?_)
        split <;> exact transparent_pure p _
    refine forRet_ret_cases_ok p _ true _
      (fun blk _ => transparent_forRet p _ (fun e _ => hstep blk e)) ?_ t ht o t1 hret
    intro blk _ t2 ht2 o2 t3 h2
    refine forRet_ret_cases_ok p _ true _ (fun e _ => hstep blk e) ?_ t2 ht2 o2 t3 h2
    intro e _ t4 _ o4 t5 h4
    unfold calleeStep at h4
    rw [h e.2, M.bind_ret (M.ofOption_some false t4)] at h4
    simp only [Bool.false_eq_true, if_false] at h4
    rw [M.bind_apply] at h4
    cases hr : rec blk e.1 t4 with
    | ret a ta =>
      rw [hr] at h4
      cases a with
      | true =>
        simp only [if_true, M.pure_apply, Res.ret.injEq] at h4
        right; exact h4.1.symm
      | false =>
        simp only [Bool.false_eq_true, if_false, M.pure_apply, Res.ret.injEq] at h4
        left; exact h4.1.symm
    | panicked => rw [hr] at h4; exact absurd h4 (by simp)
    | timeout => rw [hr] at h4; exact absurd h4 (by simp)
  | _ =>
    rw [hv] at hret
    simp only [M.pure_apply, Res.ret.injEq] at hret
    left; exact hret.1.symm

/-- Without a closing instruction, and with every capturing closure in a
file that imports `net/http`, never invoked and with an instruction that is
no `UnOp`, the loop of the `Store` case goes on or returns `true`, if it
returns. -/
theorem arefStep_no_close (p : Program) (r : Runner) (rec : BlockId → Nat → M Bool)
    (h : ∀ x, isCloseCall p r x = some false) (aref : InstrId)
    (hmc : ∀ f ∈ (p.instr aref).kind.closureFn,
      noImportedNetHTTPUncached p f = false ∧ isClosureCalled p aref = false ∧
        ∃ blk ∈ (p.func f).blocks, ∃ x ∈ (p.block blk).instrs,
          (p.instr x).kind.isUnOp = false)
    (t : SkipFile) (ht : CacheOK p t) (o : Option Bool) (t1 : SkipFile)
    (hret : arefStep rec p r aref t = Res.ret o t1) : o = none ∨ o = some true := by
  unfold arefStep at hret
  cases hk : (p.instr aref).kind with
  | makeClosure f =>
    rw [hk] at hret hmc
    simp only [] at hret
    obtain ⟨himp, hnot, hbody⟩ := hmc f rfl
    obtain ⟨s0, h0, _⟩ := noImportedNetHTTP_spec p f t ht
    rw [himp] at h0
    rw [M.bind_ret h0] at hret
    simp only [Bool.false_eq_true, if_false] at hret
    rw [hnot, M.bind_apply] at hret
    cases hc : calledInFunc rec p f false s0 with
    | ret a ta =>
      rw [hc] at hret
      simp only [M.pure_apply, Res.ret.injEq] at hret
      right
      rw [← hret.1, calledInFunc_uncalled rec p f hbody s0 a ta hc]
    | panicked => rw [hc] at hret; exact absurd hret (by simp)
    | timeout => rw [hc] at hret; exact absurd hret (by simp)
  | store addr w =>
    rw [hk] at hret
    cases addr with
    | instr fa =>
      simp only [] at hret
      cases hfa : (p.instr fa).kind with
      | fieldAddr y =>
        rw [hfa] at hret
        simp only [] at hret
        rw [closeInBlock_no_close p r h fa t] at hret
        simp only [Res.ret.injEq] at hret
        left; exact hret.1.symm
      | _ =>
        rw [hfa] at hret
        simp only [M.pure_apply, Res.ret.injEq] at hret
        left; exact hret.1.symm
    | _ =>
      simp only [M.pure_apply, Res.ret.injEq] at hret
      left; exact hret.1.symm
  | _ =>
    rw [hk] at hret
    simp only [M.pure_apply, Res.ret.injEq] at hret
    left; exact hret.1.symm

/-- Without a closing instruction, a response value that is stored to no
global and captured only by uninvoked closures is classified open or not at
all by each of its referrers. -/
theorem resRefStep_no_close (p : Program) (r : Runner) (rec : BlockId → Nat → M Bool)
    (hrec : ∀ b i, Transparent p (rec b i))
    (h : ∀ x, isCloseCall p r x = some false) (resRef : InstrId)
    (hst : ∀ addr ∈ (p.instr resRef).kind.storeAddr,
      addr.isGlobal = false ∧
      ∀ arefs ∈ p.referrersOf addr, ∀ mc ∈ arefs, ∀ f ∈ (p.instr mc).kind.closureFn,
        noImportedNetHTTPUncached p f = false ∧ isClosureCalled p mc = false ∧
          ∃ blk ∈ (p.func f).blocks, ∃ x ∈ (p.block blk).instrs,
            (p.instr x).kind.isUnOp = false)
    (t : SkipFile) (ht : CacheOK p t) (o : Option Bool) (t1 : SkipFile)
    (hret : resRefStep rec p r resRef t = Res.ret o t1) : o = none ∨ o = some true := by
  unfold resRefStep at hret
  cases hk : (p.instr resRef).kind with
  | store addr w =>
    rw [hk] at hret hst
    simp only [] at hret
    obtain ⟨hng, hcl⟩ := hst addr rfl
    unfold storeCase at hret
    have key : ∀ arefs, p.referrersOf addr = some arefs →
        (if (arefs.length == 0) = true then (M.pure (some true) : M (Option Bool))
          else forRet (arefStep rec p r) arefs) t = Res.ret o t1 → o = none ∨ o = some true := by
      intro arefs harefs h1
      by_cases hz : arefs.length = 0
      · simp only [hz, beq_self_eq_true, if_true, M.pure_apply, Res.ret.injEq] at h1
        right; exact h1.1.symm
      · simp only [beq_iff_eq, hz, if_false] at h1
        exact forRet_ret_cases_ok p _ true _
          (fun a _ => transparent_arefStep p r rec hrec a)
          (fun a ha t2 ht2 o2 t3 h2 =>
            arefStep_no_close p r rec h a (hcl arefs harefs a ha) t2 ht2 o2 t3 h2)
          t ht o t1 h1
    cases addr with
    | global g => exact absurd hng (by simp [Value.isGlobal])
    | instr a =>
      simp only [] at hret
      cases hr : p.referrersOf (Value.instr a) with
      | none => rw [hr] at hret; exact absurd hret (by simp)
      | some arefs => rw [hr] at hret; exact key arefs hr hret
    | function a =>
      simp only [] at hret
      cases hr : p.referrersOf (Value.function a) with
      | none => rw [hr] at hret; exact absurd hret (by simp)
      | some arefs => rw [hr] at hret; exact key arefs hr hret
    | operand a b =>
      simp only [] at hret
      cases hr : p.referrersOf (Value.operand a b) with
      | none => rw [hr] at hret; exact absurd hret (by simp)
      | some arefs => rw [hr] at hret; exact key arefs hr hret
  | call c =>
    rw [hk] at hret
    exact callCase_no_close p r rec hrec h c t ht o t1 hret
  | defer c =>
    rw [hk] at hret
    exact callCase_no_close p r rec hrec h c t ht o t1 hret
  | fieldAddr y =>
    rw [hk] at hret
    simp only [fieldAddrLoop] at hret
    rcases forRet_none_or _ true t _ (fun z _ => fieldAddrStep_no_close p r h z t) with h1 | h1
    · rw [h1] at hret
      simp only [Res.ret.injEq] at hret
      left; exact hret.1.symm
    · rw [h1] at hret
      simp only [Res.ret.injEq] at hret
      right; exact hret.1.symm
  | phi =>
    rw [hk] at hret
    simp only [phiLoop] at hret
    rcases forRet_none_or _ true t _ (fun z _ => phiStep_no_close p r h z t) with h1 | h1
    · rw [h1] at hret
      simp only [Res.ret.injEq] at hret
      left; exact hret.1.symm
    · rw [h1] at hret
      simp only [Res.ret.injEq] at hret
      right; exact hret.1.symm
  | _ =>
    rw [hk] at hret
    simp only [M.pure_apply, Res.ret.injEq] at hret
    left; exact hret.1.symm

/-- C1, amended. In a program in which no instruction is a closing
instruction (`isCloseCall` is `false` on every instruction), on every
allocation site that is not a call of the recorder accessor and each of whose
response values is stored into no global and captured only by closures that
lie in a file importing `net/http`, are never invoked and have an instruction
that is no `UnOp`: `isopen` returns `true` whenever it returns, in both modes
(the runner is arbitrary), from every `skipFile` map with sound entries. -/
theorem C1_sound_reporting (p : Program) (r : Runner) (fuel : Nat) (b : BlockId) (i : Nat)
    (s : SkipFile) (instr : InstrId)
    (hs : CacheOK p s)
    (hclose : ∀ x < p.instrs.length, isCloseCall p r x = some false)
    (hi : (p.block b).instrs[i]? = some instr)
    (hreq : getReqCall p r instr = some instr)
    (hrec : isRecorderCall p instr = false)
    (hcap : ∀ cRef ∈ (p.instr instr).referrers, ∀ val ∈ getResVal p r cRef,
      CapturesUninvoked p val) :
    ∀ o s1, isopen p r (fuel + 1) b i s = Res.ret o s1 → o = true := by
  intro o s1 hret
  have hcl := isCloseCall_of_table p r hclose
  by_cases hne : (p.instr instr).referrers = []
  · rw [isopen_unreferred p r fuel b i s instr hi hreq hne] at hret
    simp only [Res.ret.injEq] at hret
    exact hret.1.symm
  · rw [isopen_eq_classify p r fuel b i s instr hi hreq hne hrec] at hret
    unfold classify at hret
    rw [M.bind_apply] at hret
    cases hl : forRet (cRefStep (isopen p r fuel) p r) (p.instr instr).referrers s with
    | ret out t =>
      rw [hl] at hret
      simp only [M.pure_apply, Res.ret.injEq] at hret
      have hout : out = none ∨ out = some true := by
        refine forRet_ret_cases_ok p _ true _ (fun cRef _ => ?_) ?_ s hs out t hl
        · unfold cRefStep
          split
          · exact transparent_pure p _
          · split
            · exact transparent_panic p
            · split
              · exact transparent_pure p _
              · exact transparent_forRet p _ (fun x _ =>
                  transparent_resRefStep p r _ (transparent_isopen p r fuel) x)
        · intro cRef hc t2 ht2 o2 t3 h2
          unfold cRefStep at h2
          cases hg : getResVal p r cRef with
          | none =>
            rw [hg] at h2
            simp only [M.pure_apply, Res.ret.injEq] at h2
            left; exact h2.1.symm
          | some val =>
            rw [hg] at h2
            simp only [] at h2
            cases hr : p.referrersOf val with
            | none => rw [hr] at h2; exact absurd h2 (by simp)
            | some resRefs =>
              rw [hr] at h2
              simp only [] at h2
              by_cases hz : resRefs.length = 0
              · simp only [hz, beq_self_eq_true, if_true, M.pure_apply, Res.ret.injEq] at h2
                right; exact h2.1.symm
              · simp only [beq_iff_eq, hz, if_false] at h2
                exact forRet_ret_cases_ok p _ true _
                  (fun x _ => transparent_resRefStep p r _ (transparent_isopen p r fuel) x)
                  (fun x hx t4 ht4 o4 t5 h4 =>
                    resRefStep_no_close p r _ (transparent_isopen p r fuel) hcl x
                      (hcap cRef hc val hg resRefs hr x hx) t4 ht4 o4 t5 h4)
                  t2 ht2 o2 t3 h2
      rw [← hret.1]
      rcases hout with h1 | h1 <;> rw [h1] <;> rfl
    | panicked => rw [hl] at hret; exact absurd hret (by simp)
    | timeout => rw [hl] at hret; exact absurd hret (by simp)

/-- C1, at `unusedBody` of the edge package (`_ = resp.Body`, and no closing
instruction anywhere in the package), with consumption checking enabled:
`isopen` returns, and it returns `true`. -/
theorem C1_sound_reporting_witness :
    isopen Fixture.edgePkg (Fixture.runner true) 1 0 0 [] = Res.ret true [] ∧
    (∀ o s1, isopen Fixture.edgePkg (Fixture.runner true) 1 0 0 [] = Res.ret o s1 → o = true) :=
  ⟨by decide,
    C1_sound_reporting Fixture.edgePkg (Fixture.runner true) 0 0 0 [] 0 (cacheOK_nil _)
      (by decide) (by decide) (by decide) (by decide)
      (by unfold CapturesUninvoked; decide)⟩

/-- C1 as stated fails at `leakInClosure` of the edge package: no instruction
of the package is a closing instruction, the function does not return the
response type, the call of `http.Get` is an allocation site and no call of the
recorder accessor, its response value is stored into the cell of `resp` (no
global), the cell is captured by a closure for which `noImportedNetHTTP` is
`false`, and `isopen` returns `false` in both modes: the closure is invoked,
and `calledInFunc` returns `isopen(b, i) || !called`, which is `false` on its
first instruction that is no `UnOp`. -/
theorem C1_counterexample :
    (∀ x < Fixture.edgePkg.instrs.length,
      isCloseCall Fixture.edgePkg (Fixture.runner false) x = some false) ∧
    returnsResponse Fixture.edgePkg (Fixture.runner false) 8 = false ∧
    (Fixture.edgePkg.block 6).instrs[0]? = some 28 ∧
    (Fixture.edgePkg.block 6).parent = 8 ∧
    getReqCall Fixture.edgePkg (Fixture.runner false) 28 = some 28 ∧
    isRecorderCall Fixture.edgePkg 28 = false ∧
    getResVal Fixture.edgePkg (Fixture.runner false) 30 = some (Value.instr 30) ∧
    Fixture.edgePkg.referrersOf (Value.instr 30) = some [31] ∧
    (Fixture.edgePkg.instr 31).kind = InstrKind.store (Value.instr 29) (Value.instr 30) ∧
    (Fixture.edgePkg.instr 29).referrers = [31, 36] ∧
    (Fixture.edgePkg.instr 36).kind = InstrKind.makeClosure 9 ∧
    noImportedNetHTTP Fixture.edgePkg 9 [] = Res.ret false [] ∧
    isClosureCalled Fixture.edgePkg 36 = true ∧
    isopen Fixture.edgePkg (Fixture.runner false) 2 6 0 [] = Res.ret false [] ∧
    isopen Fixture.edgePkg (Fixture.runner true) 2 6 0 [] = Res.ret false [] := by
  decide


/-- C12. When `net/http.Response` is not found among the imports of the
package (`r.resObj == nil`), `runWithRunner` returns no error and reports
nothing, in both modes, whatever the functions of the package contain; the
functions are not looked at, so the run cannot fail either. -/
theorem C12_graceful_skip (fuel : Nat) (p : Program) (checkConsumption : Bool)
    (h : p.resObj = none) :
    runWithRunner fuel p checkConsumption = Res.ret ⟨none, []⟩ [] := by
  unfold runWithRunner
  rw [h]

/-- C12, at the consumption package taken without the object of
`net/http.Response`. -/
theorem C12_graceful_skip_witness :
    runWithRunner 3 { Fixture.consumptionPkg with resObj := none } true
      = Res.ret ⟨none, []⟩ [] :=
  C12_graceful_skip 3 { Fixture.consumptionPkg with resObj := none } true rfl

/-- What `isConsumptionFunction` tests, in the words of the list of C13. -/
theorem isConsumptionFunction_iff (p : Program) (c : CallCommon) :
    isConsumptionFunction p c = true ↔
      ∃ callee pk, staticCallee p c = some callee ∧ (p.func callee).pkg = some pk ∧
        (pk.path, (p.func callee).name) ∈ consumptionFunctions := by
  unfold isConsumptionFunction
  cases hs : staticCallee p c with
  | none => simp
  | some callee =>
    cases hp : (p.func callee).pkg with
    | none => simp [hp]
    | some pk =>
      simp only [hp, Option.some.injEq, exists_and_left, exists_eq_left', consumptionFunctions,
        ioPath, List.mem_cons, Prod.mk.injEq, List.mem_singleton, Bool.or_eq_true,
        Bool.and_eq_true, beq_iff_eq, List.not_mem_nil, or_false]
      constructor
      · rintro (((⟨h1, h2 | h2⟩ | ⟨h1, h2⟩) | ⟨h1, h2⟩) | ⟨h1, h2 | h2⟩)
        · exact Or.inl ⟨h1, h2⟩
        · exact Or.inr (Or.inl ⟨h1, h2⟩)
        · exact Or.inr (Or.inr (Or.inl ⟨h1, h2⟩))
        · exact Or.inr (Or.inr (Or.inr (Or.inl ⟨h1, h2⟩)))
        · exact Or.inr (Or.inr (Or.inr (Or.inr (Or.inl ⟨h1, h2⟩))))
        · exact Or.inr (Or.inr (Or.inr (Or.inr (Or.inr ⟨h1, h2⟩))))
      · intro h
        rcases h with ⟨h1, h2⟩ | ⟨h1, h2⟩ | ⟨h1, h2⟩ | ⟨h1, h2⟩ | ⟨h1, h2⟩ | ⟨h1, h2⟩
        · exact Or.inl (Or.inl (Or.inl ⟨h1, Or.inl h2⟩))
        · exact Or.inl (Or.inl (Or.inl ⟨h1, Or.inr h2⟩))
        · exact Or.inl (Or.inl (Or.inr ⟨h1, h2⟩))
        · exact Or.inl (Or.inr ⟨h1, h2⟩)
        · exact Or.inr ⟨h1, Or.inl h2⟩
        · exact Or.inr ⟨h1, Or.inr h2⟩

/-- C13. The method `isBodyConsumed(bodyOp, instr)` returns `true` exactly
when some block of the function enclosing `bodyOp` holds a `Call` with a static
callee that belongs to a package and whose package path and name are one of
`(io, Copy)`, `(io, ReadAll)`, `(io/ioutil, ReadAll)`, `(encoding/json,
NewDecoder)`, `(bufio, NewScanner)`, `(bufio, NewReader)`.  Nothing else is
read: the result is the same for every `instr`, and the same for every body
load of the same function, so neither the arguments of the call nor its place
relative to the close call matter. -/
theorem C13_consumption_function_wide (p : Program) (bodyOp instr : InstrId) :
    (isBodyConsumed p bodyOp instr = true ↔
      ∃ blk ∈ (p.func (p.block (p.instr bodyOp).block).parent).blocks,
        ∃ ci ∈ (p.block blk).instrs, IsConsumingCall p ci) ∧
    (∀ instr1, isBodyConsumed p bodyOp instr1 = isBodyConsumed p bodyOp instr) ∧
    (∀ bodyOp1 instr1,
      (p.block (p.instr bodyOp1).block).parent = (p.block (p.instr bodyOp).block).parent →
        isBodyConsumed p bodyOp1 instr1 = isBodyConsumed p bodyOp instr) := by
  refine ⟨?_, fun _ => rfl, ?_⟩
  · unfold isBodyConsumed IsConsumingCall
    simp only [List.any_eq_true]
    constructor
    · rintro ⟨blk, hb, ci, hc, h⟩
      refine ⟨blk, hb, ci, hc, ?_⟩
      cases hk : (p.instr ci).kind with
      | call c =>
        rw [hk] at h
        exact ⟨c, rfl, (isConsumptionFunction_iff p c).mp h⟩
      | _ => rw [hk] at h; simp at h
    · rintro ⟨blk, hb, ci, hc, c, hk, h⟩
      refine ⟨blk, hb, ci, hc, ?_⟩
      rw [hk]
      exact (isConsumptionFunction_iff p c).mpr h
  · intro bodyOp1 instr1 h
    unfold isBodyConsumed
    simp only [h]

/-- C16. With the close method resolved (`r.closeMthd` is the method `cm`),
`isCloseCall` returns on every `Call` and every `Defer`, and it returns `true`
exactly when `Call.Method` is non-nil and its name is the name of `cm`. -/
theorem C16_close_call_recognition (p : Program) (r : Runner) (x : InstrId)
    (c : CallCommon) (cm : Func)
    (hk : (p.instr x).kind.common = some c) (hcm : r.closeMthd = some cm) :
    (isCloseCall p r x = some true ↔ ∃ m, c.method = some m ∧ m.name = cm.name) ∧
      isCloseCall p r x ≠ none := by
  unfold isCloseCall
  cases hx : (p.instr x).kind with
  | call c1 =>
    rw [hx] at hk
    simp only [InstrKind.common, Option.some.injEq] at hk
    subst hk
    cases hm : c1.method with
    | none => simp [hm]
    | some m => simp [hm, hcm]
  | defer c1 =>
    rw [hx] at hk
    simp only [InstrKind.common, Option.some.injEq] at hk
    subst hk
    cases hm : c1.method with
    | none => simp [hm]
    | some m => simp [hm, hcm]
  | store a v => rw [hx] at hk; simp [InstrKind.common] at hk
  | fieldAddr a => rw [hx] at hk; simp [InstrKind.common] at hk
  | unOp a => rw [hx] at hk; simp [InstrKind.common] at hk
  | phi => rw [hx] at hk; simp [InstrKind.common] at hk
  | makeClosure a => rw [hx] at hk; simp [InstrKind.common] at hk
  | changeInterface a => rw [hx] at hk; simp [InstrKind.common] at hk
  | ret a => rw [hx] at hk; simp [InstrKind.common] at hk
  | other a => rw [hx] at hk; simp [InstrKind.common] at hk

/-- C16, at the deferred `resp.Body.Close()` of `consumedWithCopy`. -/
theorem C16_close_call_recognition_witness :
    (isCloseCall Fixture.consumptionPkg (Fixture.runner true) 8 = some true ↔
      ∃ m, (⟨Value.instr 7, some Fixture.fClose⟩ : CallCommon).method = some m ∧
        m.name = Fixture.fClose.name) ∧
      isCloseCall Fixture.consumptionPkg (Fixture.runner true) 8 ≠ none :=
  C16_close_call_recognition Fixture.consumptionPkg (Fixture.runner true) 8
    ⟨Value.instr 7, some Fixture.fClose⟩ Fixture.fClose (by decide) rfl

/-- C19. In both modes (the runner is arbitrary) `isopen` returns `true`, and
so neither panics nor runs on, on an allocation call with a referrer that is
not a call of the recorder accessor, when every response value extracted from
the referrers of the call has at least one referrer and none of these is a
Store, Call, Defer, FieldAddr or Phi. -/
theorem C19_default_open (p : Program) (r : Runner) (fuel : Nat) (b : BlockId)
    (i : Nat) (s : SkipFile) (instr : InstrId)
    (hi : (p.block b).instrs[i]? = some instr)
    (hreq : getReqCall p r instr = some instr)
    (hne : (p.instr instr).referrers ≠ [])
    (hrec : isRecorderCall p instr = false)
    (h : ∀ cRef ∈ (p.instr instr).referrers, ∀ val ∈ getResVal p r cRef,
      ∃ resRefs ∈ p.referrersOf val, resRefs ≠ [] ∧
        ∀ x ∈ resRefs, (p.instr x).kind.examined = false) :
    isopen p r (fuel + 1) b i s = Res.ret true s := by
  rw [isopen_eq_classify p r fuel b i s instr hi hreq hne hrec]
  have h3 := forRet_all_none (cRefStep (isopen p r fuel) p r) s (p.instr instr).referrers
    (by
      intro cRef hc
      unfold cRefStep
      cases hv : getResVal p r cRef with
      | none => rfl
      | some val =>
        obtain ⟨resRefs, hr, hne1, hall⟩ := h cRef hc val hv
        have hr1 : p.referrersOf val = some resRefs := hr
        have hz : ¬ resRefs.length = 0 := fun h0 => hne1 (List.length_eq_zero.mp h0)
        simp only [hr1, beq_iff_eq, hz, if_false]
        exact forRet_all_none _ s resRefs
          (fun x hx => resRefStep_unexamined _ p r x s (hall x hx)))
  unfold classify
  rw [M.bind_ret h3]; rfl

/-- C19, at `fetch` of the edge package: the only referrer of the response
value is the `Return` of the function. -/
theorem C19_default_open_witness :
    isopen Fixture.edgePkg (Fixture.runner true) 1 5 0 [] = Res.ret true [] :=
  C19_default_open Fixture.edgePkg (Fixture.runner true) 0 5 0 [] 24
    (by decide) (by decide) (by decide) (by decide) (by decide)

/-- The first half of C11: when `net/http.Response` is found as a named
struct type without a field `Body`, `runWithRunner` returns the error `cannot
find the object http.Response.Body` and reports nothing. -/
theorem runWithRunner_missing_body (fuel : Nat) (p : Program) (cc : Bool)
    (resObj : ResObject) (obj : TypeName) (fields : List Var)
    (h : p.resObj = some resObj) (hn : resObj.typ.form = TypeForm.named obj)
    (hf : resObj.fields = some fields)
    (hb : fields.find? (fun field => field.id == "Body") = none) :
    runWithRunner fuel p cc
      = Res.ret ⟨some "cannot find the object http.Response.Body", []⟩ [] := by
  unfold runWithRunner
  simp only [h, hn, hf, hb]

/-- The second half of C11 fails in general: when the interface of the field
`Body` has no method `Close`, `runWithRunner` never returns an error.  The
loop that looks for the method leaves `r.closeMthd` nil and the run goes
on. -/
theorem runWithRunner_missing_close (fuel : Nat) (p : Program) (cc : Bool)
    (resObj : ResObject) (obj obj1 : TypeName) (fields : List Var) (bodyObj : Var)
    (methods : List Func)
    (h : p.resObj = some resObj) (hn : resObj.typ.form = TypeForm.named obj)
    (hf : resObj.fields = some fields)
    (hb : fields.find? (fun field => field.id == "Body") = some bodyObj)
    (hbn : bodyObj.typ.form = TypeForm.named obj1)
    (hbi : bodyObj.typ.iface = some methods)
    (_hm : methods.find? (fun bmthd => bmthd.id == closeMethod) = none)
    (e : String) (d : List Diagnostic) (s : SkipFile) :
    runWithRunner fuel p cc ≠ Res.ret ⟨some e, d⟩ s := by
  unfold runWithRunner
  simp only [h, hn, hf, hb, hbn, hbi]
  intro hr
  split at hr
  · simp at hr
  · simp at hr
  · simp at hr

/-- C11, the defect. The package `stubPkg` is built against a `net/http`
whose `Response` has the field `Body io.Reader`: the object is found, the
field `Body` is found, and its interface has no method `Close`.  The claim asks
for an error and no diagnostic.  The code returns no error: with no function
to scan it returns `(nil, nil)`, and on the function `readBody` it panics, in
both modes and with every recursion budget, when `isCloseCall` reads the name
of the nil `r.closeMthd` at the call `resp.Body.Read(buf)`. -/
theorem C11_missing_close_method :
    Fixture.stubPkg.resObj = some Fixture.stubResponseObj ∧
    Fixture.stubResponseObj.fields = some [⟨"Status", Fixture.tString⟩, ⟨"Body", Fixture.tReader⟩] ∧
    Fixture.tReader.iface = some [Fixture.fRead] ∧
    Fixture.fRead.id ≠ closeMethod ∧
    (∀ fuel cc, runWithRunner (fuel + 1) Fixture.stubPkg cc = Res.panicked) ∧
    (∀ fuel cc, runWithRunner fuel { Fixture.stubPkg with srcFuncs := [] } cc
      = Res.ret ⟨none, []⟩ []) := by
  refine ⟨rfl, rfl, rfl, by decide, ?_, ?_⟩
  · intro fuel cc
    cases cc <;> rfl
  · intro fuel cc
    cases cc <;> rfl

/-- What the import scan of `noImportedNetHTTP` answers. -/
theorem scanImports_iff (p : Program) (file : FileId) :
    scanImports p file = true ↔
      ∀ value ∈ (p.files.getD file default).imports, ∀ path ∈ p.unquote value,
        p.removeVendor path ≠ nethttpPath := by
  unfold scanImports
  simp only [Bool.not_eq_true', List.any_eq_false, Option.mem_def]
  constructor
  · intro h value hv path hp
    have := h value hv
    rw [hp] at this
    simpa using this
  · intro h value hv
    cases hp : p.unquote value with
    | none => simp
    | some path => simpa using h value hv path hp

/-- Every reachable state of the `skipFile` map has sound entries. -/
theorem reachable_cacheOK {p : Program} {s : SkipFile} (h : Reachable p s) : CacheOK p s := by
  induction h with
  | empty => exact cacheOK_nil p
  | call f s s1 a _ hcall ih =>
    obtain ⟨s2, h2, hs2⟩ := noImportedNetHTTP_spec p f s ih
    rw [h2] at hcall
    cases hcall
    exact hs2

/-- A call of `noImportedNetHTTP` keeps every entry of the map and adds at
most the entry of the file of the function. -/
theorem noImportedNetHTTP_frame (p : Program) (f : FuncId) (s s1 : SkipFile) (a : Bool)
    (h : noImportedNetHTTP p f s = Res.ret a s1) :
    (∀ file v, s.lookup file = some v → s1.lookup file = some v) ∧
    (∀ file, s.lookup file = none → s1.lookup file ≠ none →
      ∃ pos ∈ (p.func f).object, fileOf p pos = some file) := by
  unfold noImportedNetHTTP at h
  cases ho : (p.func f).object with
  | none =>
    rw [ho] at h
    cases h
    exact ⟨fun _ _ hl => hl, fun _ hn hs => absurd hn hs⟩
  | some pos =>
    rw [ho] at h
    simp only [] at h
    cases hfile : fileOf p pos with
    | none =>
      rw [hfile] at h
      cases h
      exact ⟨fun _ _ hl => hl, fun _ hn hs => absurd hn hs⟩
    | some file =>
      rw [hfile] at h
      simp only [] at h
      cases hl : s.lookup file with
      | some skip =>
        rw [hl] at h
        cases h
        exact ⟨fun _ _ hl => hl, fun _ hn hs => absurd hn hs⟩
      | none =>
        rw [hl] at h
        simp only [Res.ret.injEq] at h
        obtain ⟨_, hs1⟩ := h
        subst hs1
        have hne : ∀ k, k ≠ file →
            (SkipFile.set s file (scanImports p file)).lookup k = s.lookup k := by
          intro k hk
          unfold SkipFile.set
          have hb : (k == file) = false := by simpa using hk
          simp only [List.lookup, hb]
          exact lookup_filter_ne s file k hk
        constructor
        · intro k v hk
          have hkf : k ≠ file := by
            intro e; rw [e, hl] at hk; exact absurd hk (by simp)
          rw [hne k hkf]; exact hk
        · intro k hk hs
          by_cases hkf : k = file
          · exact ⟨pos, rfl, by rw [hkf]; exact hfile⟩
          · rw [hne k hkf] at hs; exact absurd hk hs

/-- C20. In every state of the `skipFile` map reachable from the empty map
by calls of `noImportedNetHTTP`: each entry is the uncached answer for its
file; a call for any function `f` returns the uncached answer for `f`, leads
to a reachable state, changes no existing entry and adds at most the entry of
the file that holds the object of `f`.  The uncached answer for a file is
`true` exactly when no import of the file has the unquoted, vendor-stripped
path `net/http`. -/
theorem C20_memoization_transparent (p : Program) (s : SkipFile) (h : Reachable p s) :
    (∀ file v, s.lookup file = some v → v = scanImports p file) ∧
    (∀ f, ∃ s1, noImportedNetHTTP p f s = Res.ret (noImportedNetHTTPUncached p f) s1 ∧
      Reachable p s1 ∧
      (∀ file v, s.lookup file = some v → s1.lookup file = some v) ∧
      (∀ file, s.lookup file = none → s1.lookup file ≠ none →
        ∃ pos ∈ (p.func f).object, fileOf p pos = some file)) ∧
    (∀ file, scanImports p file = true ↔
      ∀ value ∈ (p.files.getD file default).imports, ∀ path ∈ p.unquote value,
        p.removeVendor path ≠ nethttpPath) := by
  refine ⟨reachable_cacheOK h, ?_, scanImports_iff p⟩
  intro f
  obtain ⟨s1, h1, _⟩ := noImportedNetHTTP_spec p f s (reachable_cacheOK h)
  have hfr := noImportedNetHTTP_frame p f s s1 _ h1
  exact ⟨s1, h1, Reachable.call f s s1 _ h h1, hfr.1, hfr.2⟩

/-- C20, at the state of the map after the file of `capture` of the bail-out
package (its second file, which imports only `io`) has been scanned: a call
for `fetch`, in the first file, returns `false` and adds the entry of that
file. -/
theorem C20_memoization_transparent_witness :
    Reachable Fixture.bailPkg [(1, true)] ∧
    ∃ s1, noImportedNetHTTP Fixture.bailPkg 1 [(1, true)]
        = Res.ret (noImportedNetHTTPUncached Fixture.bailPkg 1) s1 ∧
      Reachable Fixture.bailPkg s1 ∧
      (∀ file v, ([(1, true)] : SkipFile).lookup file = some v → s1.lookup file = some v) ∧
      (∀ file, ([(1, true)] : SkipFile).lookup file = none → s1.lookup file ≠ none →
        ∃ pos ∈ (Fixture.bailPkg.func 1).object, fileOf Fixture.bailPkg pos = some file) :=
  ⟨Reachable.call 2 [] [(1, true)] true Reachable.empty (by decide),
    (C20_memoization_transparent Fixture.bailPkg [(1, true)]
      (Reachable.call 2 [] [(1, true)] true Reachable.empty (by decide))).2.1 1⟩

/-- What `isopenBody` does on an allocation site with a referrer that is not
a call of the recorder accessor, whatever the nested calls of `isopen` do. -/
theorem isopenBody_eq_classify (rec : BlockId → Nat → M Bool) (p : Program) (r : Runner)
    (b : BlockId) (i : Nat) (s : SkipFile) (instr : InstrId)
    (hi : (p.block b).instrs[i]? = some instr)
    (hreq : getReqCall p r instr = some instr)
    (hne : (p.instr instr).referrers ≠ [])
    (hrec : isRecorderCall p instr = false) :
    isopenBody rec p r b i s = classify rec p r instr s := by
  rw [isopenBody]
  have hz : ¬ (p.instr instr).referrers.length = 0 := by
    intro h; exact hne (List.length_eq_zero.mp h)
  simp only [hi, hreq, beq_iff_eq, hz, if_false]
  unfold isRecorderCall at hrec
  cases hk : (p.instr instr).kind <;> simp only []
  rw [hk] at hrec
  simp only [] at hrec
  rw [hrec]; rfl

/-- A computation whose first part runs out of budget runs out of budget. -/
theorem M.bind_timeout {α β : Type} {x : M α} {f : α → M β} {s : SkipFile}
    (h : x s = Res.timeout) : (x >>= f) s = Res.timeout := by
  rw [M.bind_apply, h]

/-- A loop whose first iteration runs out of budget runs out of budget. -/
theorem forRet_cons_timeout {α β : Type} {body : α → M (Option β)} {x : α} {xs : List α}
    {s : SkipFile} (h : body x s = Res.timeout) :
    forRet body (x :: xs) s = Res.timeout := by
  rw [forRet_cons, h]

/-- The walk of `isopen` from the allocation call of `pass` in `selfPkg`
comes back to the same call: the body of `isopen` on it runs out of budget
when the nested call on it does. -/
theorem isopenBody_selfPkg (rec : BlockId → Nat → M Bool) (cc : Bool) (s : SkipFile)
    (h : rec 0 0 s = Res.timeout) :
    isopenBody rec Fixture.selfPkg (Fixture.runner cc) 0 0 s = Res.timeout := by
  rw [isopenBody_eq_classify rec Fixture.selfPkg (Fixture.runner cc) 0 0 s 0
    (by decide) (by cases cc <;> decide) (by decide) (by decide)]
  have hv : getResVal Fixture.selfPkg (Fixture.runner cc) 1 = some (Value.instr 1) := by
    cases cc <;> decide
  have hk : (Fixture.selfPkg.instr 3).kind = InstrKind.call ⟨Value.function 1, none⟩ := rfl
  have hclose : isCloseCall Fixture.selfPkg (Fixture.runner cc) 0 = some false := by
    cases cc <;> decide
  have hstep : calleeStep rec Fixture.selfPkg (Fixture.runner cc) 0 (0, 0) s = Res.timeout := by
    unfold calleeStep
    rw [hclose, M.bind_ret (M.ofOption_some false s)]
    exact M.bind_timeout h
  have hinner : forRet (calleeStep rec Fixture.selfPkg (Fixture.runner cc) 0)
      (Fixture.selfPkg.block 0).instrs.enum s = Res.timeout :=
    forRet_cons_timeout hstep
  have hcall : callCase rec Fixture.selfPkg (Fixture.runner cc) ⟨Value.function 1, none⟩ s
      = Res.timeout := by
    unfold callCase
    exact forRet_cons_timeout hinner
  have hres : resRefStep rec Fixture.selfPkg (Fixture.runner cc) 3 s = Res.timeout := by
    unfold resRefStep
    rw [hk]
    exact hcall
  have hc : cRefStep rec Fixture.selfPkg (Fixture.runner cc) 1 s = Res.timeout := by
    unfold cRefStep
    rw [hv]
    exact forRet_cons_timeout hres
  unfold classify
  exact M.bind_timeout (forRet_cons_timeout hc)

/-- C15. The recursion of `isopen` has no guard against a cycle: in the
package `selfPkg`, whose function `pass` hands the response of its own
`http.Get` to itself by a static call, `isopen` on that call of `http.Get`
calls itself on the same instruction before anything else decides.  With every
recursion budget, in both modes and from every `skipFile` map, the walk is cut
off, and so is the run of the analyzer on the package. -/
theorem C15_no_cycle_guard :
    (∀ cc fuel s, isopen Fixture.selfPkg (Fixture.runner cc) fuel 0 0 s = Res.timeout) ∧
    (∀ cc fuel, runWithRunner fuel Fixture.selfPkg cc = Res.timeout) := by
  have h1 : ∀ cc fuel s,
      isopen Fixture.selfPkg (Fixture.runner cc) fuel 0 0 s = Res.timeout := by
    intro cc fuel
    induction fuel with
    | zero => intro s; rfl
    | succ n ih => intro s; exact isopenBody_selfPkg _ cc s (ih s)
  refine ⟨h1, ?_⟩
  intro cc fuel
  have hscan : scanInstr fuel Fixture.selfPkg (Fixture.runner cc) 0 (0, 0) [] = Res.timeout := by
    unfold scanInstr
    exact M.bind_timeout (h1 cc fuel [])
  have hblock : forEmit (scanInstr fuel Fixture.selfPkg (Fixture.runner cc) 0)
      (Fixture.selfPkg.block 0).instrs.enum [] = Res.timeout :=
    M.bind_timeout hscan
  have hfunc : scanFunc fuel Fixture.selfPkg (Fixture.runner cc) 1 [] = Res.timeout := by
    unfold scanFunc
    have hr : returnsResponse Fixture.selfPkg (Fixture.runner cc) 1 = false := by
      cases cc <;> decide
    rw [hr]
    exact M.bind_timeout hblock
  have hall : forEmit (scanFunc fuel Fixture.selfPkg (Fixture.runner cc)) [1] [] = Res.timeout :=
    M.bind_timeout hfunc
  have hrun : ∀ r : Runner, r = Fixture.runner cc →
      (match forEmit (scanFunc fuel Fixture.selfPkg r) Fixture.selfPkg.srcFuncs [] with
        | Res.ret diags s => Res.ret (⟨none, diags⟩ : RunOutput) s
        | Res.panicked => Res.panicked
        | Res.timeout => Res.timeout) = Res.timeout := by
    intro r hr
    subst hr
    have : Fixture.selfPkg.srcFuncs = [1] := rfl
    rw [this, hall]
  exact hrun _ rfl

/-- The instructions of `referDirectly`. -/
theorem referDirectly_instr (p : Program) (vi : InstrId) (refs : List InstrId) (x : InstrId) :
    (referDirectly p vi refs).instr x =
      if x = vi ∧ vi < p.instrs.length then { p.instr vi with referrers := refs }
      else p.instr x := by
  unfold referDirectly Program.instr
  simp only [List.getD_eq_getElem?_getD, List.getElem?_set]
  by_cases hx : x = vi
  · subst hx
    by_cases hl : x < p.instrs.length
    · simp [hl]
    · have hn : p.instrs[x]? = none := List.getElem?_eq_none (Nat.le_of_not_lt hl)
      simp [hl, hn]
  · have hx1 : ¬ vi = x := fun e => hx e.symm
    simp [hx, hx1]

@[simp] theorem referDirectly_kind (p : Program) (vi : InstrId) (refs : List InstrId)
    (x : InstrId) : ((referDirectly p vi refs).instr x).kind = (p.instr x).kind := by
  rw [referDirectly_instr]
  split
  · rename_i h; rw [h.1]
  · rfl

@[simp] theorem referDirectly_typ (p : Program) (vi : InstrId) (refs : List InstrId)
    (x : InstrId) : ((referDirectly p vi refs).instr x).typ = (p.instr x).typ := by
  rw [referDirectly_instr]
  split
  · rename_i h; rw [h.1]
  · rfl

@[simp] theorem referDirectly_instr_block (p : Program) (vi : InstrId) (refs : List InstrId)
    (x : InstrId) : ((referDirectly p vi refs).instr x).block = (p.instr x).block := by
  rw [referDirectly_instr]
  split
  · rename_i h; rw [h.1]
  · rfl

theorem referDirectly_referrers_ne (p : Program) (vi : InstrId) (refs : List InstrId)
    (x : InstrId) (h : x ≠ vi) :
    ((referDirectly p vi refs).instr x).referrers = (p.instr x).referrers := by
  rw [referDirectly_instr]
  simp [h]

theorem referDirectly_referrers_self (p : Program) (vi : InstrId) (refs : List InstrId)
    (h : vi < p.instrs.length) :
    ((referDirectly p vi refs).instr vi).referrers = refs := by
  rw [referDirectly_instr]
  simp [h]

@[simp] theorem referDirectly_block (p : Program) (vi : InstrId) (refs : List InstrId)
    (b : BlockId) : (referDirectly p vi refs).block b = p.block b := rfl

@[simp] theorem referDirectly_func (p : Program) (vi : InstrId) (refs : List InstrId)
    (f : FuncId) : (referDirectly p vi refs).func f = p.func f := rfl

@[simp] theorem referDirectly_typeOf (p : Program) (vi : InstrId) (refs : List InstrId)
    (v : Value) : (referDirectly p vi refs).typeOf v = p.typeOf v := by
  cases v <;> simp [Program.typeOf]

@[simp] theorem referDirectly_getReqCall (p : Program) (vi : InstrId) (refs : List InstrId)
    (r : Runner) (x : InstrId) :
    getReqCall (referDirectly p vi refs) r x = getReqCall p r x := by
  unfold getReqCall
  simp only [referDirectly_kind, referDirectly_typ]

@[simp] theorem referDirectly_getResVal (p : Program) (vi : InstrId) (refs : List InstrId)
    (r : Runner) (x : InstrId) :
    getResVal (referDirectly p vi refs) r x = getResVal p r x := by
  unfold getResVal
  simp only [referDirectly_kind, referDirectly_typ, referDirectly_typeOf]

@[simp] theorem referDirectly_getBodyOp (p : Program) (vi : InstrId) (refs : List InstrId)
    (r : Runner) (x : InstrId) :
    getBodyOp (referDirectly p vi refs) r x = getBodyOp p r x := by
  unfold getBodyOp
  simp only [referDirectly_kind, referDirectly_typ]

@[simp] theorem referDirectly_staticCallee (p : Program) (vi : InstrId) (refs : List InstrId)
    (c : CallCommon) : staticCallee (referDirectly p vi refs) c = staticCallee p c := by
  unfold staticCallee
  simp only [referDirectly_kind]

@[simp] theorem referDirectly_isRecorderResult (p : Program) (vi : InstrId)
    (refs : List InstrId) (c : CallCommon) :
    isRecorderResult (referDirectly p vi refs) c = isRecorderResult p c := by
  unfold isRecorderResult
  simp only [referDirectly_staticCallee, referDirectly_func]

@[simp] theorem referDirectly_isBodyConsumed (p : Program) (vi : InstrId) (refs : List InstrId)
    (bodyOp x : InstrId) :
    isBodyConsumed (referDirectly p vi refs) bodyOp x = isBodyConsumed p bodyOp x := by
  unfold isBodyConsumed isConsumptionFunction
  simp only [referDirectly_kind, referDirectly_instr_block, referDirectly_block,
    referDirectly_func, referDirectly_staticCallee]

@[simp] theorem referDirectly_deferCallsMethod (p : Program) (vi : InstrId)
    (refs : List InstrId) (m : Func) (cs : InstrId) :
    deferCallsMethod (referDirectly p vi refs) m cs = deferCallsMethod p m cs := by
  unfold deferCallsMethod
  simp only [referDirectly_kind, referDirectly_block, referDirectly_func]

@[simp] theorem referDirectly_returnsCloser (p : Program) (vi : InstrId) (refs : List InstrId)
    (cs : InstrId) : returnsCloser (referDirectly p vi refs) cs = returnsCloser p cs := by
  unfold returnsCloser
  simp only [referDirectly_kind, referDirectly_typeOf]

theorem referDirectly_isCloseCall (p : Program) (vi : InstrId) (refs : List InstrId)
    (r : Runner) (c : InstrId) (hci : (p.instr vi).kind.isChangeInterface = false) :
    isCloseCall (referDirectly p vi refs) r c = isCloseCall p r c := by
  unfold isCloseCall
  by_cases h : c = vi
  · subst h
    cases hk : (p.instr c).kind with
    | changeInterface a => rw [hk] at hci; simp [InstrKind.isChangeInterface] at hci
    | _ => simp only [referDirectly_kind, referDirectly_typ, referDirectly_typeOf, hk]
  · simp only [referDirectly_kind, referDirectly_typ, referDirectly_typeOf,
      referDirectly_deferCallsMethod, referDirectly_returnsCloser,
      referDirectly_referrers_ne p vi refs c h]

theorem referDirectly_scanCcalls (p : Program) (vi : InstrId) (refs : List InstrId)
    (r : Runner) (bOp : InstrId) (ccalls : List InstrId) (acc : Bool × Bool)
    (hci : (p.instr vi).kind.isChangeInterface = false) :
    scanCcalls (referDirectly p vi refs) r bOp ccalls acc = scanCcalls p r bOp ccalls acc := by
  induction ccalls generalizing acc with
  | nil => rfl
  | cons c cs ih =>
    unfold scanCcalls
    simp only [referDirectly_isCloseCall p vi refs r c hci, referDirectly_isBodyConsumed, ih]

theorem referDirectly_fieldAddrStep (p : Program) (vi : InstrId) (refs : List InstrId)
    (r : Runner) (x : InstrId) (hci : (p.instr vi).kind.isChangeInterface = false)
    (hload : getBodyOp p r vi = none) :
    fieldAddrStep (referDirectly p vi refs) r x = fieldAddrStep p r x := by
  unfold fieldAddrStep
  simp only [referDirectly_getBodyOp]
  cases hg : getBodyOp p r x with
  | none => rfl
  | some bOp =>
    have hb : bOp = x := getBodyOp_eq hg
    subst hb
    have hne : bOp ≠ vi := by
      intro e; rw [e, hload] at hg; exact absurd hg (by simp)
    simp only [referDirectly_referrers_ne p vi refs bOp hne,
      referDirectly_scanCcalls p vi refs r bOp _ _ hci]

/-- Loops with the same bodies are the same. -/
theorem forRet_congr {α β : Type} (body body1 : α → M (Option β)) (xs : List α)
    (s : SkipFile) (h : ∀ x ∈ xs, ∀ t, body x t = body1 x t) :
    forRet body xs s = forRet body1 xs s := by
  induction xs generalizing s with
  | nil => rfl
  | cons x xs ih =>
    rw [forRet_cons, forRet_cons, h x (List.mem_cons_self _ _) s]
    cases body1 x s with
    | ret a s1 =>
      cases a with
      | none => exact ih s1 (fun y hy => h y (List.mem_cons_of_mem _ hy))
      | some b => rfl
    | panicked => rfl
    | timeout => rfl

/-- A loop over one element is its body. -/
theorem forRet_singleton {α β : Type} (body : α → M (Option β)) (x : α) (s : SkipFile) :
    forRet body [x] s = body x s := by
  rw [forRet_cons]
  cases body x s with
  | ret a s1 => cases a <;> rfl
  | panicked => rfl
  | timeout => rfl

/-- The type switch of `isopen` on a field accessor of the program that
refers to the value directly does what the `Phi` case does on that accessor in
the program with the `Phi`. -/
theorem referDirectly_resRefStep (rec : BlockId → Nat → M Bool) (p : Program) (vi : InstrId)
    (refs : List InstrId) (r : Runner) (a : InstrId)
    (ha : (p.instr a).kind.isFieldAddr = true)
    (hfa : (p.instr vi).kind.isFieldAddr = false)
    (hci : (p.instr vi).kind.isChangeInterface = false)
    (hload : getBodyOp p r vi = none) (t : SkipFile) :
    resRefStep rec (referDirectly p vi refs) r a t = phiStep p r a t := by
  have hne : a ≠ vi := by
    intro e; rw [e, hfa] at ha; exact absurd ha (by simp)
  obtain ⟨x, hk⟩ := InstrKind.isFieldAddr_eq ha
  unfold resRefStep phiStep fieldAddrLoop
  simp only [referDirectly_kind, hk, referDirectly_referrers_ne p vi refs a hne]
  apply forRet_congr
  intro y _ u
  rw [phiFieldStep_eq_fieldAddrStep, referDirectly_fieldAddrStep p vi refs r y hci hload]

/-- C17. For an allocation call, not the recorder accessor, whose only
response value is the instruction `vi`, where the only referrer of `vi` is a
`Phi` all of whose referrers are field accessors: `isopen` gives on the call
the same outcome, for every runner (each mode), every recursion budget and
every `skipFile` map, as in the program `referDirectly` in which `vi` is
referred to directly by the referrers of the `Phi`, in the same order.  The
value `vi` is the allocation call's result and nothing else: it is not the
call, no field accessor, no `ChangeInterface` and no body load. -/
theorem C17_phi_same_as_direct (p : Program) (r : Runner) (fuel : Nat) (b : BlockId)
    (i : Nat) (s : SkipFile) (instr vi ph : InstrId)
    (hi : (p.block b).instrs[i]? = some instr)
    (hreq : getReqCall p r instr = some instr)
    (hrec : isRecorderCall p instr = false)
    (hv1 : ∀ cRef ∈ (p.instr instr).referrers, ∀ val ∈ getResVal p r cRef,
      val = Value.instr vi)
    (hrr : (p.instr vi).referrers = [ph])
    (hph : (p.instr ph).kind = InstrKind.phi)
    (hacc : ∀ a ∈ (p.instr ph).referrers, (p.instr a).kind.isFieldAddr = true)
    (hne : vi ≠ instr)
    (hfa : (p.instr vi).kind.isFieldAddr = false)
    (hci : (p.instr vi).kind.isChangeInterface = false)
    (hload : getBodyOp p r vi = none) :
    isopen (referDirectly p vi (p.instr ph).referrers) r fuel b i s
      = isopen p r fuel b i s := by
  cases fuel with
  | zero => rfl
  | succ fuel =>
    have hlen : vi < p.instrs.length := by
      by_contra hl
      have hn : p.instrs[vi]? = none := List.getElem?_eq_none (Nat.le_of_not_lt hl)
      have : (p.instr vi).referrers = [] := by
        unfold Program.instr
        rw [List.getD_eq_getElem?_getD, hn]
        rfl
      rw [this] at hrr
      exact absurd hrr (by simp)
    have hq : ((referDirectly p vi (p.instr ph).referrers).instr instr).referrers
        = (p.instr instr).referrers :=
      referDirectly_referrers_ne p vi _ instr (fun e => hne e.symm)
    have hrecq : isRecorderCall (referDirectly p vi (p.instr ph).referrers) instr = false := by
      unfold isRecorderCall at hrec ⊢
      simp only [referDirectly_kind, referDirectly_isRecorderResult]
      exact hrec
    have hiq : ((referDirectly p vi (p.instr ph).referrers).block b).instrs[i]? = some instr :=
      hi
    have hreqq : getReqCall (referDirectly p vi (p.instr ph).referrers) r instr = some instr := by
      rw [referDirectly_getReqCall]; exact hreq
    by_cases hrefs : (p.instr instr).referrers = []
    · rw [isopen_unreferred p r fuel b i s instr hi hreq hrefs,
        isopen_unreferred (referDirectly p vi (p.instr ph).referrers) r fuel b i s instr hiq
          hreqq (by rw [hq]; exact hrefs)]
    · rw [isopen_eq_classify p r fuel b i s instr hi hreq hrefs hrec,
        isopen_eq_classify (referDirectly p vi (p.instr ph).referrers) r fuel b i s instr hiq
          hreqq (by rw [hq]; exact hrefs) hrecq]
      unfold classify
      rw [hq]
      have hp : ∀ cRef ∈ (p.instr instr).referrers, ∀ t,
          cRefStep (isopen p r fuel) p r cRef t =
            (match getResVal p r cRef with
              | none => Res.ret none t
              | some _ => forRet (phiStep p r) (p.instr ph).referrers t) := by
        intro cRef hc t
        unfold cRefStep
        cases hg : getResVal p r cRef with
        | none => rfl
        | some val =>
          have hval := hv1 cRef hc val hg
          subst hval
          simp only [Program.referrersOf, hrr, List.length_singleton, Nat.succ_ne_zero,
            beq_iff_eq, if_false]
          rw [forRet_singleton]
          unfold resRefStep phiLoop
          simp only [hph]
      by_cases hacc0 : (p.instr ph).referrers = []
      · have h1 : forRet (cRefStep (isopen p r fuel) p r) (p.instr instr).referrers s
            = Res.ret none s := by
          apply forRet_all_none
          intro cRef hc
          rw [hp cRef hc s, hacc0]
          cases getResVal p r cRef <;> rfl
        have h2 := forRet_none_or
          (cRefStep (isopen (referDirectly p vi (p.instr ph).referrers) r fuel)
            (referDirectly p vi (p.instr ph).referrers) r) true s (p.instr instr).referrers
          (by
            intro cRef hc
            unfold cRefStep
            simp only [referDirectly_getResVal]
            cases hg : getResVal p r cRef with
            | none => left; rfl
            | some val =>
              have hval := hv1 cRef hc val hg
              subst hval
              right
              simp only [Program.referrersOf, referDirectly_referrers_self p vi _ hlen, hacc0,
                List.length_nil, beq_self_eq_true, if_true]
              rfl)
        rw [M.bind_ret h1]
        rcases h2 with h2 | h2
        · rw [M.bind_ret h2]
        · rw [M.bind_ret h2]; rfl
      · have hz : ¬ (p.instr ph).referrers.length = 0 := fun h0 =>
          hacc0 (List.length_eq_zero.mp h0)
        have hstep : ∀ cRef ∈ (p.instr instr).referrers, ∀ t,
            cRefStep (isopen (referDirectly p vi (p.instr ph).referrers) r fuel)
              (referDirectly p vi (p.instr ph).referrers) r cRef t
              = cRefStep (isopen p r fuel) p r cRef t := by
          intro cRef hc t
          rw [hp cRef hc t]
          unfold cRefStep
          simp only [referDirectly_getResVal]
          cases hg : getResVal p r cRef with
          | none => rfl
          | some val =>
            have hval := hv1 cRef hc val hg
            subst hval
            simp only [Program.referrersOf, referDirectly_referrers_self p vi _ hlen,
              beq_iff_eq, hz, if_false]
            apply forRet_congr
            intro a ha u
            exact referDirectly_resRefStep _ p vi _ r a (hacc a ha) hfa hci hload u
        have := forRet_congr _ _ (p.instr instr).referrers s hstep
        show M.bind _ _ s = M.bind _ _ s
        unfold M.bind
        rw [this]

/-- C17, at `merged` of the `Phi` package, with consumption checking
disabled: the first `http.Get` is classified closed through the `Phi`, as it
is when its response value is referred to directly by the accessor
`&resp.Body`. -/
theorem C17_phi_same_as_direct_witness :
    isopen (referDirectly Fixture.phiPkg 1 (Fixture.phiPkg.instr 8).referrers)
        (Fixture.runner false) 2 0 0 []
      = isopen Fixture.phiPkg (Fixture.runner false) 2 0 0 [] ∧
    isopen Fixture.phiPkg (Fixture.runner false) 2 0 0 [] = Res.ret false [] :=
  ⟨C17_phi_same_as_direct Fixture.phiPkg (Fixture.runner false) 2 0 0 [] 0 1 8
    (by decide) (by decide) (by decide) (by decide) (by decide) (by decide) (by decide)
    (by decide) (by decide) (by decide) (by decide), by decide⟩

/-! ## From the default mode to the mode that checks consumption -/

theorem modeLe_of_eq {α : Type} (p : Program) (le : α → α → Prop) (hrefl : ∀ a, le a a)
    {m : M α} (hm : Transparent p m) : ModeLe p le m m := by
  intro s0 s1 hs0 hs1 a0 t0 a1 t1 h0 h1
  obtain ⟨u, hu, _, _⟩ := Res.agree_ret (hm s0 s1 hs0 hs1) h0
  rw [h1] at hu
  simp only [Res.ret.injEq] at hu
  rw [hu.1]
  exact hrefl a0

theorem modeLe_pure {α : Type} (p : Program) (le : α → α → Prop) {a0 a1 : α}
    (h : le a0 a1) : ModeLe p le (M.pure a0) (M.pure a1) := by
  intro s0 s1 _ _ b0 t0 b1 t1 h0 h1
  simp only [M.pure_apply, Res.ret.injEq] at h0 h1
  rw [← h0.1, ← h1.1]
  exact h

theorem modeLe_panic_left {α : Type} (p : Program) (le : α → α → Prop) (m : M α) :
    ModeLe p le M.panic m := by
  intro s0 s1 _ _ b0 t0 b1 t1 h0 _
  simp at h0

theorem M.bind_ret_inv {α β : Type} {x : M α} {f : α → M β} {s t : SkipFile} {b : β}
    (h : (x >>= f) s = Res.ret b t) : ∃ a u, x s = Res.ret a u ∧ f a u = Res.ret b t := by
  rw [M.bind_apply] at h
  cases hx : x s with
  | ret a u => rw [hx] at h; exact ⟨a, u, rfl, h⟩
  | panicked => rw [hx] at h; exact absurd h (by simp)
  | timeout => rw [hx] at h; exact absurd h (by simp)

theorem modeLe_bind {α β : Type} (p : Program) (le1 : α → α → Prop) (le : β → β → Prop)
    {x0 x1 : M α} {f0 f1 : α → M β}
    (hx0 : Transparent p x0) (hx1 : Transparent p x1) (hx : ModeLe p le1 x0 x1)
    (hf : ∀ a0 a1, le1 a0 a1 → ModeLe p le (f0 a0) (f1 a1)) :
    ModeLe p le (x0 >>= f0) (x1 >>= f1) := by
  intro s0 s1 hs0 hs1 b0 t0 b1 t1 h0 h1
  obtain ⟨a0, u0, hx0r, hf0⟩ := M.bind_ret_inv h0
  obtain ⟨a1, u1, hx1r, hf1⟩ := M.bind_ret_inv h1
  exact hf a0 a1 (hx s0 s1 hs0 hs1 a0 u0 a1 u1 hx0r hx1r) u0 u1
    (hx0.cacheOK hs0 hx0r) (hx1.cacheOK hs1 hx1r) b0 t0 b1 t1 hf0 hf1

theorem stepLe_refl (o : Option Bool) : stepLe o o := by
  cases o with
  | none => simp [stepLe]
  | some b => cases b <;> simp [stepLe]

theorem stepLe_false (o : Option Bool) : stepLe (some false) o := trivial

theorem stepLe_true (o : Option Bool) : stepLe o (some true) := by
  cases o with
  | none => simp [stepLe]
  | some b => cases b <;> simp [stepLe]

theorem boolLe_refl (a : Bool) : boolLe a a := fun h => h

theorem forRet_cons_ret_inv {α β : Type} {body : α → M (Option β)} {x : α} {xs : List α}
    {s t : SkipFile} {o : Option β} (h : forRet body (x :: xs) s = Res.ret o t) :
    (∃ b, body x s = Res.ret (some b) t ∧ o = some b) ∨
      ∃ u, body x s = Res.ret none u ∧ forRet body xs u = Res.ret o t := by
  rw [forRet_cons] at h
  cases hx : body x s with
  | ret a u =>
    rw [hx] at h
    cases a with
    | none => exact Or.inr ⟨u, rfl, h⟩
    | some b =>
      simp only [Res.ret.injEq] at h
      exact Or.inl ⟨b, by rw [h.2], h.1.symm⟩
  | panicked => rw [hx] at h; exact absurd h (by simp)
  | timeout => rw [hx] at h; exact absurd h (by simp)

/-- Loops whose iterations are related are related. -/
theorem modeLe_forRet {α : Type} (p : Program) {body0 body1 : α → M (Option Bool)}
    (xs : List α)
    (h0 : ∀ x ∈ xs, Transparent p (body0 x)) (h1 : ∀ x ∈ xs, Transparent p (body1 x))
    (h : ∀ x ∈ xs, ModeLe p stepLe (body0 x) (body1 x)) :
    ModeLe p stepLe (forRet body0 xs) (forRet body1 xs) := by
  induction xs with
  | nil =>
    intro s0 s1 _ _ a0 t0 a1 t1 e0 e1
    simp only [forRet_nil, Res.ret.injEq] at e0 e1
    rw [← e0.1, ← e1.1]
    exact stepLe_refl none
  | cons x xs ih =>
    intro s0 s1 hs0 hs1 a0 t0 a1 t1 e0 e1
    have hx := h x (List.mem_cons_self _ _) s0 s1 hs0 hs1
    have ih1 := ih (fun y hy => h0 y (List.mem_cons_of_mem _ hy))
      (fun y hy => h1 y (List.mem_cons_of_mem _ hy))
      (fun y hy => h y (List.mem_cons_of_mem _ hy))
    rcases forRet_cons_ret_inv e0 with ⟨b0, hb0, ha0⟩ | ⟨u0, hb0, hr0⟩
    · rcases forRet_cons_ret_inv e1 with ⟨b1, hb1, ha1⟩ | ⟨u1, hb1, _⟩
      · rw [ha0, ha1]; exact hx _ _ _ _ hb0 hb1
      · have := hx _ _ _ _ hb0 hb1
        cases b0 with
        | false => rw [ha0]; exact stepLe_false _
        | true => simp [stepLe] at this
    · rcases forRet_cons_ret_inv e1 with ⟨b1, hb1, ha1⟩ | ⟨u1, hb1, hr1⟩
      · have := hx _ _ _ _ hb0 hb1
        cases b1 with
        | false => simp [stepLe] at this
        | true => rw [ha1]; exact stepLe_true _
      · exact ih1 u0 u1 ((h0 x (List.mem_cons_self _ _)).cacheOK hs0 hb0)
          ((h1 x (List.mem_cons_self _ _)).cacheOK hs1 hb1) a0 t0 a1 t1 hr0 hr1

@[simp] theorem withMode_checkConsumption (r : Runner) (cc : Bool) :
    (r.withMode cc).checkConsumption = cc := rfl

@[simp] theorem withMode_getReqCall (p : Program) (r : Runner) (cc : Bool) (x : InstrId) :
    getReqCall p (r.withMode cc) x = getReqCall p r x := rfl

@[simp] theorem withMode_getResVal (p : Program) (r : Runner) (cc : Bool) (x : InstrId) :
    getResVal p (r.withMode cc) x = getResVal p r x := rfl

@[simp] theorem withMode_getBodyOp (p : Program) (r : Runner) (cc : Bool) (x : InstrId) :
    getBodyOp p (r.withMode cc) x = getBodyOp p r x := rfl

@[simp] theorem withMode_isCloseCall (p : Program) (r : Runner) (cc : Bool) (x : InstrId) :
    isCloseCall p (r.withMode cc) x = isCloseCall p r x := rfl

@[simp] theorem withMode_closeInBlock (p : Program) (r : Runner) (cc : Bool) (f : InstrId) :
    closeInBlock p (r.withMode cc) f = closeInBlock p r f := rfl

@[simp] theorem withMode_returnsResponse (p : Program) (r : Runner) (cc : Bool) (f : FuncId) :
    returnsResponse p (r.withMode cc) f = returnsResponse p r f := rfl

theorem modeLe_scanCcalls (p : Program) (r : Runner) (cc : Bool) (bOp : InstrId)
    (ccalls : List InstrId) (acc0 acc1 : Bool × Bool) (hacc : accLe acc0 acc1) :
    ModeLe p accLe (scanCcalls p (r.withMode false) bOp ccalls acc0)
      (scanCcalls p (r.withMode cc) bOp ccalls acc1) := by
  induction ccalls generalizing acc0 acc1 with
  | nil => exact modeLe_pure p accLe hacc
  | cons c cs ih =>
    unfold scanCcalls
    simp only [withMode_isCloseCall, withMode_checkConsumption]
    refine modeLe_bind p Eq accLe (transparent_ofOption p _) (transparent_ofOption p _)
      (modeLe_of_eq p Eq (fun _ => rfl) (transparent_ofOption p _)) ?_
    intro a0 a1 ha
    subst ha
    apply ih
    obtain ⟨h1, h2⟩ := hacc
    refine ⟨?_, ?_⟩
    · simp only [h1]
    · simpa using h2

theorem modeLe_fieldAddrStep (p : Program) (r : Runner) (cc : Bool) (bRef : InstrId) :
    ModeLe p stepLe (fieldAddrStep p (r.withMode false) bRef)
      (fieldAddrStep p (r.withMode cc) bRef) := by
  unfold fieldAddrStep
  simp only [withMode_getBodyOp, withMode_checkConsumption]
  cases getBodyOp p r bRef with
  | none => exact modeLe_pure p stepLe (stepLe_refl _)
  | some bOp =>
    simp only []
    split
    · exact modeLe_pure p stepLe (stepLe_refl _)
    · refine modeLe_bind p accLe stepLe (transparent_scanCcalls p _ _ _ _)
        (transparent_scanCcalls p _ _ _ _)
        (modeLe_scanCcalls p r cc bOp _ _ _ ⟨rfl, rfl⟩) ?_
      intro a0 a1 ha
      obtain ⟨h1, h2⟩ := ha
      rw [← h1, h2]
      cases a0.1 with
      | true =>
        simp only [Bool.and_self, if_true]
        intro s0 s1 _ _ b0 t0 b1 t1 e0 _
        simp only [M.pure_apply, Res.ret.injEq] at e0
        rw [← e0.1]
        exact stepLe_false _
      | false =>
        simp only [Bool.false_and, Bool.false_eq_true, if_false]
        exact modeLe_pure p stepLe (stepLe_refl _)

theorem modeLe_phiStep (p : Program) (r : Runner) (cc : Bool) (bRef : InstrId) :
    ModeLe p stepLe (phiStep p (r.withMode false) bRef) (phiStep p (r.withMode cc) bRef) := by
  unfold phiStep
  split
  · refine modeLe_forRet p _ (fun x _ => transparent_phiFieldStep p _ x)
      (fun x _ => transparent_phiFieldStep p _ x) (fun x _ => ?_)
    rw [phiFieldStep_eq_fieldAddrStep, phiFieldStep_eq_fieldAddrStep]
    exact modeLe_fieldAddrStep p r cc x
  · exact modeLe_pure p stepLe (stepLe_refl _)

theorem transparent_calledInFuncStep (p : Program) (rec : BlockId → Nat → M Bool)
    (hrec : ∀ b i, Transparent p (rec b i)) (called : Bool) (b : BlockId) (e : Nat × InstrId) :
    Transparent p (calledInFuncStep rec p called b e) := by
  unfold calledInFuncStep
  split
  · exact transparent_pure p _
  · exact transparent_bind p (hrec b e.1) (fun o => transparent_pure p _)

theorem transparent_calleeStep (p : Program) (r : Runner) (rec : BlockId → Nat → M Bool)
    (hrec : ∀ b i, Transparent p (rec b i)) (b : BlockId) (e : Nat × InstrId) :
    Transparent p (calleeStep rec p r b e) := by
  unfold calleeStep
  refine transparent_bind p (transparent_ofOption p _) (fun c => ?_)
  split
  · exact transparent_pure p _
  · refine transparent_bind p (hrec b e.1) (fun o => ?_)
    split <;> exact transparent_pure p _

theorem transparent_cRefStep (p : Program) (r : Runner) (rec : BlockId → Nat → M Bool)
    (hrec : ∀ b i, Transparent p (rec b i)) (cRef : InstrId) :
    Transparent p (cRefStep rec p r cRef) := by
  unfold cRefStep
  split
  · exact transparent_pure p _
  · split
    · exact transparent_panic p
    · split
      · exact transparent_pure p _
      · exact transparent_forRet p _ (fun x _ => transparent_resRefStep p r rec hrec x)

theorem modeLe_calledInFunc (p : Program) (rec0 rec1 : BlockId → Nat → M Bool)
    (h0 : ∀ b i, Transparent p (rec0 b i)) (h1 : ∀ b i, Transparent p (rec1 b i))
    (h : ∀ b i, ModeLe p boolLe (rec0 b i) (rec1 b i)) (f : FuncId) (called : Bool) :
    ModeLe p boolLe (calledInFunc rec0 p f called) (calledInFunc rec1 p f called) := by
  unfold calledInFunc
  refine modeLe_bind p stepLe boolLe
    (transparent_forRet p _ (fun b _ => transparent_forRet p _ (fun e _ =>
      transparent_calledInFuncStep p rec0 h0 called b e)))
    (transparent_forRet p _ (fun b _ => transparent_forRet p _ (fun e _ =>
      transparent_calledInFuncStep p rec1 h1 called b e)))
    (modeLe_forRet p _
      (fun b _ => transparent_forRet p _ (fun e _ =>
        transparent_calledInFuncStep p rec0 h0 called b e))
      (fun b _ => transparent_forRet p _ (fun e _ =>
        transparent_calledInFuncStep p rec1 h1 called b e))
      (fun b _ => modeLe_forRet p _
        (fun e _ => transparent_calledInFuncStep p rec0 h0 called b e)
        (fun e _ => transparent_calledInFuncStep p rec1 h1 called b e)
        (fun e _ => ?_))) ?_
  · unfold calledInFuncStep
    split
    · exact modeLe_pure p stepLe (stepLe_refl _)
    · refine modeLe_bind p boolLe stepLe (h0 b e.1) (h1 b e.1) (h b e.1) ?_
      intro a0 a1 ha
      apply modeLe_pure
      cases a0 with
      | true => rw [ha rfl]; exact stepLe_refl _
      | false =>
        cases called with
        | true =>
          cases a1 with
          | true => exact stepLe_true _
          | false => exact stepLe_refl _
        | false => cases a1 <;> exact stepLe_refl _
  · intro o0 o1 ho
    apply modeLe_pure
    intro ht
    cases o0 with
    | none => simp at ht
    | some b0 =>
      simp only [Option.getD_some] at ht
      subst ht
      have : o1 = some true := ho
      rw [this]; rfl

theorem modeLe_arefStep (p : Program) (r : Runner) (cc : Bool)
    (rec0 rec1 : BlockId → Nat → M Bool)
    (h0 : ∀ b i, Transparent p (rec0 b i)) (h1 : ∀ b i, Transparent p (rec1 b i))
    (h : ∀ b i, ModeLe p boolLe (rec0 b i) (rec1 b i)) (aref : InstrId) :
    ModeLe p stepLe (arefStep rec0 p (r.withMode false) aref)
      (arefStep rec1 p (r.withMode cc) aref) := by
  unfold arefStep
  simp only [withMode_closeInBlock]
  split
  · refine modeLe_bind p Eq stepLe (transparent_noImportedNetHTTP p _)
      (transparent_noImportedNetHTTP p _)
      (modeLe_of_eq p Eq (fun _ => rfl) (transparent_noImportedNetHTTP p _)) ?_
    intro a0 a1 ha
    subst ha
    split
    · exact modeLe_pure p stepLe (stepLe_refl _)
    · refine modeLe_bind p boolLe stepLe (transparent_calledInFunc p rec0 h0 _ _)
        (transparent_calledInFunc p rec1 h1 _ _) (modeLe_calledInFunc p rec0 rec1 h0 h1 h _ _) ?_
      intro o0 o1 ho
      apply modeLe_pure
      cases o0 with
      | false => exact stepLe_false _
      | true => rw [ho rfl]; exact stepLe_refl _
  · split
    · exact modeLe_of_eq p stepLe stepLe_refl (transparent_closeInBlock p r _)
    · exact modeLe_pure p stepLe (stepLe_refl _)
  · exact modeLe_pure p stepLe (stepLe_refl _)

theorem modeLe_storeCase (p : Program) (r : Runner) (cc : Bool)
    (rec0 rec1 : BlockId → Nat → M Bool)
    (h0 : ∀ b i, Transparent p (rec0 b i)) (h1 : ∀ b i, Transparent p (rec1 b i))
    (h : ∀ b i, ModeLe p boolLe (rec0 b i) (rec1 b i)) (addr : Value) :
    ModeLe p stepLe (storeCase rec0 p (r.withMode false) addr)
      (storeCase rec1 p (r.withMode cc) addr) := by
  unfold storeCase
  split
  · exact modeLe_pure p stepLe (stepLe_refl _)
  · split
    · exact modeLe_panic_left p stepLe _
    · split
      · exact modeLe_pure p stepLe (stepLe_refl _)
      · exact modeLe_forRet p _ (fun x _ => transparent_arefStep p _ rec0 h0 x)
          (fun x _ => transparent_arefStep p _ rec1 h1 x)
          (fun x _ => modeLe_arefStep p r cc rec0 rec1 h0 h1 h x)

theorem modeLe_calleeStep (p : Program) (r : Runner) (cc : Bool)
    (rec0 rec1 : BlockId → Nat → M Bool)
    (h0 : ∀ b i, Transparent p (rec0 b i)) (h1 : ∀ b i, Transparent p (rec1 b i))
    (h : ∀ b i, ModeLe p boolLe (rec0 b i) (rec1 b i)) (b : BlockId) (e : Nat × InstrId) :
    ModeLe p stepLe (calleeStep rec0 p (r.withMode false) b e)
      (calleeStep rec1 p (r.withMode cc) b e) := by
  unfold calleeStep
  simp only [withMode_isCloseCall]
  refine modeLe_bind p Eq stepLe (transparent_ofOption p _) (transparent_ofOption p _)
    (modeLe_of_eq p Eq (fun _ => rfl) (transparent_ofOption p _)) ?_
  intro a0 a1 ha
  subst ha
  split
  · exact modeLe_pure p stepLe (stepLe_refl _)
  · refine modeLe_bind p boolLe stepLe (h0 b e.1) (h1 b e.1) (h b e.1) ?_
    intro o0 o1 ho
    cases o0 with
    | true =>
      rw [ho rfl]
      exact modeLe_pure p stepLe (stepLe_refl _)
    | false =>
      cases o1 with
      | true => exact modeLe_pure p stepLe (stepLe_true _)
      | false => exact modeLe_pure p stepLe (stepLe_refl _)

theorem modeLe_callCase (p : Program) (r : Runner) (cc : Bool)
    (rec0 rec1 : BlockId → Nat → M Bool)
    (h0 : ∀ b i, Transparent p (rec0 b i)) (h1 : ∀ b i, Transparent p (rec1 b i))
    (h : ∀ b i, ModeLe p boolLe (rec0 b i) (rec1 b i)) (call : CallCommon) :
    ModeLe p stepLe (callCase rec0 p (r.withMode false) call)
      (callCase rec1 p (r.withMode cc) call) := by
  unfold callCase
  split
  · exact modeLe_forRet p _
      (fun b _ => transparent_forRet p _ (fun e _ => transparent_calleeStep p _ rec0 h0 b e))
      (fun b _ => transparent_forRet p _ (fun e _ => transparent_calleeStep p _ rec1 h1 b e))
      (fun b _ => modeLe_forRet p _
        (fun e _ => transparent_calleeStep p _ rec0 h0 b e)
        (fun e _ => transparent_calleeStep p _ rec1 h1 b e)
        (fun e _ => modeLe_calleeStep p r cc rec0 rec1 h0 h1 h b e))
  · exact modeLe_pure p stepLe (stepLe_refl _)

theorem modeLe_resRefStep (p : Program) (r : Runner) (cc : Bool)
    (rec0 rec1 : BlockId → Nat → M Bool)
    (h0 : ∀ b i, Transparent p (rec0 b i)) (h1 : ∀ b i, Transparent p (rec1 b i))
    (h : ∀ b i, ModeLe p boolLe (rec0 b i) (rec1 b i)) (resRef : InstrId) :
    ModeLe p stepLe (resRefStep rec0 p (r.withMode false) resRef)
      (resRefStep rec1 p (r.withMode cc) resRef) := by
  unfold resRefStep
  split
  · exact modeLe_storeCase p r cc rec0 rec1 h0 h1 h _
  · exact modeLe_callCase p r cc rec0 rec1 h0 h1 h _
  · exact modeLe_callCase p r cc rec0 rec1 h0 h1 h _
  · exact modeLe_forRet p _ (fun x _ => transparent_fieldAddrStep p _ x)
      (fun x _ => transparent_fieldAddrStep p _ x) (fun x _ => modeLe_fieldAddrStep p r cc x)
  · exact modeLe_forRet p _ (fun x _ => transparent_phiStep p _ x)
      (fun x _ => transparent_phiStep p _ x) (fun x _ => modeLe_phiStep p r cc x)
  · exact modeLe_pure p stepLe (stepLe_refl _)

theorem modeLe_cRefStep (p : Program) (r : Runner) (cc : Bool)
    (rec0 rec1 : BlockId → Nat → M Bool)
    (h0 : ∀ b i, Transparent p (rec0 b i)) (h1 : ∀ b i, Transparent p (rec1 b i))
    (h : ∀ b i, ModeLe p boolLe (rec0 b i) (rec1 b i)) (cRef : InstrId) :
    ModeLe p stepLe (cRefStep rec0 p (r.withMode false) cRef)
      (cRefStep rec1 p (r.withMode cc) cRef) := by
  unfold cRefStep
  simp only [withMode_getResVal]
  split
  · exact modeLe_pure p stepLe (stepLe_refl _)
  · split
    · exact modeLe_panic_left p stepLe _
    · split
      · exact modeLe_pure p stepLe (stepLe_refl _)
      · exact modeLe_forRet p _ (fun x _ => transparent_resRefStep p _ rec0 h0 x)
          (fun x _ => transparent_resRefStep p _ rec1 h1 x)
          (fun x _ => modeLe_resRefStep p r cc rec0 rec1 h0 h1 h x)

theorem modeLe_classify (p : Program) (r : Runner) (cc : Bool)
    (rec0 rec1 : BlockId → Nat → M Bool)
    (h0 : ∀ b i, Transparent p (rec0 b i)) (h1 : ∀ b i, Transparent p (rec1 b i))
    (h : ∀ b i, ModeLe p boolLe (rec0 b i) (rec1 b i)) (call : InstrId) :
    ModeLe p boolLe (classify rec0 p (r.withMode false) call)
      (classify rec1 p (r.withMode cc) call) := by
  unfold classify
  refine modeLe_bind p stepLe boolLe
    (transparent_forRet p _ (fun x _ => transparent_cRefStep p _ rec0 h0 x))
    (transparent_forRet p _ (fun x _ => transparent_cRefStep p _ rec1 h1 x))
    (modeLe_forRet p _ (fun x _ => transparent_cRefStep p _ rec0 h0 x)
      (fun x _ => transparent_cRefStep p _ rec1 h1 x)
      (fun x _ => modeLe_cRefStep p r cc rec0 rec1 h0 h1 h x)) ?_
  intro o0 o1 ho
  apply modeLe_pure
  intro ht
  cases o0 with
  | none =>
    cases o1 with
    | none => rfl
    | some b1 =>
      cases b1 with
      | true => rfl
      | false => simp [stepLe] at ho
  | some b0 =>
    simp only [Option.getD_some] at ht
    subst ht
    have : o1 = some true := ho
    rw [this]; rfl

theorem modeLe_isopenBody (p : Program) (r : Runner) (cc : Bool)
    (rec0 rec1 : BlockId → Nat → M Bool)
    (h0 : ∀ b i, Transparent p (rec0 b i)) (h1 : ∀ b i, Transparent p (rec1 b i))
    (h : ∀ b i, ModeLe p boolLe (rec0 b i) (rec1 b i)) (b : BlockId) (i : Nat) :
    ModeLe p boolLe (isopenBody rec0 p (r.withMode false) b i)
      (isopenBody rec1 p (r.withMode cc) b i) := by
  unfold isopenBody
  simp only [withMode_getReqCall]
  split
  · exact modeLe_panic_left p boolLe _
  · split
    · exact modeLe_pure p boolLe (boolLe_refl _)
    · split
      · exact modeLe_pure p boolLe (boolLe_refl _)
      · split
        · split
          · exact modeLe_pure p boolLe (boolLe_refl _)
          · exact modeLe_classify p r cc rec0 rec1 h0 h1 h _
        · exact modeLe_classify p r cc rec0 rec1 h0 h1 h _

/-- What `isopen` returns in the default mode is below what it returns in
any mode, with any two recursion budgets. -/
theorem modeLe_isopen (p : Program) (r : Runner) (cc : Bool) (fuel0 fuel1 : Nat)
    (b : BlockId) (i : Nat) :
    ModeLe p boolLe (isopen p (r.withMode false) fuel0 b i)
      (isopen p (r.withMode cc) fuel1 b i) := by
  induction fuel0 generalizing fuel1 b i with
  | zero =>
    intro s0 s1 _ _ a0 t0 a1 t1 e0 _
    exact absurd e0 (by simp [isopen])
  | succ n ih =>
    cases fuel1 with
    | zero =>
      intro s0 s1 _ _ a0 t0 a1 t1 _ e1
      exact absurd e1 (by simp [isopen])
    | succ m =>
      rw [isopen, isopen]
      exact modeLe_isopenBody p r cc _ _ (fun b i => transparent_isopen p _ n b i)
        (fun b i => transparent_isopen p _ m b i) (fun b i => ih m b i) b i

/-- The two ways `runWithRunner` goes on a program: it stops before the scan
and reports nothing, or it resolves a runner, the same in both modes but for
the mode, and scans. -/
theorem runWithRunner_cases (p : Program) :
    (∀ fuel cc out u, runWithRunner fuel p cc = Res.ret out u → out.diags = []) ∨
    ∃ r : Runner, ∀ fuel cc, runWithRunner fuel p cc =
      match forEmit (scanFunc fuel p (r.withMode cc)) p.srcFuncs [] with
      | Res.ret diags s => Res.ret ⟨none, diags⟩ s
      | Res.panicked => Res.panicked
      | Res.timeout => Res.timeout := by
  cases hres : p.resObj with
  | none =>
    left
    intro fuel cc out u h
    unfold runWithRunner at h
    simp only [hres, Res.ret.injEq] at h
    rw [← h.1]
  | some resObj =>
    cases hform : resObj.typ.form with
    | named nm =>
      cases hfields : resObj.fields with
      | none =>
        left
        intro fuel cc out u h
        unfold runWithRunner at h
        simp only [hres, hform, hfields, Res.ret.injEq] at h
        rw [← h.1]
      | some fields =>
        cases hbody : fields.find? (fun field => field.id == "Body") with
        | none =>
          left
          intro fuel cc out u h
          unfold runWithRunner at h
          simp only [hres, hform, hfields, hbody, Res.ret.injEq] at h
          rw [← h.1]
        | some bodyObj =>
          cases hbform : bodyObj.typ.form with
          | named nm2 =>
            cases hiface : bodyObj.typ.iface with
            | none =>
              left
              intro fuel cc out u h
              unfold runWithRunner at h
              simp only [hres, hform, hfields, hbody, hbform, hiface] at h
              exact absurd h (by simp)
            | some methods =>
              right
              refine ⟨⟨"*" ++ resObj.typ.str, bodyObj,
                methods.find? (fun bmthd => bmthd.id == closeMethod), false⟩, ?_⟩
              intro fuel cc
              unfold runWithRunner
              simp only [hres, hform, hfields, hbody, hbform, hiface]
              rfl
          | pointer e =>
            left
            intro fuel cc out u h
            unfold runWithRunner at h
            simp only [hres, hform, hfields, hbody, hbform] at h
            exact absurd h (by simp)
          | other =>
            left
            intro fuel cc out u h
            unfold runWithRunner at h
            simp only [hres, hform, hfields, hbody, hbform] at h
            exact absurd h (by simp)
    | pointer e =>
      left
      intro fuel cc out u h
      unfold runWithRunner at h
      simp only [hres, hform, Res.ret.injEq] at h
      rw [← h.1]
    | other =>
      left
      intro fuel cc out u h
      unfold runWithRunner at h
      simp only [hres, hform, Res.ret.injEq] at h
      rw [← h.1]

/-- What the scan of a run reports, read off its outcome. -/
theorem scan_ret_diags (fuel : Nat) (p : Program) (r : Runner) (out : RunOutput)
    (u : SkipFile)
    (h : (match forEmit (scanFunc fuel p r) p.srcFuncs [] with
      | Res.ret diags s => Res.ret (⟨none, diags⟩ : RunOutput) s
      | Res.panicked => Res.panicked
      | Res.timeout => Res.timeout) = Res.ret out u) :
    Returns (forEmit (scanFunc fuel p r) p.srcFuncs) ∧
      out.diags = expectedDiagnostics fuel p r := by
  cases ht : forEmit (scanFunc fuel p r) p.srcFuncs [] with
  | ret ds t =>
    rw [ht] at h
    simp only [Res.ret.injEq] at h
    have hret : Returns (forEmit (scanFunc fuel p r) p.srcFuncs) := ⟨ds, t, ht⟩
    have hd := (funcLoop_spec fuel p r).2 hret
    rw [reportsOf_eq ht] at hd
    refine ⟨hret, ?_⟩
    rw [← h.1, hd]
  | panicked => rw [ht] at h; exact absurd h (by simp)
  | timeout => rw [ht] at h; exact absurd h (by simp)

/-- C14. For every program and every resolved runner: where `isopen` returns
`true` on an instruction in the default mode and returns in the mode that
checks consumption (whatever the recursion budgets and the `skipFile` maps,
with sound entries, the two walks start from), it returns `true` there too.
And when the analyzer returns in both modes, every position the default
analyzer reports is a position the analyzer with consumption checking
reports. -/
theorem C14_mode_monotone (p : Program) (r : Runner) (fuel0 fuel1 : Nat) :
    (∀ b i s0 s1 t0 t1 o1, CacheOK p s0 → CacheOK p s1 →
      isopen p (r.withMode false) fuel0 b i s0 = Res.ret true t0 →
      isopen p (r.withMode true) fuel1 b i s1 = Res.ret o1 t1 → o1 = true) ∧
    (∀ out0 u0 out1 u1, runWithRunner fuel0 p false = Res.ret out0 u0 →
      runWithRunner fuel1 p true = Res.ret out1 u1 →
      ∀ d ∈ out0.diags, ∃ d1 ∈ out1.diags, d1.pos = d.pos) := by
  constructor
  · intro b i s0 s1 t0 t1 o1 hs0 hs1 h0 h1
    exact modeLe_isopen p r true fuel0 fuel1 b i s0 s1 hs0 hs1 true t0 o1 t1 h0 h1 rfl
  · intro out0 u0 out1 u1 h0 h1 d hd
    rcases runWithRunner_cases p with hnil | ⟨r1, hr1⟩
    · rw [hnil fuel0 false out0 u0 h0] at hd
      exact absurd hd (List.not_mem_nil _)
    · rw [hr1 fuel0 false] at h0
      rw [hr1 fuel1 true] at h1
      obtain ⟨_, hd0⟩ := scan_ret_diags fuel0 p _ out0 u0 h0
      obtain ⟨hret1, hd1⟩ := scan_ret_diags fuel1 p _ out1 u1 h1
      have hall := (funcLoop_spec fuel1 p (r1.withMode true)).1.mp hret1
      rw [hd0] at hd
      unfold expectedDiagnostics at hd
      obtain ⟨x, hx, hxd⟩ := List.mem_map.mp hd
      obtain ⟨hx1, hx2⟩ := List.mem_filter.mp hx
      have hsites : scannedSites p (r1.withMode false) = scannedSites p (r1.withMode true) :=
        rfl
      rw [hsites] at hx1
      have hopen0 : isopenAt p (r1.withMode false) fuel0 x.1 x.2.1 = some true := by
        simpa using hx2
      have hne := hall x hx1
      have hopen1 : isopenAt p (r1.withMode true) fuel1 x.1 x.2.1 = some true := by
        unfold isopenAt at hopen0 hne ⊢
        cases e0 : isopen p (r1.withMode false) fuel0 x.1 x.2.1 [] with
        | ret a0 t0 =>
          rw [e0] at hopen0
          simp only [Option.some.injEq] at hopen0
          subst hopen0
          cases e1 : isopen p (r1.withMode true) fuel1 x.1 x.2.1 [] with
          | ret a1 t1 =>
            have := modeLe_isopen p r1 true fuel0 fuel1 x.1 x.2.1 [] [] (cacheOK_nil p)
              (cacheOK_nil p) true t0 a1 t1 e0 e1 rfl
            rw [this]
          | panicked => rw [e1] at hne; exact absurd rfl hne
          | timeout => rw [e1] at hne; exact absurd rfl hne
        | panicked => rw [e0] at hopen0; exact absurd hopen0 (by simp)
        | timeout => rw [e0] at hopen0; exact absurd hopen0 (by simp)
      refine ⟨⟨(p.instr x.2.2).pos, message (r1.withMode true).checkConsumption⟩, ?_, ?_⟩
      · rw [hd1]
        unfold expectedDiagnostics
        exact List.mem_map.mpr ⟨x, List.mem_filter.mpr ⟨hx1, by simp [hopen1]⟩, rfl⟩
      · rw [← hxd]

/-- C14, on the consumption package: `isopen` is `true` in the default mode
on the `http.Get` of `notClosedAtAll`, so it is `true` there when consumption
is checked; and the position the default analyzer reports is among the three
the analyzer with consumption checking reports. -/
theorem C14_mode_monotone_witness :
    (∀ o1 t1, isopen Fixture.consumptionPkg ((Fixture.runner false).withMode true) 2 19 0 []
      = Res.ret o1 t1 → o1 = true) ∧
    ∀ d ∈ ([⟨6323, "response body must be closed"⟩] : List Diagnostic),
      ∃ d1 ∈ ([⟨2923, "response body must be closed and consumed"⟩,
          ⟨3823, "response body must be closed and consumed"⟩,
          ⟨6323, "response body must be closed and consumed"⟩] : List Diagnostic),
        d1.pos = d.pos :=
  ⟨fun o1 t1 h1 =>
    (C14_mode_monotone Fixture.consumptionPkg (Fixture.runner false) 2 2).1
      19 0 [] [] [] t1 o1 (cacheOK_nil _) (cacheOK_nil _) (by decide) h1,
   (C14_mode_monotone Fixture.consumptionPkg (Fixture.runner false) 2 2).2
    ⟨none, [⟨6323, "response body must be closed"⟩]⟩ []
    ⟨none, [⟨2923, "response body must be closed and consumed"⟩,
      ⟨3823, "response body must be closed and consumed"⟩,
      ⟨6323, "response body must be closed and consumed"⟩]⟩ []
    (by decide) (by decide)⟩

/-! ## The store into a global, and the closure in a file without net/http -/

/-- An iteration that goes on from the empty map goes on from every map with
sound entries. -/
theorem goesOn_spec {p : Program} {m : M (Option Bool)} (htr : Transparent p m)
    (h : goesOn m = true) (s : SkipFile) (hs : CacheOK p s) :
    ∃ s1, m s = Res.ret none s1 ∧ CacheOK p s1 := by
  unfold goesOn at h
  cases h0 : m [] with
  | ret a t =>
    cases a with
    | none => exact htr.of_returns h0 s hs
    | some b => rw [h0] at h; exact absurd h (by simp)
  | panicked => rw [h0] at h; exact absurd h (by simp)
  | timeout => rw [h0] at h; exact absurd h (by simp)

/-- A loop goes past the elements on which its body goes on. -/
theorem forRet_goesOn_append {p : Program} (body : InstrId → M (Option Bool))
    (htr : ∀ x, Transparent p (body x)) (pre rest : List InstrId)
    (hpre : ∀ x ∈ pre, goesOn (body x) = true) (s : SkipFile) (hs : CacheOK p s) :
    ∃ s1, CacheOK p s1 ∧ forRet body (pre ++ rest) s = forRet body rest s1 := by
  induction pre generalizing s with
  | nil => exact ⟨s, hs, rfl⟩
  | cons x xs ih =>
    obtain ⟨s1, h1, hs1⟩ := goesOn_spec (htr x) (hpre x (List.mem_cons_self _ _)) s hs
    obtain ⟨s2, hs2, h2⟩ := ih (fun y hy => hpre y (List.mem_cons_of_mem _ hy)) s1 hs1
    exact ⟨s2, hs2, by rw [List.cons_append, forRet_cons_none h1, h2]⟩

/-- C6, amended. `isopen` returns `false`, in both modes, on an allocation
call one of whose response values is stored into a global, when no earlier
referrer ends the walk first: the loop goes on past every earlier referrer of
the call and past every earlier referrer of the value (none of them returns,
and none fails).  What comes after the store, and whether the body is closed
anywhere, plays no role. -/
theorem C6_global_store_closed (p : Program) (r : Runner) (fuel : Nat) (b : BlockId)
    (i : Nat) (s : SkipFile) (instr cRef st : InstrId) (pre post pre2 post2 : List InstrId)
    (val w : Value) (g : GoType)
    (hs : CacheOK p s)
    (hi : (p.block b).instrs[i]? = some instr)
    (hreq : getReqCall p r instr = some instr)
    (hcr : (p.instr instr).referrers = pre ++ cRef :: post)
    (hpre : ∀ x ∈ pre, goesOn (cRefStep (isopen p r fuel) p r x) = true)
    (hval : getResVal p r cRef = some val)
    (hrr : p.referrersOf val = some (pre2 ++ st :: post2))
    (hpre2 : ∀ x ∈ pre2, goesOn (resRefStep (isopen p r fuel) p r x) = true)
    (hst : (p.instr st).kind = InstrKind.store (Value.global g) w) :
    ∃ s1, isopen p r (fuel + 1) b i s = Res.ret false s1 := by
  have hne : (p.instr instr).referrers ≠ [] := by rw [hcr]; simp
  have hrecT : ∀ b i, Transparent p (isopen p r fuel b i) :=
    fun b i => transparent_isopen p r fuel b i
  cases hrec : isRecorderCall p instr with
  | true => exact ⟨s, isopen_recorder p r fuel b i s instr hi hne hrec⟩
  | false =>
    obtain ⟨s1, hs1, h1⟩ := forRet_goesOn_append (cRefStep (isopen p r fuel) p r)
      (fun x => transparent_cRefStep p r _ hrecT x) pre (cRef :: post) hpre s hs
    obtain ⟨s2, _, h2⟩ := forRet_goesOn_append (resRefStep (isopen p r fuel) p r)
      (fun x => transparent_resRefStep p r _ hrecT x) pre2 (st :: post2) hpre2 s1 hs1
    refine ⟨s2, ?_⟩
    rw [isopen_eq_classify p r fuel b i s instr hi hreq hne hrec]
    have hstore : resRefStep (isopen p r fuel) p r st s2 = Res.ret (some false) s2 := by
      unfold resRefStep
      simp only [hst]
      rfl
    have hstep : cRefStep (isopen p r fuel) p r cRef s1 = Res.ret (some false) s2 := by
      unfold cRefStep
      simp only [hval, hrr]
      have hz : ¬ (pre2 ++ st :: post2).length = 0 := by simp
      simp only [beq_iff_eq, hz, if_false]
      rw [h2]
      exact forRet_cons_some hstore
    have hloop : forRet (cRefStep (isopen p r fuel) p r) (p.instr instr).referrers s
        = Res.ret (some false) s2 := by
      rw [hcr, h1]
      exact forRet_cons_some hstep
    unfold classify
    rw [M.bind_ret hloop]; rfl

/-- C6, at `statusThenGlobal` of the global package (`_ = resp.StatusCode;
globalResp = resp`), with consumption checking enabled: the loop goes on past
the accessor of `StatusCode`, whose load is no body load, and the store into
the global decides. -/
theorem C6_global_store_closed_witness :
    ∃ s1, isopen Fixture.globalPkg (Fixture.runner true) 1 0 0 [] = Res.ret false s1 :=
  C6_global_store_closed Fixture.globalPkg (Fixture.runner true) 0 0 0 [] 0 1 5 [] [2] [3] []
    (Value.instr 1) (Value.instr 1) Fixture.tRespCell (cacheOK_nil _)
    (by decide) (by decide) (by decide) (by decide) (by decide) (by decide) (by decide)
    (by decide)

/-- A function without an object is never out of scope for
`noImportedNetHTTP`: the answer is `false` and the map is not touched. -/
theorem noImportedNetHTTP_no_object (p : Program) (f : FuncId) (s : SkipFile)
    (h : (p.func f).object = none) : noImportedNetHTTP p f s = Res.ret false s := by
  unfold noImportedNetHTTP
  rw [h]
  rfl

/-- C18, the defect. In the package `bailPkg` the response of `fetch()` is
stored into the cell of `resp`, and the first closure that captures the cell
is the function literal of `capture`, which lies in the second file of the
package; that file does not import `net/http`.  The claim asks for `false`.
The function literal has no object, so `noImportedNetHTTP` returns `false` at
its first test and never looks at the file: the bail-out `return false` of the
`MakeClosure` branch is not taken, the body of the closure is examined by
`calledInFunc`, and `isopen` returns `true` in both modes; the run reports the
call of `fetch`. -/
theorem C18_bail_out_not_taken :
    (Fixture.bailPkg.instr 8).kind = InstrKind.makeClosure 3 ∧
    (Fixture.bailPkg.func 3).object = none ∧
    fileOf Fixture.bailPkg (Fixture.bailPkg.instr 8).pos = some 1 ∧
    scanImports Fixture.bailPkg 1 = true ∧
    (∀ s, noImportedNetHTTP Fixture.bailPkg 3 s = Res.ret false s) ∧
    (∀ fuel cc, isopen Fixture.bailPkg (Fixture.runner cc) (fuel + 2) 1 1 []
      = Res.ret true []) ∧
    (∀ cc, runWithRunner 2 Fixture.bailPkg cc
      = Res.ret ⟨none, [⟨2118, message cc⟩]⟩ []) := by
  refine ⟨rfl, rfl, by decide, by decide,
    fun s => noImportedNetHTTP_no_object Fixture.bailPkg 3 s rfl, ?_, ?_⟩
  · intro fuel cc
    cases cc <;> rfl
  · intro cc
    cases cc <;> decide

end Bodyclose
